import Mathlib

/-!
# A shallow embedding of the memory-manager simulator (`mymemory.c`)

The C program keeps one global free list (`freehead`) of block headers
(`node_t`) that live inside a heap obtained from `sbrk`.  The embedding below
follows the source statement by statement.

Conventions of the embedding (LP64, two's complement, as on the platforms the
program targets through `sbrk` and `pthread`):

* an address is an `Int`; a `node_t *` that may be `NULL` is an `Option Int`;
* memory is a map from header addresses to `node_t` records; the three fields of
  a header are written one at a time, in the order of the source.  Headers at
  different addresses are independent records, and every address can be read
  and written.  This is exact for the runs whose headers lie 16 bytes or more
  apart inside the arena, which is the case of every run evaluated on this
  memory below.  The program can also create headers 8 bytes apart, which share
  bytes, and touch addresses outside the arena, where it faults: for such runs
  the program is embedded a second time, on bytes (section `Raw`);
* `int` values are `Int`s kept in `[-2^31, 2^31)`; `unsigned int` values are
  `Int`s kept in `[0, 2^32)`; every conversion and every 32-bit operation of the
  source is written out with `u32` / `i32` (conversion to `int` and overflowing
  `int` arithmetic wrap, as on the target machines);
* loops take a fuel argument; a run that exhausts it is reported as
  `Run.loops`, a dereference of `NULL` as `Run.crash`;
* `sbrk(4096)` succeeds or fails as the environment decides: the outcome is an
  explicit Boolean argument; memory beyond the program break holds whatever the
  map holds there (on bytes, in `Raw`, an access there is a fault).
-/

namespace MemSim

/-! ## Machine integers -/

/-- Reduction to `unsigned int` (conversion to, and arithmetic in, 32-bit unsigned). -/
def u32 (x : Int) : Int := x % 4294967296

/-- Reduction to `int` (two's-complement conversion to a 32-bit signed value). -/
def i32 (x : Int) : Int := (x + 2147483648) % 4294967296 - 2147483648

/-- The macro `#define BLOCK_SIZE 16`. -/
def BLOCK_SIZE : Int := 16

/-- The macro `#define ALIGN8(x) ( (~7)&((x)+7) )` at an `unsigned int` operand:
the `int` constant `~7` is converted to `unsigned int`, and `x + 7` wraps modulo
`2^32`. -/
def ALIGN8 (x : Int) : Int := Int.land (u32 (Int.lnot 7)) (u32 (x + 7))

/-- The macro `#define ALIGN8(x) ( (~7)&((x)+7) )` at an `int` operand (a header's
`size` field): the sum and the `&` are taken on the two's-complement
representations and the result is an `int` again.  (An overflowing `x + 7` is
undefined in C; it wraps here, as it does on the target machines.) -/
def ALIGN8i (x : Int) : Int := i32 (Int.land (u32 (Int.lnot 7)) (u32 (x + 7)))

/-! ## Data structures (`memory.h`) -/

/-- The block header `node_t`: `int size; int free; struct ___node_t * next;`
(`free` is 0 if the block is free, 1 if it is in use). -/
structure node_t where
  size : Int
  free : Int
  next : Option Int
deriving DecidableEq

/-- The global state of the program: the memory holding the headers, the global
`freehead`, and the program break maintained by `sbrk`.  One record per address:
two headers less than 16 bytes apart do not share fields here as they share bytes
in the program, and no access faults (see `Raw.Machine` for both). -/
structure Heap where
  mem : Int → node_t
  freehead : Option Int
  brk : Int

/-- The store `p->size = v`. -/
def Heap.setSize (s : Heap) (p v : Int) : Heap :=
  { s with mem := fun a => if a = p then { s.mem a with size := v } else s.mem a }

/-- The store `p->free = v`. -/
def Heap.setFree (s : Heap) (p v : Int) : Heap :=
  { s with mem := fun a => if a = p then { s.mem a with free := v } else s.mem a }

/-- The store `p->next = v`. -/
def Heap.setNext (s : Heap) (p : Int) (v : Option Int) : Heap :=
  { s with mem := fun a => if a = p then { s.mem a with next := v } else s.mem a }

/-- The assignment `freehead = v`. -/
def Heap.setHead (s : Heap) (v : Option Int) : Heap :=
  { s with freehead := v }

/-- The outcome of running a piece of the program. -/
inductive Run (α : Type) where
  | ret : α → Run α
  | loops : Run α
  | crash : Run α
deriving DecidableEq

/-! ## `mymalloc_init` -/

/-- The function `mymalloc_init` (lines 33-58).  `ok` tells whether `sbrk(4096)`
succeeds.  The three stores through `freehead` are performed before the result
of `sbrk` is tested, as in the source.  When `sbrk` fails these are stores at the
program break, outside the arena: here they go through and 1 is returned, in the
program they fault (`Raw.mymalloc_init`); only the case `ok = true` is exact. -/
def mymalloc_init (s : Heap) (ok : Bool) : Int × Heap :=
  let base := s.brk
  let s1 := s.setHead (some base)
  let s2 : Heap := if ok then { s1 with brk := s1.brk + 4096 } else s1
  let s3 := s2.setSize base (4096 - BLOCK_SIZE)
  let s4 := s3.setNext base none
  let s5 := s4.setFree base 0
  if ok then (0, s5) else (1, s5)

/-! ## The helpers of `coalesce` -/

/-- The loop of `find_leftAdj` (lines 296-305), started at `markPtr`. -/
def find_leftAdj_loop (s : Heap) (currPtr : Int) : Nat → Option Int → Run (Option Int)
  | _, none => Run.ret none
  | 0, some _ => Run.loops
  | fuel + 1, some markPtr =>
    if (s.mem markPtr).free = 0 ∧
        currPtr = markPtr + BLOCK_SIZE + ALIGN8i (s.mem markPtr).size then
      Run.ret (some markPtr)
    else find_leftAdj_loop s currPtr fuel (s.mem markPtr).next

/-- The function `find_leftAdj` (lines 289-308). -/
def find_leftAdj (fuel : Nat) (s : Heap) (currPtr : Int) : Run (Option Int) :=
  find_leftAdj_loop s currPtr fuel s.freehead

/-- The function `find_rightAdj` (lines 315-327). -/
def find_rightAdj (s : Heap) (currPtr : Int) : Option Int :=
  let nextPtr := currPtr + BLOCK_SIZE + ALIGN8i (s.mem currPtr).size
  if (s.mem nextPtr).free = 0 then some nextPtr else none

/-- The loop of `find_prevAdj` (lines 340-349), started at `markPtr`. -/
def find_prevAdj_loop (s : Heap) (currPtr : Int) : Nat → Option Int → Run (Option Int)
  | _, none => Run.ret none
  | 0, some _ => Run.loops
  | fuel + 1, some markPtr =>
    if (s.mem markPtr).next = some currPtr then Run.ret (some markPtr)
    else find_prevAdj_loop s currPtr fuel (s.mem markPtr).next

/-- The function `find_prevAdj` (lines 334-352). -/
def find_prevAdj (fuel : Nat) (s : Heap) (currPtr : Int) : Run (Option Int) :=
  find_prevAdj_loop s currPtr fuel s.freehead

/-! ## `coalesce` -/

/-- The branch `leftAdj && rightAdj` of `coalesce` (lines 220-240). -/
def coalesce_both (fuel : Nat) (s : Heap) (current leftAdj rightAdj : Int) : Run Heap :=
  let relinked : Run Heap :=
    if some rightAdj = s.freehead then
      Run.ret (s.setHead (s.mem rightAdj).next)
    else
      match find_prevAdj fuel s rightAdj with
      | Run.loops => Run.loops
      | Run.crash => Run.crash
      | Run.ret none => Run.crash
      | Run.ret (some changeNextPtr) =>
        Run.ret (s.setNext changeNextPtr (s.mem rightAdj).next)
  match relinked with
  | Run.loops => Run.loops
  | Run.crash => Run.crash
  | Run.ret s1 =>
    Run.ret (s1.setSize leftAdj
      (i32 (ALIGN8i (s1.mem leftAdj).size + ALIGN8i (s1.mem current).size
        + ALIGN8i (s1.mem rightAdj).size + 2 * BLOCK_SIZE)))

/-- The branch `leftAdj` only of `coalesce` (lines 242-248). -/
def coalesce_left (s : Heap) (current leftAdj : Int) : Heap :=
  s.setSize leftAdj
    (i32 (ALIGN8i (s.mem leftAdj).size + ALIGN8i (s.mem current).size + BLOCK_SIZE))

/-- The branch `rightAdj` only of `coalesce` (lines 250-272). -/
def coalesce_right (fuel : Nat) (s : Heap) (current rightAdj : Int) : Run Heap :=
  let relinked : Run Heap :=
    if some rightAdj = s.freehead then
      let s1 := s.setHead (some current)
      Run.ret (s1.setNext current (s1.mem rightAdj).next)
    else
      match find_prevAdj fuel s rightAdj with
      | Run.loops => Run.loops
      | Run.crash => Run.crash
      | Run.ret none => Run.crash
      | Run.ret (some changeNextPtr) =>
        let s1 := s.setNext changeNextPtr (some current)
        Run.ret (s1.setNext current (s1.mem rightAdj).next)
  match relinked with
  | Run.loops => Run.loops
  | Run.crash => Run.crash
  | Run.ret s2 =>
    Run.ret (s2.setSize current
      (i32 (ALIGN8i (s2.mem current).size + ALIGN8i (s2.mem rightAdj).size + BLOCK_SIZE)))

/-- The last branch of `coalesce` (lines 274-280): no adjacent free block. -/
def coalesce_none (s : Heap) (current : Int) : Heap :=
  (s.setNext current s.freehead).setHead (some current)

/-- The function `coalesce` (lines 205-282).  Its return value is always 0 and is
ignored by both callers, so only the resulting state is kept. -/
def coalesce (fuel : Nat) (s : Heap) (current : Int) (isheap : Int) : Run Heap :=
  match find_leftAdj fuel s current with
  | Run.loops => Run.loops
  | Run.crash => Run.crash
  | Run.ret leftAdj =>
    let rightAdj : Option Int := if isheap ≠ 1 then find_rightAdj s current else none
    match leftAdj, rightAdj with
    | some l, some r => coalesce_both fuel s current l r
    | some l, none => Run.ret (coalesce_left s current l)
    | none, some r => coalesce_right fuel s current r
    | none, none => Run.ret (coalesce_none s current)

/-! ## `increase_heap` -/

/-- The function `increase_heap` (lines 174-195).  `ok` tells whether
`sbrk(4096)` succeeds.  The new header's `free` and `next` fields are not
written before `coalesce` is called. -/
def increase_heap (fuel : Nat) (s : Heap) (ok : Bool) : Run (Int × Heap) :=
  let newPtr := s.brk
  if ok then
    let s1 : Heap := { s with brk := s.brk + 4096 }
    let s2 := s1.setSize newPtr (4096 - BLOCK_SIZE)
    match coalesce fuel s2 newPtr 1 with
    | Run.loops => Run.loops
    | Run.crash => Run.crash
    | Run.ret s3 => Run.ret (0, s3)
  else Run.ret (-1, s)

/-! ## `malloc_lock` and `mymalloc` -/

/-- The body of the `if` of `malloc_lock` (lines 106-145): split the block at
`currPtr` for a request of `size` bytes; `prevPtr` is the node visited before
it.  Returns the payload pointer and the new state. -/
def malloc_split (s : Heap) (size : Int) (prevPtr : Option Int) (currPtr : Int) :
    Run (Int × Heap) :=
  let newPtr := currPtr + ALIGN8 size + BLOCK_SIZE
  let s1 := s.setSize newPtr
    (i32 (u32 (u32 (u32 (s.mem currPtr).size - ALIGN8 size) - BLOCK_SIZE)))
  let s2 := s1.setFree newPtr 0
  match prevPtr with
  | none =>
    match s2.freehead with
    | none => Run.crash
    | some h =>
      let s3 := s2.setNext newPtr (s2.mem h).next
      let s4 := s3.setHead (some newPtr)
      let s5 := s4.setSize currPtr (i32 size)
      let s6 := s5.setFree currPtr 1
      Run.ret (currPtr + BLOCK_SIZE, s6)
  | some p =>
    let s3 := s2.setNext newPtr s2.freehead
    let s4 := s3.setHead (some newPtr)
    let s5 := s4.setNext p (s4.mem currPtr).next
    let s6 := s5.setSize currPtr (i32 size)
    let s7 := s6.setFree currPtr 1
    Run.ret (currPtr + BLOCK_SIZE, s7)

/-- The `while` loop of `malloc_lock` (lines 102-152).  `Run.ret none` means the
loop ended without a fit; `Run.ret (some (p, s'))` means the function returned
`p` from inside the loop. -/
def malloc_loop (s : Heap) (size : Int) : Nat → Option Int → Option Int →
    Run (Option (Int × Heap))
  | _, _, none => Run.ret none
  | 0, _, some _ => Run.loops
  | fuel + 1, prevPtr, some currPtr =>
    if u32 (s.mem currPtr).size ≥ u32 (ALIGN8 size + BLOCK_SIZE) ∧
        (s.mem currPtr).free = 0 then
      match malloc_split s size prevPtr currPtr with
      | Run.loops => Run.loops
      | Run.crash => Run.crash
      | Run.ret r => Run.ret (some r)
    else malloc_loop s size fuel (some currPtr) (s.mem currPtr).next

/-- What a call of `malloc_lock` returns, with the number of calls of
`increase_heap` it made (a ghost counter, not a value of the program). -/
structure MallocResult where
  ptr : Option Int
  heap : Heap
  heapCalls : Nat

/-- The function `malloc_lock` (lines 90-165).  `size` is the `unsigned int`
argument; `pages i` tells whether the `i`-th `sbrk(4096)` of this call succeeds.
One unit of fuel is spent per (recursive) call; what is left bounds the loops
of the call. -/
def malloc_lock : Nat → (Nat → Bool) → Heap → Int → Run MallocResult
  | 0, _, _, _ => Run.loops
  | fuel + 1, pages, s, size =>
    match malloc_loop s size fuel none s.freehead with
    | Run.loops => Run.loops
    | Run.crash => Run.crash
    | Run.ret (some (p, s1)) => Run.ret ⟨some p, s1, 0⟩
    | Run.ret none =>
      match increase_heap fuel s (pages 0) with
      | Run.loops => Run.loops
      | Run.crash => Run.crash
      | Run.ret (rc, s1) =>
        if rc = -1 then Run.ret ⟨none, s1, 1⟩
        else
          match malloc_lock fuel (fun i => pages (i + 1)) s1 size with
          | Run.loops => Run.loops
          | Run.crash => Run.crash
          | Run.ret r => Run.ret ⟨r.ptr, r.heap, r.heapCalls + 1⟩

/-- The function `mymalloc` (lines 66-79): `malloc_lock` between taking and
releasing the global lock. -/
def mymalloc (fuel : Nat) (pages : Nat → Bool) (s : Heap) (size : Int) : Run MallocResult :=
  malloc_lock fuel pages s size

/-! ## `free_lock` and `myfree` -/

/-- The function `free_lock` (lines 380-394). -/
def free_lock (fuel : Nat) (s : Heap) (ptr : Int) : Run (Int × Heap) :=
  let freePtr := ptr - BLOCK_SIZE
  if (s.mem freePtr).free = 1 then
    let s1 := s.setFree freePtr 0
    match coalesce fuel s1 freePtr 0 with
    | Run.loops => Run.loops
    | Run.crash => Run.crash
    | Run.ret s2 => Run.ret (0, s2)
  else Run.ret (1, s)

/-- The function `myfree` (lines 360-371): `free_lock` between taking and
releasing the global lock. -/
def myfree (fuel : Nat) (s : Heap) (ptr : Int) : Run (Int × Heap) :=
  free_lock fuel s ptr

/-! ## Sequences of calls -/

/-- A call of the public interface. -/
inductive Call where
  | allocate (size : Int)
  | deallocate (ptr : Int)
deriving DecidableEq

/-- What a call hands back: the pointer of `mymalloc` (with the ghost count of
`increase_heap` calls), or the status of `myfree`. -/
inductive Reply where
  | pointer (p : Option Int) (heapCalls : Nat)
  | status (rc : Int)
deriving DecidableEq

/-- One call on state `s`; every `sbrk(4096)` of the call succeeds iff `grow`. -/
def step (fuel : Nat) (grow : Bool) (s : Heap) : Call → Run (Reply × Heap)
  | Call.allocate size =>
    match mymalloc fuel (fun _ => grow) s size with
    | Run.loops => Run.loops
    | Run.crash => Run.crash
    | Run.ret r => Run.ret (Reply.pointer r.ptr r.heapCalls, r.heap)
  | Call.deallocate ptr =>
    match myfree fuel s ptr with
    | Run.loops => Run.loops
    | Run.crash => Run.crash
    | Run.ret (rc, s1) => Run.ret (Reply.status rc, s1)

/-- A sequence of calls, run in order from state `s`; the replies are collected. -/
def steps (fuel : Nat) (grow : Bool) : Heap → List Call → Run (List Reply × Heap)
  | s, [] => Run.ret ([], s)
  | s, c :: cs =>
    match step fuel grow s c with
    | Run.loops => Run.loops
    | Run.crash => Run.crash
    | Run.ret (r, s1) =>
      match steps fuel grow s1 cs with
      | Run.loops => Run.loops
      | Run.crash => Run.crash
      | Run.ret (rs, s2) => Run.ret (r :: rs, s2)

/-- The replies of a run. -/
def replies {α β : Type} : Run (α × β) → Run α
  | Run.ret (a, _) => Run.ret a
  | Run.loops => Run.loops
  | Run.crash => Run.crash

/-- The state a run ends in (the given default when the run did not return). -/
def heapAfter {α : Type} (dflt : Heap) : Run (α × Heap) → Heap
  | Run.ret (_, s) => s
  | Run.loops => dflt
  | Run.crash => dflt

/-- A machine before `mymalloc_init`: zero-filled memory, no free list, the
program break at address `65536`. -/
def boot : Heap := ⟨fun _ => ⟨0, 0, none⟩, none, 65536⟩

/-- The state right after a successful `mymalloc_init` on `boot`. -/
def fresh : Heap := (mymalloc_init boot true).2

/-! ## The vocabulary of the specification -/

/-- The payload ranges `[p, p + n)` and `[q, q + m)` have a byte in common. -/
def overlaps (p n q m : Int) : Prop := p < q + m ∧ q < p + n ∧ p < p + n ∧ q < q + m

instance (p n q m : Int) : Decidable (overlaps p n q m) := by
  unfold overlaps; infer_instance

/-- The footprint of the block whose header is at `a`: the header plus the
aligned payload, as `find_leftAdj` and `find_rightAdj` compute it. -/
def footprint (s : Heap) (a : Int) : Int := BLOCK_SIZE + ALIGN8i (s.mem a).size

/-- The free list: `l` is the sequence of nodes visited from `p` along the `next`
links, ending at `NULL`. -/
def ListFrom (mem : Int → node_t) : Option Int → List Int → Prop
  | none, [] => True
  | none, _ :: _ => False
  | some _, [] => False
  | some a, x :: xs => a = x ∧ ListFrom mem (mem x).next xs

instance ListFrom.decide (mem : Int → node_t) :
    (p : Option Int) → (l : List Int) → Decidable (ListFrom mem p l)
  | none, [] => isTrue trivial
  | none, _ :: _ => isFalse (fun h => h)
  | some _, [] => isFalse (fun h => h)
  | some a, x :: xs =>
    match decEq a x, ListFrom.decide mem (mem x).next xs with
    | isTrue h1, isTrue h2 => isTrue ⟨h1, h2⟩
    | isFalse h1, _ => isFalse (fun h => h1 h.1)
    | _, isFalse h2 => isFalse (fun h => h2 h.2)

/-- The blocks tile the arena: `bs` lists the header addresses from `a` upwards,
each header sitting at the previous one plus its footprint, the last block
ending exactly at the program break. -/
def Tiles (s : Heap) : Int → List Int → Prop
  | a, [] => a = s.brk
  | a, x :: xs => x = a ∧ a < s.brk ∧ Tiles s (a + footprint s a) xs

instance Tiles.decide (s : Heap) : (a : Int) → (bs : List Int) → Decidable (Tiles s a bs)
  | a, [] => decEq a s.brk
  | a, x :: xs =>
    match decEq x a, Int.decLt a s.brk, Tiles.decide s (a + footprint s a) xs with
    | isTrue h1, isTrue h2, isTrue h3 => isTrue ⟨h1, h2, h3⟩
    | isFalse h1, _, _ => isFalse (fun h => h1 h.1)
    | _, isFalse h2, _ => isFalse (fun h => h2 h.2.1)
    | _, _, isFalse h3 => isFalse (fun h => h3 h.2.2)

/-- Two distinct free headers `a` and `b`, the block of `a` ending where the
header `b` starts. -/
def adjacentFree (s : Heap) (a b : Int) : Prop :=
  a ≠ b ∧ (s.mem a).free = 0 ∧ (s.mem b).free = 0 ∧ a + footprint s a = b

instance (s : Heap) (a b : Int) : Decidable (adjacentFree s a b) := by
  unfold adjacentFree; infer_instance

/-- The state reached from `fresh` by `a = mymalloc(4294967295)`, `b = mymalloc(8)`,
`myfree(a)`, `mymalloc(24)`. -/
def wrapped : Heap :=
  heapAfter fresh (steps 8 false fresh
    [Call.allocate 4294967295, Call.allocate 8, Call.deallocate 65552, Call.allocate 24])

/-- The state reached from `fresh` by `a = mymalloc(4294967295)`, `b = mymalloc(8)`,
`e = mymalloc(8)`, `myfree(a)`, `c = mymalloc(24)`, `myfree(c)`. -/
def orphaned : Heap :=
  heapAfter fresh (steps 8 false fresh
    [Call.allocate 4294967295, Call.allocate 8, Call.allocate 8, Call.deallocate 65552,
      Call.allocate 24, Call.deallocate 65552])

/-- The state reached from `fresh` by `a = mymalloc(100)`, `b = mymalloc(200)`,
`myfree(a)`: the free list is the block of `a` followed by the rest of the page. -/
def oneFreed : Heap :=
  heapAfter fresh (steps 8 false fresh
    [Call.allocate 100, Call.allocate 200, Call.deallocate 65552])

/-- The state reached from `fresh` by `a = mymalloc(100)`, `b = mymalloc(200)`,
`c = mymalloc(50)`, `myfree(a)`, `myfree(c)`: the block of `b` lies between two
free blocks. -/
def bothFree : Heap :=
  heapAfter fresh (steps 8 false fresh
    [Call.allocate 100, Call.allocate 200, Call.allocate 50, Call.deallocate 65552,
      Call.deallocate 65888])

/-! ## The optimized variant (`mymemory_opt.c`)

`mymalloc_init`, the loop and the split of `malloc_lock`, and the last three
branches of `coalesce` read the same in both files; the definitions above are
used for them. -/

namespace Opt

/-- The loop of `increase_heap` in `mymemory_opt.c` (lines 218-229), started at
`ptr`: the free node whose block ends at `newPtr`, if the list has one. -/
def increase_heap_loop (s : Heap) (newPtr : Int) : Nat → Option Int → Run (Option Int)
  | _, none => Run.ret none
  | 0, some _ => Run.loops
  | fuel + 1, some ptr =>
    if (s.mem ptr).free = 0 ∧ newPtr = ptr + BLOCK_SIZE + ALIGN8i (s.mem ptr).size then
      Run.ret (some ptr)
    else increase_heap_loop s newPtr fuel (s.mem ptr).next

/-- The function `increase_heap` of `mymemory_opt.c` (lines 200-238).  `ok` tells
whether `sbrk(4096)` succeeds. -/
def increase_heap (fuel : Nat) (s : Heap) (ok : Bool) : Run (Int × Heap) :=
  let newPtr := s.brk
  if ok then
    let s1 : Heap := { s with brk := s.brk + 4096 }
    match increase_heap_loop s1 newPtr fuel s1.freehead with
    | Run.loops => Run.loops
    | Run.crash => Run.crash
    | Run.ret (some ptr) =>
      Run.ret (0, s1.setSize ptr (i32 (ALIGN8i (s1.mem ptr).size + 4096)))
    | Run.ret none =>
      let s2 := s1.setSize newPtr (4096 - BLOCK_SIZE)
      let s3 := s2.setNext newPtr s2.freehead
      Run.ret (0, s3.setHead (some newPtr))
  else Run.ret (-1, s)

/-- The loop of `coalesce` in `mymemory_opt.c` (lines 271-299), started at `ptr`
with the current values of `leftAdj` and `changeNextPtr`; it returns their final
values.  (`changeNextPtr` is declared without a value; `none` stands for it.  Using
it before it is assigned is undefined in C: the program then follows whatever the
stack holds, here it is a dereference of `NULL`.) -/
def coalesce_loop (s : Heap) (current : Int) (rightAdj : Option Int) :
    Nat → Option Int → Option Int → Option Int → Run (Option Int × Option Int)
  | _, leftAdj, changeNextPtr, none => Run.ret (leftAdj, changeNextPtr)
  | 0, _, _, some _ => Run.loops
  | fuel + 1, leftAdj, changeNextPtr, some ptr =>
    let found : Prop :=
      (s.mem ptr).free = 0 ∧ current = ptr + BLOCK_SIZE + ALIGN8i (s.mem ptr).size
    let leftAdj1 : Option Int := if found then some ptr else leftAdj
    if found ∧ rightAdj = none then Run.ret (leftAdj1, changeNextPtr)
    else if (s.mem ptr).next = rightAdj then
      if leftAdj1 ≠ none then Run.ret (leftAdj1, some ptr)
      else coalesce_loop s current rightAdj fuel leftAdj1 (some ptr) (s.mem ptr).next
    else coalesce_loop s current rightAdj fuel leftAdj1 changeNextPtr (s.mem ptr).next

/-- The branch `leftAdj && rightAdj` of `coalesce` in `mymemory_opt.c`
(lines 302-319). -/
def coalesce_both (s : Heap) (current leftAdj rightAdj : Int) (changeNextPtr : Option Int) :
    Run Heap :=
  let relinked : Run Heap :=
    if some rightAdj = s.freehead then
      Run.ret (s.setHead (s.mem rightAdj).next)
    else
      match changeNextPtr with
      | none => Run.crash
      | some c => Run.ret (s.setNext c (s.mem rightAdj).next)
  match relinked with
  | Run.loops => Run.loops
  | Run.crash => Run.crash
  | Run.ret s1 =>
    Run.ret (s1.setSize leftAdj
      (i32 (ALIGN8i (s1.mem leftAdj).size + ALIGN8i (s1.mem current).size
        + ALIGN8i (s1.mem rightAdj).size + 2 * BLOCK_SIZE)))

/-- The branch `rightAdj` only of `coalesce` in `mymemory_opt.c` (lines 329-349). -/
def coalesce_right (s : Heap) (current rightAdj : Int) (changeNextPtr : Option Int) :
    Run Heap :=
  let relinked : Run Heap :=
    if some rightAdj = s.freehead then
      let s1 := s.setHead (some current)
      Run.ret (s1.setNext current (s1.mem rightAdj).next)
    else
      match changeNextPtr with
      | none => Run.crash
      | some c =>
        let s1 := s.setNext c (some current)
        Run.ret (s1.setNext current (s1.mem rightAdj).next)
  match relinked with
  | Run.loops => Run.loops
  | Run.crash => Run.crash
  | Run.ret s2 =>
    Run.ret (s2.setSize current
      (i32 (ALIGN8i (s2.mem current).size + ALIGN8i (s2.mem rightAdj).size + BLOCK_SIZE)))

/-- The function `coalesce` of `mymemory_opt.c` (lines 248-359). -/
def coalesce (fuel : Nat) (s : Heap) (current : Int) (isheap : Int) : Run Heap :=
  let ptr := current + BLOCK_SIZE + ALIGN8i (s.mem current).size
  let rightAdj : Option Int :=
    if isheap ≠ 1 then (if (s.mem ptr).free = 0 then some ptr else none) else none
  match coalesce_loop s current rightAdj fuel none none s.freehead with
  | Run.loops => Run.loops
  | Run.crash => Run.crash
  | Run.ret (leftAdj, changeNextPtr) =>
    match leftAdj, rightAdj with
    | some l, some r => coalesce_both s current l r changeNextPtr
    | some l, none => Run.ret (coalesce_left s current l)
    | none, some r => coalesce_right s current r changeNextPtr
    | none, none => Run.ret (coalesce_none s current)

/-- The function `malloc_lock` of `mymemory_opt.c` (lines 116-191): the text of
`mymemory.c`, calling the `increase_heap` of this file. -/
def malloc_lock : Nat → (Nat → Bool) → Heap → Int → Run MallocResult
  | 0, _, _, _ => Run.loops
  | fuel + 1, pages, s, size =>
    match malloc_loop s size fuel none s.freehead with
    | Run.loops => Run.loops
    | Run.crash => Run.crash
    | Run.ret (some (p, s1)) => Run.ret ⟨some p, s1, 0⟩
    | Run.ret none =>
      match increase_heap fuel s (pages 0) with
      | Run.loops => Run.loops
      | Run.crash => Run.crash
      | Run.ret (rc, s1) =>
        if rc = -1 then Run.ret ⟨none, s1, 1⟩
        else
          match malloc_lock fuel (fun i => pages (i + 1)) s1 size with
          | Run.loops => Run.loops
          | Run.crash => Run.crash
          | Run.ret r => Run.ret ⟨r.ptr, r.heap, r.heapCalls + 1⟩

/-- The function `mymalloc` of `mymemory_opt.c`. -/
def mymalloc (fuel : Nat) (pages : Nat → Bool) (s : Heap) (size : Int) : Run MallocResult :=
  malloc_lock fuel pages s size

/-- The function `free_lock` of `mymemory_opt.c`: the text of `mymemory.c`,
calling the `coalesce` of this file. -/
def free_lock (fuel : Nat) (s : Heap) (ptr : Int) : Run (Int × Heap) :=
  let freePtr := ptr - BLOCK_SIZE
  if (s.mem freePtr).free = 1 then
    let s1 := s.setFree freePtr 0
    match coalesce fuel s1 freePtr 0 with
    | Run.loops => Run.loops
    | Run.crash => Run.crash
    | Run.ret s2 => Run.ret (0, s2)
  else Run.ret (1, s)

/-- The function `myfree` of `mymemory_opt.c`. -/
def myfree (fuel : Nat) (s : Heap) (ptr : Int) : Run (Int × Heap) :=
  free_lock fuel s ptr

/-- One call of the optimized variant on state `s`; every `sbrk(4096)` of the
call succeeds iff `grow`. -/
def step (fuel : Nat) (grow : Bool) (s : Heap) : Call → Run (Reply × Heap)
  | Call.allocate size =>
    match mymalloc fuel (fun _ => grow) s size with
    | Run.loops => Run.loops
    | Run.crash => Run.crash
    | Run.ret r => Run.ret (Reply.pointer r.ptr r.heapCalls, r.heap)
  | Call.deallocate ptr =>
    match myfree fuel s ptr with
    | Run.loops => Run.loops
    | Run.crash => Run.crash
    | Run.ret (rc, s1) => Run.ret (Reply.status rc, s1)

/-- A sequence of calls of the optimized variant, run in order from state `s`. -/
def steps (fuel : Nat) (grow : Bool) : Heap → List Call → Run (List Reply × Heap)
  | s, [] => Run.ret ([], s)
  | s, c :: cs =>
    match step fuel grow s c with
    | Run.loops => Run.loops
    | Run.crash => Run.crash
    | Run.ret (r, s1) =>
      match steps fuel grow s1 cs with
      | Run.loops => Run.loops
      | Run.crash => Run.crash
      | Run.ret (rs, s2) => Run.ret (r :: rs, s2)

end Opt

/-- The state the optimized variant reaches from `fresh` by
`a = mymalloc(4294967295)`, `b = mymalloc(32)`, `myfree(a)`, `c = mymalloc(48)`,
`d = mymalloc(24)`, `myfree(b)`. -/
def optStuck : Heap :=
  heapAfter fresh (Opt.steps 8 false fresh
    [Call.allocate 4294967295, Call.allocate 32, Call.deallocate 65552, Call.allocate 48,
      Call.allocate 24, Call.deallocate 65568])

/-! ## Reachable states and alignment -/

/-- The nodes of the free list: what the loops of the program visit from
`freehead` along the `next` links. -/
inductive OnList (s : Heap) : Int → Prop
  | head (h : Int) : s.freehead = some h → OnList s h
  | next (a x : Int) : OnList s a → (s.mem a).next = some x → OnList s x

/-- The states reachable from the state `s0` before `mymalloc_init`, with the
non-null pointers that `mymalloc` has returned so far.  `myfree` is called on
such pointers only (possibly more than once). -/
inductive Reach (s0 : Heap) : Heap → List Int → Prop
  | init (ok : Bool) : Reach s0 (mymalloc_init s0 ok).2 []
  | allocate (s : Heap) (ps : List Int) (fuel : Nat) (pages : Nat → Bool) (n : Int)
      (r : MallocResult) :
      Reach s0 s ps → 0 ≤ n → n < 4294967296 → mymalloc fuel pages s n = Run.ret r →
      Reach s0 r.heap (r.ptr.toList ++ ps)
  | deallocate (s s' : Heap) (ps : List Int) (fuel : Nat) (p rc : Int) :
      Reach s0 s ps → p ∈ ps → myfree fuel s p = Run.ret (rc, s') → Reach s0 s' ps

/-- The set `W` of addresses contains the head of the free list and the
successor of each of its members. -/
def Closed (W : Int → Prop) (s : Heap) : Prop :=
  (∀ h, s.freehead = some h → W h) ∧ ∀ a x, W a → (s.mem a).next = some x → W x

/-- The program break and every node of the free list lie at a multiple of 8
from `base`. -/
def Inv (base : Int) (s : Heap) : Prop :=
  (s.brk - base) % 8 = 0 ∧ ∀ a, OnList s a → (a - base) % 8 = 0

/-! ## The program on byte-addressed memory

The definitions of this section embed `mymemory.c` a second time, on a memory of
bytes: a header is the 16 bytes `size` (offset 0, 4 bytes), `free` (offset 4,
4 bytes), `next` (offset 8, 8 bytes), little-endian, so headers less than 16 bytes
apart share bytes; and the program may only access the addresses from `low` up
to the program break, any other access is a fault (`Run.crash`).  `NULL` is the
address 0; addresses are integers, pointer arithmetic does not wrap. -/

/-- Sequencing of two pieces of the program: the second runs on the result of the
first, unless the first does not return. -/
def Run.bind {α β : Type} : Run α → (α → Run β) → Run β
  | Run.ret a, f => f a
  | Run.loops, _ => Run.loops
  | Run.crash, _ => Run.crash

namespace Raw

/-- The machine: the bytes of memory, the global `freehead` (0 is `NULL`), the
lowest address the program may access, and the program break. -/
structure Machine where
  byte : Int → Int
  freehead : Int
  low : Int
  brk : Int

/-- The little-endian value of the `k` bytes at address `a`. -/
def value (byte : Int → Int) (a : Int) : Nat → Int
  | 0 => 0
  | k + 1 => byte a + 256 * value byte (a + 1) k

/-- The bytes after the `k` low bytes of `v` are stored from address `a` on. -/
def write (byte : Int → Int) (a v : Int) : Nat → (Int → Int)
  | 0 => byte
  | k + 1 => write (fun x => if x = a then v % 256 else byte x) (a + 1) (v / 256) k

/-- A load of `k` bytes at address `a`; it faults outside `[low, brk)`, and at
`NULL` or below whatever `low` is. -/
def load (s : Machine) (a : Int) (k : Nat) : Run Int :=
  if 0 < a ∧ s.low ≤ a ∧ a + k ≤ s.brk then Run.ret (value s.byte a k) else Run.crash

/-- A store of the `k` low bytes of `v` at address `a`; it faults where a load
does. -/
def store (s : Machine) (a v : Int) (k : Nat) : Run Machine :=
  if 0 < a ∧ s.low ≤ a ∧ a + k ≤ s.brk then Run.ret { s with byte := write s.byte a v k }
  else Run.crash

/-- The load `p->size` (an `int`). -/
def getSize (s : Machine) (p : Int) : Run Int :=
  Run.bind (load s p 4) fun v => Run.ret (i32 v)

/-- The load `p->free` (an `int`). -/
def getFree (s : Machine) (p : Int) : Run Int :=
  Run.bind (load s (p + 4) 4) fun v => Run.ret (i32 v)

/-- The load `p->next` (a pointer). -/
def getNext (s : Machine) (p : Int) : Run Int :=
  load s (p + 8) 8

/-- The store `p->size = v`. -/
def setSize (s : Machine) (p v : Int) : Run Machine :=
  store s p (u32 v) 4

/-- The store `p->free = v`. -/
def setFree (s : Machine) (p v : Int) : Run Machine :=
  store s (p + 4) (u32 v) 4

/-- The store `p->next = v`. -/
def setNext (s : Machine) (p v : Int) : Run Machine :=
  store s (p + 8) v 8

/-- The function `mymalloc_init` (lines 33-58).  `ok` tells whether `sbrk(4096)`
succeeds.  The three stores through `freehead` come before the test of the
result of `sbrk`, as in the source. -/
def mymalloc_init (s : Machine) (ok : Bool) : Run (Int × Machine) :=
  let s1 : Machine := { s with freehead := s.brk }
  let s2 : Machine := if ok then { s1 with brk := s1.brk + 4096 } else s1
  Run.bind (setSize s2 s2.freehead (4096 - BLOCK_SIZE)) fun s3 =>
  Run.bind (setNext s3 s3.freehead 0) fun s4 =>
  Run.bind (setFree s4 s4.freehead 0) fun s5 =>
  Run.ret (if ok then 0 else 1, s5)

/-- The loop of `find_leftAdj` (lines 296-305), started at `markPtr`. -/
def find_leftAdj_loop (s : Machine) (currPtr : Int) : Nat → Int → Run Int
  | 0, markPtr => if markPtr = 0 then Run.ret 0 else Run.loops
  | fuel + 1, markPtr =>
    if markPtr = 0 then Run.ret 0
    else
      Run.bind (getFree s markPtr) fun fr =>
      Run.bind
        (if fr = 0 then
          Run.bind (getSize s markPtr) fun sz =>
            Run.ret (decide (currPtr = markPtr + BLOCK_SIZE + ALIGN8i sz))
        else Run.ret false) fun hit =>
      if hit = true then Run.ret markPtr
      else Run.bind (getNext s markPtr) fun nx => find_leftAdj_loop s currPtr fuel nx

/-- The function `find_leftAdj` (lines 289-308). -/
def find_leftAdj (fuel : Nat) (s : Machine) (currPtr : Int) : Run Int :=
  find_leftAdj_loop s currPtr fuel s.freehead

/-- The function `find_rightAdj` (lines 315-327). -/
def find_rightAdj (s : Machine) (currPtr : Int) : Run Int :=
  Run.bind (getSize s currPtr) fun sz =>
  Run.bind (getFree s (currPtr + BLOCK_SIZE + ALIGN8i sz)) fun fr =>
  if fr = 0 then Run.ret (currPtr + BLOCK_SIZE + ALIGN8i sz) else Run.ret 0

/-- The loop of `find_prevAdj` (lines 340-349), started at `markPtr`. -/
def find_prevAdj_loop (s : Machine) (currPtr : Int) : Nat → Int → Run Int
  | 0, markPtr => if markPtr = 0 then Run.ret 0 else Run.loops
  | fuel + 1, markPtr =>
    if markPtr = 0 then Run.ret 0
    else
      Run.bind (getNext s markPtr) fun nx =>
      if nx = currPtr then Run.ret markPtr else find_prevAdj_loop s currPtr fuel nx

/-- The function `find_prevAdj` (lines 334-352). -/
def find_prevAdj (fuel : Nat) (s : Machine) (currPtr : Int) : Run Int :=
  find_prevAdj_loop s currPtr fuel s.freehead

/-- The function `coalesce` (lines 205-282).  Its return value is always 0 and is
ignored by both callers, so only the resulting state is kept. -/
def coalesce (fuel : Nat) (s : Machine) (current : Int) (isheap : Int) : Run Machine :=
  Run.bind (find_leftAdj fuel s current) fun leftAdj =>
  Run.bind (if isheap ≠ 1 then find_rightAdj s current else Run.ret 0) fun rightAdj =>
  if leftAdj ≠ 0 ∧ rightAdj ≠ 0 then
    Run.bind
      (if rightAdj = s.freehead then
        Run.bind (getNext s s.freehead) fun nx => Run.ret { s with freehead := nx }
      else
        Run.bind (find_prevAdj fuel s rightAdj) fun changeNextPtr =>
        Run.bind (getNext s rightAdj) fun nx => setNext s changeNextPtr nx) fun s1 =>
    Run.bind (getSize s1 leftAdj) fun sl =>
    Run.bind (getSize s1 current) fun sc =>
    Run.bind (getSize s1 rightAdj) fun sr =>
    setSize s1 leftAdj (i32 (ALIGN8i sl + ALIGN8i sc + ALIGN8i sr + 2 * BLOCK_SIZE))
  else if leftAdj ≠ 0 then
    Run.bind (getSize s leftAdj) fun sl =>
    Run.bind (getSize s current) fun sc =>
    setSize s leftAdj (i32 (ALIGN8i sl + ALIGN8i sc + BLOCK_SIZE))
  else if rightAdj ≠ 0 then
    Run.bind
      (if rightAdj = s.freehead then
        Run.bind (getNext s rightAdj) fun nx =>
          setNext { s with freehead := current } current nx
      else
        Run.bind (find_prevAdj fuel s rightAdj) fun changeNextPtr =>
        Run.bind (setNext s changeNextPtr current) fun s1 =>
        Run.bind (getNext s1 rightAdj) fun nx => setNext s1 current nx) fun s2 =>
    Run.bind (getSize s2 current) fun sc =>
    Run.bind (getSize s2 rightAdj) fun sr =>
    setSize s2 current (i32 (ALIGN8i sc + ALIGN8i sr + BLOCK_SIZE))
  else
    Run.bind (setNext s current s.freehead) fun s1 =>
    Run.ret { s1 with freehead := current }

/-- The function `increase_heap` (lines 174-195).  `ok` tells whether
`sbrk(4096)` succeeds. -/
def increase_heap (fuel : Nat) (s : Machine) (ok : Bool) : Run (Int × Machine) :=
  let newPtr := s.brk
  if ok then
    Run.bind (setSize { s with brk := s.brk + 4096 } newPtr (4096 - BLOCK_SIZE)) fun s2 =>
    Run.bind (coalesce fuel s2 newPtr 1) fun s3 => Run.ret (0, s3)
  else Run.ret (-1, s)

/-- The body of the `if` of `malloc_lock` (lines 106-145): split the block at
`currPtr` for a request of `size` bytes; `prevPtr` is the node visited before it
(0 for none).  Returns the payload pointer and the new state. -/
def malloc_split (s : Machine) (size prevPtr currPtr : Int) : Run (Int × Machine) :=
  let newPtr := currPtr + ALIGN8 size + BLOCK_SIZE
  Run.bind (getSize s currPtr) fun sc =>
  Run.bind (setSize s newPtr (i32 (u32 (u32 (u32 sc - ALIGN8 size) - BLOCK_SIZE)))) fun s1 =>
  Run.bind (setFree s1 newPtr 0) fun s2 =>
  Run.bind
    (if prevPtr = 0 then
      Run.bind (getNext s2 s2.freehead) fun nx =>
      Run.bind (setNext s2 newPtr nx) fun s3 => Run.ret { s3 with freehead := newPtr }
    else
      Run.bind (setNext s2 newPtr s2.freehead) fun s3 =>
      Run.bind (getNext s3 currPtr) fun nx =>
        setNext { s3 with freehead := newPtr } prevPtr nx) fun s4 =>
  Run.bind (setSize s4 currPtr (i32 size)) fun s5 =>
  Run.bind (setFree s5 currPtr 1) fun s6 =>
  Run.ret (currPtr + BLOCK_SIZE, s6)

/-- The `while` loop of `malloc_lock` (lines 102-152).  `Run.ret none` means the
loop ended without a fit; `Run.ret (some (p, s'))` means the function returned
`p` from inside the loop. -/
def malloc_loop (s : Machine) (size : Int) : Nat → Int → Int → Run (Option (Int × Machine))
  | 0, _, currPtr => if currPtr = 0 then Run.ret none else Run.loops
  | fuel + 1, prevPtr, currPtr =>
    if currPtr = 0 then Run.ret none
    else
      Run.bind (getSize s currPtr) fun sc =>
      Run.bind
        (if u32 sc ≥ u32 (ALIGN8 size + BLOCK_SIZE) then
          Run.bind (getFree s currPtr) fun fr => Run.ret (decide (fr = 0))
        else Run.ret false) fun fit =>
      if fit = true then
        Run.bind (malloc_split s size prevPtr currPtr) fun r => Run.ret (some r)
      else Run.bind (getNext s currPtr) fun nx => malloc_loop s size fuel currPtr nx

/-- The function `malloc_lock` (lines 90-165): the pointer returned (0 for
`NULL`), the new state, and the number of calls of `increase_heap` (a ghost
count).  `pages i` tells whether the `i`-th `sbrk(4096)` of the call succeeds. -/
def malloc_lock : Nat → (Nat → Bool) → Machine → Int → Run (Int × Machine × Nat)
  | 0, _, _, _ => Run.loops
  | fuel + 1, pages, s, size =>
    Run.bind (malloc_loop s size fuel 0 s.freehead) fun found =>
    match found with
    | some (p, s1) => Run.ret (p, s1, 0)
    | none =>
      Run.bind (increase_heap fuel s (pages 0)) fun r =>
      if r.1 = -1 then Run.ret (0, r.2, 1)
      else
        Run.bind (malloc_lock fuel (fun i => pages (i + 1)) r.2 size) fun q =>
        Run.ret (q.1, q.2.1, q.2.2 + 1)

/-- The function `mymalloc` (lines 66-79). -/
def mymalloc (fuel : Nat) (pages : Nat → Bool) (s : Machine) (size : Int) :
    Run (Int × Machine × Nat) :=
  malloc_lock fuel pages s size

/-- The function `free_lock` (lines 380-394). -/
def free_lock (fuel : Nat) (s : Machine) (ptr : Int) : Run (Int × Machine) :=
  let freePtr := ptr - BLOCK_SIZE
  Run.bind (getFree s freePtr) fun fr =>
  if fr = 1 then
    Run.bind (setFree s freePtr 0) fun s1 =>
    Run.bind (coalesce fuel s1 freePtr 0) fun s2 => Run.ret (0, s2)
  else Run.ret (1, s)

/-- The function `myfree` (lines 360-371). -/
def myfree (fuel : Nat) (s : Machine) (ptr : Int) : Run (Int × Machine) :=
  free_lock fuel s ptr

/-- One call on state `s`; every `sbrk(4096)` of the call succeeds iff `grow`. -/
def step (fuel : Nat) (grow : Bool) (s : Machine) : Call → Run (Reply × Machine)
  | Call.allocate size =>
    Run.bind (mymalloc fuel (fun _ => grow) s size) fun r =>
      Run.ret (Reply.pointer (if r.1 = 0 then none else some r.1) r.2.2, r.2.1)
  | Call.deallocate ptr =>
    Run.bind (myfree fuel s ptr) fun r => Run.ret (Reply.status r.1, r.2)

/-- A sequence of calls, run in order from state `s`; the replies are collected. -/
def steps (fuel : Nat) (grow : Bool) : Machine → List Call → Run (List Reply × Machine)
  | s, [] => Run.ret ([], s)
  | s, c :: cs =>
    Run.bind (step fuel grow s c) fun r =>
    Run.bind (steps fuel grow r.2 cs) fun rs => Run.ret (r.1 :: rs.1, rs.2)

/-- A machine before `mymalloc_init`: zero bytes, no free list, nothing accessible
below the program break `65536`. -/
def boot : Machine := ⟨fun _ => 0, 0, 65536, 65536⟩

/-- The state a run ends in (`boot` when the run did not return). -/
def after {α : Type} : Run (α × Machine) → Machine
  | Run.ret (_, s) => s
  | Run.loops => boot
  | Run.crash => boot

/-- The state right after a successful `mymalloc_init` on `boot`. -/
def fresh : Machine := after (mymalloc_init boot true)

end Raw

/-! ## Arithmetic of the 32-bit operations -/

theorem land_mask (n : Nat) (h : n < 4294967296) : 4294967288 &&& n = n / 8 * 8 := by
  apply Nat.eq_of_testBit_eq
  intro j
  have e1 : (4294967288 : Nat) = (2 ^ 29 - 1) <<< 3 := by decide
  have e2 : n / 8 * 8 = (n >>> 3) <<< 3 := by
    rw [Nat.shiftLeft_eq, Nat.shiftRight_eq_div_pow]
  rw [e2, Nat.testBit_and, e1, Nat.testBit_shiftLeft, Nat.testBit_shiftLeft,
    Nat.testBit_two_pow_sub_one, Nat.testBit_shiftRight]
  by_cases hj : j ≥ 3
  · have e3 : 3 + (j - 3) = j := by omega
    rw [e3]
    by_cases hj2 : j - 3 < 29
    · simp [hj, hj2]
    · have hlt : n < 2 ^ j := by
        calc n < 2 ^ 32 := by simpa using h
          _ ≤ 2 ^ j := Nat.pow_le_pow_right (by norm_num) (by omega)
      simp [hj, hj2, Nat.testBit_lt_two_pow hlt]
  · simp [hj]

theorem u32_lnot_seven : u32 (Int.lnot 7) = 4294967288 := by decide

/-- The macro `ALIGN8` in arithmetic terms: the wrapped sum rounded down to a
multiple of 8. -/
theorem ALIGN8_eq (x : Int) : ALIGN8 x = u32 (x + 7) / 8 * 8 := by
  unfold ALIGN8
  rw [u32_lnot_seven]
  have h0 : 0 ≤ u32 (x + 7) := by unfold u32; omega
  have h1 : u32 (x + 7) < 4294967296 := by unfold u32; omega
  obtain ⟨n, hn⟩ := Int.eq_ofNat_of_zero_le h0
  rw [hn] at h1 ⊢
  have h2 : n < 4294967296 := by exact_mod_cast h1
  have h3 : Int.land (4294967288 : Int) (n : Int) = ((4294967288 &&& n : Nat) : Int) := rfl
  rw [h3, land_mask n h2]
  push_cast
  rfl

theorem ALIGN8i_eq (x : Int) : ALIGN8i x = i32 (ALIGN8 x) := rfl

theorem ALIGN8_nonneg (x : Int) : 0 ≤ ALIGN8 x := by
  rw [ALIGN8_eq]; unfold u32; omega

theorem ALIGN8_lt (x : Int) : ALIGN8 x < 4294967296 := by
  rw [ALIGN8_eq]; unfold u32; omega

theorem ALIGN8_mod (x : Int) : ALIGN8 x % 8 = 0 := by
  rw [ALIGN8_eq]; omega

/-- Below the wrap-around `ALIGN8` rounds up to the next multiple of 8. -/
theorem ALIGN8_small (x : Int) (h0 : 0 ≤ x) (h1 : x ≤ 4294967288) :
    ALIGN8 x = (x + 7) / 8 * 8 := by
  rw [ALIGN8_eq]; unfold u32; omega

/-- On an aligned `int` below the wrap-around `ALIGN8` is the identity. -/
theorem ALIGN8i_aligned (x : Int) (h0 : 0 ≤ x) (h1 : x < 2147483640) (h8 : x % 8 = 0) :
    ALIGN8i x = x := by
  rw [ALIGN8i_eq, ALIGN8_eq]; unfold u32 i32; omega

/-! ## The stores -/

@[simp] theorem setSize_mem (s : Heap) (p v a : Int) :
    (s.setSize p v).mem a = if a = p then { s.mem a with size := v } else s.mem a := rfl

@[simp] theorem setFree_mem (s : Heap) (p v a : Int) :
    (s.setFree p v).mem a = if a = p then { s.mem a with free := v } else s.mem a := rfl

@[simp] theorem setNext_mem (s : Heap) (p : Int) (v : Option Int) (a : Int) :
    (s.setNext p v).mem a = if a = p then { s.mem a with next := v } else s.mem a := rfl

@[simp] theorem setHead_mem (s : Heap) (v : Option Int) : (s.setHead v).mem = s.mem := rfl

@[simp] theorem setSize_freehead (s : Heap) (p v : Int) :
    (s.setSize p v).freehead = s.freehead := rfl

@[simp] theorem setFree_freehead (s : Heap) (p v : Int) :
    (s.setFree p v).freehead = s.freehead := rfl

@[simp] theorem setNext_freehead (s : Heap) (p : Int) (v : Option Int) :
    (s.setNext p v).freehead = s.freehead := rfl

@[simp] theorem setHead_freehead (s : Heap) (v : Option Int) : (s.setHead v).freehead = v := rfl

@[simp] theorem setSize_brk (s : Heap) (p v : Int) : (s.setSize p v).brk = s.brk := rfl

@[simp] theorem setFree_brk (s : Heap) (p v : Int) : (s.setFree p v).brk = s.brk := rfl

@[simp] theorem setNext_brk (s : Heap) (p : Int) (v : Option Int) :
    (s.setNext p v).brk = s.brk := rfl

@[simp] theorem setHead_brk (s : Heap) (v : Option Int) : (s.setHead v).brk = s.brk := rfl

/-! ## Requests whose size wraps around

`mymalloc(4294967295)` computes `ALIGN8(size) + BLOCK_SIZE = 16` in `unsigned int`
arithmetic, so it hands out a block with no payload bytes and stores the size
`-1` in the header.  Once such a block is freed next to a block in use it enters
the free list unmerged, and the test of line 104, which compares its size as an
`unsigned int`, accepts it for any request. -/

/-- C1 (fails on the code): two live allocations overlap.  After
`a = mymalloc(4294967295)` and `b = mymalloc(8)` the range `[a, a + 4294967295)`
contains `b`; after `myfree(a)` and `c = mymalloc(100)` the live ranges
`[b, b + 8)` and `[c, c + 100)` overlap as well. -/
theorem C1_live_allocations_overlap :
    replies (steps 8 false fresh [Call.allocate 4294967295, Call.allocate 8]) =
      Run.ret [Reply.pointer (some 65552) 0, Reply.pointer (some 65568) 0] ∧
    overlaps 65552 4294967295 65568 8 ∧
    replies (steps 8 false fresh [Call.allocate 4294967295, Call.allocate 8,
        Call.deallocate 65552, Call.allocate 100]) =
      Run.ret [Reply.pointer (some 65552) 0, Reply.pointer (some 65568) 0, Reply.status 0,
        Reply.pointer (some 65552) 0] ∧
    overlaps 65568 8 65552 100 := by
  decide

/-- C2 (fails on the code): after `p = mymalloc(4294967295)` and `myfree(p)`, the
smaller request `mymalloc(5000)` calls `increase_heap`: it returns `NULL` when the
page request fails, and a pointer after one growth when it succeeds. -/
theorem C2_reuse_calls_increase_heap :
    (5000 : Int) ≤ 4294967295 ∧
    replies (steps 8 false fresh [Call.allocate 4294967295, Call.deallocate 65552,
        Call.allocate 5000]) =
      Run.ret [Reply.pointer (some 65552) 0, Reply.status 0, Reply.pointer none 1] ∧
    replies (steps 8 true fresh [Call.allocate 4294967295, Call.deallocate 65552,
        Call.allocate 5000]) =
      Run.ret [Reply.pointer (some 65552) 0, Reply.status 0, Reply.pointer (some 65552) 1] := by
  decide

/-- C5 (fails on the code): the first `myfree` of a live pointer is refused.  With
`a = mymalloc(4294967295)`, `b = mymalloc(8)`, `myfree(a)`, `mymalloc(0)`, the
last allocation rewrites the header of the live block `b`, and `myfree(b)`
returns 1. -/
theorem C5_first_free_of_live_pointer_refused :
    replies (steps 8 false fresh [Call.allocate 4294967295, Call.allocate 8,
        Call.deallocate 65552, Call.allocate 0, Call.deallocate 65568]) =
      Run.ret [Reply.pointer (some 65552) 0, Reply.pointer (some 65568) 0, Reply.status 0,
        Reply.pointer (some 65552) 0, Reply.status 1] := by
  decide

/-- C7 (fails on the code): two free headers on the free list are address-adjacent
after a call returns.  In the state reached below the headers at `65576` and
`65600` are both free, both on the free list, and the first block ends where the
second header starts. -/
theorem C7_adjacent_free_headers :
    replies (steps 8 false fresh [Call.allocate 4294967295, Call.allocate 8, Call.allocate 8,
        Call.allocate 8, Call.deallocate 65592, Call.deallocate 65552, Call.allocate 48]) =
      Run.ret [Reply.pointer (some 65552) 0, Reply.pointer (some 65568) 0,
        Reply.pointer (some 65592) 0, Reply.pointer (some 65616) 0, Reply.status 0,
        Reply.status 0, Reply.pointer (some 65552) 0] ∧
    adjacentFree (heapAfter fresh (steps 8 false fresh [Call.allocate 4294967295,
        Call.allocate 8, Call.allocate 8, Call.allocate 8, Call.deallocate 65592,
        Call.deallocate 65552, Call.allocate 48])) 65576 65600 ∧
    ListFrom (heapAfter fresh (steps 8 false fresh [Call.allocate 4294967295,
        Call.allocate 8, Call.allocate 8, Call.allocate 8, Call.deallocate 65592,
        Call.deallocate 65552, Call.allocate 48])).mem (some 65600) [65600, 65576, 65624] := by
  decide

/-! ### The state `wrapped` -/

theorem wrapped_freehead : wrapped.freehead = some 65576 := by decide
theorem wrapped_brk : wrapped.brk = 69632 := by decide
theorem wrapped_mem_65536 : wrapped.mem 65536 = ⟨24, 1, some 65576⟩ := by decide
theorem wrapped_mem_65552 : wrapped.mem 65552 = ⟨8, 1, none⟩ := by decide
theorem wrapped_mem_65576 : wrapped.mem 65576 = ⟨-41, 0, some 65576⟩ := by decide

theorem wrapped_no_list : ∀ l : List Int, ¬ ListFrom wrapped.mem (some 65576) l := by
  intro l
  induction l with
  | nil => simp [ListFrom]
  | cons x xs ih =>
    intro h
    simp only [ListFrom] at h
    obtain ⟨rfl, h2⟩ := h
    rw [wrapped_mem_65576] at h2
    exact ih h2

/-- C9 (fails on the code): the free list is cyclic.  In the state `wrapped` the
head of the list is its own successor, so no finite list of nodes leads from
`freehead` to `NULL`. -/
theorem C9_free_list_cyclic :
    replies (steps 8 false fresh [Call.allocate 4294967295, Call.allocate 8,
        Call.deallocate 65552, Call.allocate 24]) =
      Run.ret [Reply.pointer (some 65552) 0, Reply.pointer (some 65568) 0, Reply.status 0,
        Reply.pointer (some 65552) 0] ∧
    wrapped.freehead = some 65576 ∧ (wrapped.mem 65576).next = some 65576 ∧
    ¬ ∃ l : List Int, ListFrom wrapped.mem wrapped.freehead l := by
  refine ⟨by decide, by decide, by decide, ?_⟩
  rintro ⟨l, hl⟩
  rw [wrapped_freehead] at hl
  exact wrapped_no_list l hl

theorem wrapped_malloc_loop (fuel : Nat) :
    ∀ prev : Option Int, malloc_loop wrapped 4294967248 fuel prev (some 65576) = Run.loops := by
  induction fuel with
  | zero => intro prev; rfl
  | succ f ih =>
    intro prev
    unfold malloc_loop
    rw [wrapped_mem_65576]
    have hc : ¬ (u32 (-41) ≥ u32 (ALIGN8 4294967248 + BLOCK_SIZE) ∧ (0 : Int) = 0) := by decide
    simp only [hc, if_false]
    exact ih _

/-- C10 (fails on the code): `mymalloc` does not terminate.  In the state
`wrapped` the loop of `malloc_lock` walks the cyclic free list for ever on the
request `4294967248`, whatever the page requests would answer. -/
theorem C10_allocate_never_returns :
    replies (steps 8 false fresh [Call.allocate 4294967295, Call.allocate 8,
        Call.deallocate 65552, Call.allocate 24]) =
      Run.ret [Reply.pointer (some 65552) 0, Reply.pointer (some 65568) 0, Reply.status 0,
        Reply.pointer (some 65552) 0] ∧
    ∀ (fuel : Nat) (pages : Nat → Bool), mymalloc fuel pages wrapped 4294967248 = Run.loops := by
  refine ⟨by decide, ?_⟩
  intro fuel pages
  cases fuel with
  | zero => rfl
  | succ f =>
    unfold mymalloc malloc_lock
    rw [wrapped_freehead, wrapped_malloc_loop]

theorem wrapped_no_tiling : ∀ (bs : List Int) (a : Int),
    a = 65536 ∨ a = 65576 ∨ a = 65552 → ¬ Tiles wrapped a bs := by
  intro bs
  induction bs with
  | nil =>
    intro a ha h
    simp only [Tiles, wrapped_brk] at h
    omega
  | cons x xs ih =>
    intro a ha h
    simp only [Tiles] at h
    obtain ⟨_, _, h3⟩ := h
    refine ih (a + footprint wrapped a) ?_ h3
    rcases ha with rfl | rfl | rfl
    · right; left; decide
    · right; right; decide
    · right; left; decide

/-- C8 (fails on the code): the blocks do not tile the arena.  In the state
`wrapped` the chain of headers from the arena base runs
`65536, 65576, 65552, 65576, ...` and never ends at the program break. -/
theorem C8_blocks_do_not_tile :
    replies (steps 8 false fresh [Call.allocate 4294967295, Call.allocate 8,
        Call.deallocate 65552, Call.allocate 24]) =
      Run.ret [Reply.pointer (some 65552) 0, Reply.pointer (some 65568) 0, Reply.status 0,
        Reply.pointer (some 65552) 0] ∧
    ¬ ∃ bs : List Int, Tiles wrapped 65536 bs := by
  refine ⟨by decide, ?_⟩
  rintro ⟨bs, h⟩
  exact wrapped_no_tiling bs 65536 (Or.inl rfl) h

/-! ## Walking the free list -/

theorem ListFrom_congr (m1 m2 : Int → node_t) (h : ∀ x, (m1 x).next = (m2 x).next) :
    ∀ (l : List Int) (p : Option Int), ListFrom m1 p l → ListFrom m2 p l := by
  intro l
  induction l with
  | nil =>
    intro p hp
    cases p with
    | none => trivial
    | some a => simp [ListFrom] at hp
  | cons x xs ih =>
    intro p hp
    cases p with
    | none => simp [ListFrom] at hp
    | some a =>
      simp only [ListFrom] at hp ⊢
      exact ⟨hp.1, ih _ (h x ▸ hp.2)⟩

theorem find_leftAdj_loop_returns (s : Heap) (c : Int) :
    ∀ (l : List Int) (p : Option Int) (fuel : Nat), ListFrom s.mem p l → l.length ≤ fuel →
      ∃ r, find_leftAdj_loop s c fuel p = Run.ret r := by
  intro l
  induction l with
  | nil =>
    intro p fuel hp _
    cases p with
    | none => exact ⟨none, by cases fuel <;> rfl⟩
    | some a => simp [ListFrom] at hp
  | cons x xs ih =>
    intro p fuel hp hf
    cases p with
    | none => simp [ListFrom] at hp
    | some a =>
      simp only [ListFrom] at hp
      obtain ⟨rfl, hxs⟩ := hp
      cases fuel with
      | zero => simp at hf
      | succ f =>
        simp only [List.length_cons, Nat.add_le_add_iff_right] at hf
        unfold find_leftAdj_loop
        split
        · exact ⟨_, rfl⟩
        · exact ih _ f hxs hf

theorem find_prevAdj_loop_returns (s : Heap) (c : Int) :
    ∀ (l : List Int) (p : Option Int) (fuel : Nat), ListFrom s.mem p l → l.length ≤ fuel →
      c ∈ l → p ≠ some c → ∃ x, find_prevAdj_loop s c fuel p = Run.ret (some x) := by
  intro l
  induction l with
  | nil => intro p fuel _ _ hc; simp at hc
  | cons x xs ih =>
    intro p fuel hp hf hc hne
    cases p with
    | none => simp [ListFrom] at hp
    | some a =>
      simp only [ListFrom] at hp
      obtain ⟨rfl, hxs⟩ := hp
      have hca : c ≠ a := fun e => hne (by rw [e])
      have hcx : c ∈ xs := by
        rcases List.mem_cons.1 hc with h | h
        · exact absurd h hca
        · exact h
      cases fuel with
      | zero => simp at hf
      | succ f =>
        simp only [List.length_cons, Nat.add_le_add_iff_right] at hf
        unfold find_prevAdj_loop
        split
        · exact ⟨_, rfl⟩
        · rename_i hn
          exact ih _ f hxs hf hcx hn

/-- The status of `myfree(p)`.  A header that is not in use makes the call return 1
with the state unchanged; whenever the call returns, its status is 0 iff the
header was in use, and a nonzero status comes with the unchanged state; and on a
header in use the call does return 0 when the free list ends at `NULL` and lists
the right neighbour when that one reads free (it need not return otherwise). -/
theorem myfree_status (fuel : Nat) (s : Heap) (p : Int) :
    ((s.mem (p - BLOCK_SIZE)).free ≠ 1 → myfree fuel s p = Run.ret (1, s)) ∧
    (∀ rc s', myfree fuel s p = Run.ret (rc, s') →
      (rc = 0 ↔ (s.mem (p - BLOCK_SIZE)).free = 1) ∧ (rc ≠ 0 → s' = s)) ∧
    (∀ l : List Int, (s.mem (p - BLOCK_SIZE)).free = 1 → ListFrom s.mem s.freehead l →
      l.length ≤ fuel →
      (∀ r, find_rightAdj (s.setFree (p - BLOCK_SIZE) 0) (p - BLOCK_SIZE) = some r → r ∈ l) →
      ∃ s', myfree fuel s p = Run.ret (0, s')) := by
  refine ⟨?_, ?_, ?_⟩
  · intro h
    simp [myfree, free_lock, h]
  · intro rc s' h
    unfold myfree free_lock at h
    by_cases hf : (s.mem (p - BLOCK_SIZE)).free = 1
    · simp only [hf, if_true] at h
      split at h
      · cases h
      · cases h
      · injection h with h
        injection h with h1 h2
        subst h1
        simp [hf]
    · simp only [hf, if_false] at h
      injection h with h
      injection h with h1 h2
      subst h1 h2
      simp [hf]
  · intro l hf hl hlen hr
    have hl1 : ListFrom (s.setFree (p - BLOCK_SIZE) 0).mem (s.setFree (p - BLOCK_SIZE) 0).freehead l := by
      refine ListFrom_congr s.mem _ ?_ l _ hl
      intro x
      simp only [setFree_mem]
      split <;> rfl
    generalize hs1 : s.setFree (p - BLOCK_SIZE) 0 = s1 at hl1 hr
    have hrun : ∃ s2, coalesce fuel s1 (p - BLOCK_SIZE) 0 = Run.ret s2 := by
      obtain ⟨la, hla⟩ := find_leftAdj_loop_returns s1 (p - BLOCK_SIZE) l _ fuel hl1 hlen
      have hprev : ∀ r, find_rightAdj s1 (p - BLOCK_SIZE) = some r → some r ≠ s1.freehead →
          ∃ x, find_prevAdj fuel s1 r = Run.ret (some x) := by
        intro r h1 h2
        exact find_prevAdj_loop_returns s1 r l _ fuel hl1 hlen (hr r h1) (fun e => h2 e.symm)
      unfold coalesce
      simp only [find_leftAdj, hla, ne_eq, show ¬ ((0 : Int) = 1) by decide, not_false_eq_true,
        if_true]
      cases hra : find_rightAdj s1 (p - BLOCK_SIZE) with
      | none => cases la <;> exact ⟨_, rfl⟩
      | some r =>
        cases la with
        | none =>
          simp only [coalesce_right]
          by_cases hh : some r = s1.freehead
          · simp only [hh, if_true]; exact ⟨_, rfl⟩
          · obtain ⟨x, hx⟩ := hprev r hra hh
            simp only [hh, if_false, hx]; exact ⟨_, rfl⟩
        | some lft =>
          simp only [coalesce_both]
          by_cases hh : some r = s1.freehead
          · simp only [hh, if_true]; exact ⟨_, rfl⟩
          · obtain ⟨x, hx⟩ := hprev r hra hh
            simp only [hh, if_false, hx]; exact ⟨_, rfl⟩
    obtain ⟨s2, h2⟩ := hrun
    refine ⟨s2, ?_⟩
    simp only [myfree, free_lock, hf, if_true, hs1, h2]

/-- An instance: on the machine `boot`, `myfree` of a pointer whose header is free
returns 1 and changes nothing, and `myfree` of the pointer returned by
`mymalloc(100)` returns 0. -/
theorem myfree_status_example :
    (fresh.mem (65552 - BLOCK_SIZE)).free ≠ 1 ∧
    myfree 8 fresh 65552 = Run.ret (1, fresh) ∧
    ((heapAfter fresh (steps 8 false fresh [Call.allocate 100])).mem (65552 - BLOCK_SIZE)).free
      = 1 ∧
    ListFrom (heapAfter fresh (steps 8 false fresh [Call.allocate 100])).mem
      (heapAfter fresh (steps 8 false fresh [Call.allocate 100])).freehead [65656] ∧
    ∃ s', myfree 8 (heapAfter fresh (steps 8 false fresh [Call.allocate 100])) 65552 =
      Run.ret (0, s') := by
  have hr : find_rightAdj ((heapAfter fresh (steps 8 false fresh [Call.allocate 100])).setFree
      (65552 - BLOCK_SIZE) 0) (65552 - BLOCK_SIZE) = some 65656 := by decide
  refine ⟨by decide, (myfree_status 8 fresh 65552).1 (by decide), by decide, by decide,
    (myfree_status 8 (heapAfter fresh (steps 8 false fresh [Call.allocate 100]))
      65552).2.2 [65656] (by decide) (by decide) (by decide) ?_⟩
  intro r h
  rw [hr] at h
  injection h with h
  simp [← h]

/-! ## A fresh arena -/

theorem init_facts (s0 : Heap) :
    (mymalloc_init s0 true).1 = 0 ∧
    (mymalloc_init s0 true).2.freehead = some s0.brk ∧
    (mymalloc_init s0 true).2.mem s0.brk = ⟨4080, 0, none⟩ ∧
    (mymalloc_init s0 true).2.brk = s0.brk + 4096 := by
  simp [mymalloc_init, BLOCK_SIZE]

/-- First fit at the head of the free list (lines 104-125). -/
theorem malloc_lock_head (fuel : Nat) (pages : Nat → Bool) (s : Heap) (n h : Int)
    (hh : s.freehead = some h)
    (hfit : u32 (ALIGN8 n + BLOCK_SIZE) ≤ u32 (s.mem h).size) (hfree : (s.mem h).free = 0) :
    ∃ s', malloc_lock (fuel + 2) pages s n = Run.ret ⟨some (h + BLOCK_SIZE), s', 0⟩ ∧
      s'.brk = s.brk ∧ s'.freehead = some (h + ALIGN8 n + BLOCK_SIZE) ∧
      s'.mem h = ⟨i32 n, 1, (s.mem h).next⟩ ∧
      s'.mem (h + ALIGN8 n + BLOCK_SIZE) =
        ⟨i32 (u32 (u32 (u32 (s.mem h).size - ALIGN8 n) - BLOCK_SIZE)), 0, (s.mem h).next⟩ ∧
      ∀ a, a ≠ h → a ≠ h + ALIGN8 n + BLOCK_SIZE → s'.mem a = s.mem a := by
  have hne : h + ALIGN8 n + BLOCK_SIZE ≠ h := by
    have := ALIGN8_nonneg n; unfold BLOCK_SIZE; omega
  have hne' : h ≠ h + ALIGN8 n + BLOCK_SIZE := fun e => hne e.symm
  refine ⟨(((((s.setSize (h + ALIGN8 n + BLOCK_SIZE)
      (i32 (u32 (u32 (u32 (s.mem h).size - ALIGN8 n) - BLOCK_SIZE)))).setFree
      (h + ALIGN8 n + BLOCK_SIZE) 0).setNext (h + ALIGN8 n + BLOCK_SIZE) (s.mem h).next).setHead
      (some (h + ALIGN8 n + BLOCK_SIZE))).setSize h (i32 n)).setFree h 1, ?_, ?_, ?_, ?_, ?_, ?_⟩
  · unfold malloc_lock
    simp only [hh, malloc_loop, ge_iff_le, hfit, hfree, and_self, if_true, malloc_split,
      setFree_freehead, setSize_freehead]
    simp [hne']
  · simp
  · simp
  · simp [hne, hne']
  · simp [hne, hne']
  · intro a h1 h2
    simp [h1, h2]

/-- First fit at the second node of the free list (lines 127-145). -/
theorem malloc_lock_second (fuel : Nat) (pages : Nat → Bool) (s : Heap) (n h c : Int)
    (hh : s.freehead = some h)
    (hno : ¬ (u32 (ALIGN8 n + BLOCK_SIZE) ≤ u32 (s.mem h).size ∧ (s.mem h).free = 0))
    (hnext : (s.mem h).next = some c)
    (hfit : u32 (ALIGN8 n + BLOCK_SIZE) ≤ u32 (s.mem c).size) (hfree : (s.mem c).free = 0) :
    ∃ s', malloc_lock (fuel + 3) pages s n = Run.ret ⟨some (c + BLOCK_SIZE), s', 0⟩ ∧
      s'.brk = s.brk := by
  unfold malloc_lock
  simp only [hh, malloc_loop, ge_iff_le, hno, if_false, hnext, hfit, hfree, and_self, if_true,
    malloc_split]
  exact ⟨_, rfl, rfl⟩

/-- No fit in a free list of one node: the loop falls through and `malloc_lock`
asks for a page; when the request fails it returns `NULL` and leaves the state
as it was. -/
theorem malloc_lock_single_fail (fuel : Nat) (pages : Nat → Bool) (s : Heap) (n h : Int)
    (hh : s.freehead = some h) (hnext : (s.mem h).next = none)
    (hno : ¬ (u32 (ALIGN8 n + BLOCK_SIZE) ≤ u32 (s.mem h).size ∧ (s.mem h).free = 0))
    (hp : pages 0 = false) :
    malloc_lock (fuel + 3) pages s n = Run.ret ⟨none, s, 1⟩ := by
  unfold malloc_lock
  simp [hh, malloc_loop, hno, hnext, increase_heap, hp]

/-- No fit in a free list of one node that ends at the program break: the loop
falls through, the new page is merged into that node, and the retry splits it. -/
theorem malloc_lock_single_grow (fuel : Nat) (pages : Nat → Bool) (s : Heap) (n h : Int)
    (hh : s.freehead = some h) (hnext : (s.mem h).next = none) (hfree : (s.mem h).free = 0)
    (hno : ¬ (u32 (ALIGN8 n + BLOCK_SIZE) ≤ u32 (s.mem h).size))
    (hlt : h < s.brk) (hend : s.brk = h + BLOCK_SIZE + ALIGN8i (s.mem h).size)
    (hfit : u32 (ALIGN8 n + BLOCK_SIZE) ≤
      u32 (i32 (ALIGN8i (s.mem h).size + ALIGN8i (4096 - BLOCK_SIZE) + BLOCK_SIZE)))
    (hp : pages 0 = true) :
    ∃ s', malloc_lock (fuel + 3) pages s n = Run.ret ⟨some (h + BLOCK_SIZE), s', 1⟩ := by
  have hne : h ≠ s.brk := by omega
  obtain ⟨s', e, -⟩ := malloc_lock_head fuel (fun i => pages (i + 1))
    ((({ s with brk := s.brk + 4096 } : Heap).setSize s.brk (4096 - BLOCK_SIZE)).setSize h
      (i32 (ALIGN8i (s.mem h).size + ALIGN8i (4096 - BLOCK_SIZE) + BLOCK_SIZE))) n h
    (by simp [hh]) (by simp [hne]; exact hfit) (by simp [hne, hfree])
  refine ⟨s', ?_⟩
  have hloop : malloc_loop s n (fuel + 2) none s.freehead = Run.ret none := by
    simp [hh, malloc_loop, hno, hnext]
  have hco : coalesce (fuel + 2)
      (({ s with brk := s.brk + 4096 } : Heap).setSize s.brk (4096 - BLOCK_SIZE)) s.brk 1 =
      Run.ret ((({ s with brk := s.brk + 4096 } : Heap).setSize s.brk (4096 - BLOCK_SIZE)).setSize h
        (i32 (ALIGN8i (s.mem h).size + ALIGN8i (4096 - BLOCK_SIZE) + BLOCK_SIZE))) := by
    have hl : find_leftAdj (fuel + 2)
        (({ s with brk := s.brk + 4096 } : Heap).setSize s.brk (4096 - BLOCK_SIZE)) s.brk =
        Run.ret (some h) := by
      unfold find_leftAdj
      rw [setSize_freehead]
      show find_leftAdj_loop _ _ _ s.freehead = _
      rw [hh]
      unfold find_leftAdj_loop
      rw [if_pos]
      rw [setSize_mem, if_neg hne]
      exact ⟨hfree, hend⟩
    unfold coalesce
    rw [hl]
    simp [coalesce_left, hne]
  unfold malloc_lock
  rw [hloop]
  simp only [increase_heap, hp, if_true, hco]
  simp [e]

/-! ## The scenario of the specification -/

/-- C3 (fails on the code as stated): on the machine `boot`, after
`P1 = mymalloc(100)`, `P2 = mymalloc(200)` and `myfree(P1)`, the call
`mymalloc(100)` returns `65888`, which is not `P1 = 65552`. -/
theorem C3_reuse_counterexample :
    replies (steps 8 false fresh [Call.allocate 100, Call.allocate 200, Call.deallocate 65552,
        Call.allocate 100]) =
      Run.ret [Reply.pointer (some 65552) 0, Reply.pointer (some 65672) 0, Reply.status 0,
        Reply.pointer (some 65888) 0] ∧
    (65888 : Int) ≠ 65552 := by
  decide

/-- C3 (amended): from any fresh init, with `pageStart` the program break before
`mymalloc_init`: `mymalloc(100)` returns `P1 = pageStart + 16`, `mymalloc(200)`
returns `P2 = pageStart + 136`, `myfree(P1)` returns 0, and the next
`mymalloc(100)` makes no call of `increase_heap`, leaves the program break where
it was, and returns `pageStart + 352 = P2 + 200 + 16`: the freed block, of size
100, fails the test `size >= ALIGN8(100) + BLOCK_SIZE = 120` of line 104.  A
request of at most 80 bytes passes it and is placed at `P1`. -/
theorem C3_freed_exact_block_is_skipped (s0 : Heap) (fuel : Nat) (pages : Nat → Bool) :
    ∃ h1 h2 h3 h4 : Heap,
      mymalloc (fuel + 3) pages (mymalloc_init s0 true).2 100 =
        Run.ret ⟨some (s0.brk + 16), h1, 0⟩ ∧
      mymalloc (fuel + 3) pages h1 200 = Run.ret ⟨some (s0.brk + 136), h2, 0⟩ ∧
      myfree (fuel + 3) h2 (s0.brk + 16) = Run.ret (0, h3) ∧
      mymalloc (fuel + 3) pages h3 100 = Run.ret ⟨some (s0.brk + 352), h4, 0⟩ ∧
      h4.brk = s0.brk + 4096 ∧
      ∀ n : Int, 0 ≤ n → n ≤ 80 →
        ∃ h5, mymalloc (fuel + 3) pages h3 n = Run.ret ⟨some (s0.brk + 16), h5, 0⟩ := by
  obtain ⟨-, i1, i2, i3⟩ := init_facts s0
  generalize (mymalloc_init s0 true).2 = s1 at i1 i2 i3
  generalize s0.brk = b at *
  simp only [mymalloc]
  have a100 : ALIGN8 100 = 104 := by decide
  have a200 : ALIGN8 200 = 200 := by decide
  -- first allocation
  obtain ⟨h1, e1, b1, f1, m1a, m1b, -⟩ := malloc_lock_head (fuel + 1) pages s1 100 b i1
    (by rw [i2]; decide) (by rw [i2])
  have k1 : b + 104 + 16 = b + 120 := by ring
  have v1 : i32 (u32 (u32 (u32 4080 - 104) - 16)) = 3960 := by decide
  have v3 : i32 100 = 100 := by decide
  simp only [a100, i2, BLOCK_SIZE, k1, v1, v3] at e1 f1 m1a m1b
  -- second allocation
  obtain ⟨h2, e2, b2, f2, m2a, m2b, m2c⟩ := malloc_lock_head (fuel + 1) pages h1 200 _ f1
    (by rw [m1b]; decide) (by rw [m1b])
  have k2 : b + 120 + 200 + 16 = b + 336 := by ring
  have k3 : b + 120 + 16 = b + 136 := by ring
  have v2 : i32 (u32 (u32 (u32 3960 - 200) - 16)) = 3744 := by decide
  have v4 : i32 200 = 200 := by decide
  simp only [a200, m1b, BLOCK_SIZE, k2, k3, v2, v4] at e2 f2 m2a m2b m2c
  have m2d : h2.mem b = ⟨100, 1, none⟩ := by
    rw [m2c b (by omega) (by omega), m1a]
  -- the deallocation: no free neighbour, the block goes to the head of the list
  have a1 : ALIGN8i 3744 = 3744 := by decide
  have a2 : ALIGN8i 100 = 104 := by decide
  have e3 : myfree (fuel + 3) h2 (b + 16) =
      Run.ret (0, ((h2.setFree b 0).setNext b (some (b + 336))).setHead (some b)) := by
    simp [myfree, free_lock, BLOCK_SIZE, m2d, coalesce, find_leftAdj, find_leftAdj_loop, f2, m2b,
      a1, a2, find_rightAdj, m2a, coalesce_none, add_assoc]
  generalize hh3 : ((h2.setFree b 0).setNext b (some (b + 336))).setHead (some b) = h3 at e3
  have f3 : h3.freehead = some b := by rw [← hh3]; simp
  have m3a : h3.mem b = ⟨100, 0, some (b + 336)⟩ := by rw [← hh3]; simp [m2d]
  have m3b : h3.mem (b + 336) = ⟨3744, 0, none⟩ := by rw [← hh3]; simp [m2b]
  have b3 : h3.brk = b + 4096 := by rw [← hh3]; simp [b2, b1, i3]
  -- the last allocation: the freed block is too small for the test of line 104
  obtain ⟨h4, e4, b4⟩ := malloc_lock_second fuel pages h3 100 b (b + 336) f3
    (by rw [m3a]; dsimp only; decide) (by rw [m3a]) (by rw [m3b]; decide) (by rw [m3b])
  have k4 : b + 336 + 16 = b + 352 := by ring
  simp only [BLOCK_SIZE, k4] at e4
  refine ⟨h1, h2, h3, h4, e1, e2, e3, e4, by rw [b4, b3], ?_⟩
  intro n hn0 hn1
  obtain ⟨h5, e5, -⟩ := malloc_lock_head (fuel + 1) pages h3 n b f3
    (by
      rw [m3a, ALIGN8_small n hn0 (by omega)]
      dsimp only
      unfold BLOCK_SIZE u32
      omega) (by rw [m3a])
  exact ⟨h5, e5⟩

/-- C3 (witness): the amended scenario on the machine `boot`, with the request of 80
bytes placed at `P1`. -/
theorem C3_freed_exact_block_is_skipped_witness :
    ∃ h1 h2 h3 h4 h5 : Heap,
      mymalloc 3 (fun _ => false) (mymalloc_init boot true).2 100 =
        Run.ret ⟨some (boot.brk + 16), h1, 0⟩ ∧
      mymalloc 3 (fun _ => false) h1 200 = Run.ret ⟨some (boot.brk + 136), h2, 0⟩ ∧
      myfree 3 h2 (boot.brk + 16) = Run.ret (0, h3) ∧
      mymalloc 3 (fun _ => false) h3 100 = Run.ret ⟨some (boot.brk + 352), h4, 0⟩ ∧
      (0 : Int) ≤ 80 ∧ (80 : Int) ≤ 80 ∧
      mymalloc 3 (fun _ => false) h3 80 = Run.ret ⟨some (boot.brk + 16), h5, 0⟩ := by
  obtain ⟨h1, h2, h3, h4, e1, e2, e3, e4, -, e6⟩ :=
    C3_freed_exact_block_is_skipped boot 0 (fun _ => false)
  obtain ⟨h5, e5⟩ := e6 80 (by decide) (by decide)
  exact ⟨h1, h2, h3, h4, h5, e1, e2, e3, e4, by decide, by decide, e5⟩

/-- C4 (fails on the code as stated): the footprints of `mymalloc(100)` and
`mymalloc(3960)` fill the first page exactly, yet the second call does not fit
the remainder (size 3960, below `ALIGN8(3960) + BLOCK_SIZE`), asks for a page,
and returns `NULL` when the request fails. -/
theorem C4_layout_counterexample :
    (BLOCK_SIZE + ALIGN8 100) + (BLOCK_SIZE + ALIGN8 3960) ≤ 4096 ∧
    replies (steps 8 false fresh [Call.allocate 100, Call.allocate 3960]) =
      Run.ret [Reply.pointer (some 65552) 0, Reply.pointer none 1] := by
  decide

/-- C4 (amended): from any fresh init, for all `n1`, `n2` whose footprints fit in the
first page, `mymalloc(n1)` returns `pageStart + 16`; the following `mymalloc(n2)`
returns `P1 + ALIGN8(n1) + 16` without growth when the page also has room for the
header of the remainder that the split leaves
(`footprint1 + footprint2 + BLOCK_SIZE <= 4096`); it returns that same address
whenever the page request succeeds; and when there is no such room and the page
request fails it returns `NULL` and leaves the state unchanged. -/
theorem C4_consecutive_allocations (s0 : Heap) (fuel : Nat) (pages : Nat → Bool) (n1 n2 : Int)
    (hfit : (BLOCK_SIZE + ALIGN8 n1) + (BLOCK_SIZE + ALIGN8 n2) ≤ 4096) :
    ∃ h1 : Heap,
      mymalloc (fuel + 3) pages (mymalloc_init s0 true).2 n1 =
        Run.ret ⟨some (s0.brk + BLOCK_SIZE), h1, 0⟩ ∧
      ((BLOCK_SIZE + ALIGN8 n1) + (BLOCK_SIZE + ALIGN8 n2) + BLOCK_SIZE ≤ 4096 →
        ∃ h2, mymalloc (fuel + 3) pages h1 n2 =
          Run.ret ⟨some (s0.brk + BLOCK_SIZE + ALIGN8 n1 + BLOCK_SIZE), h2, 0⟩) ∧
      (pages 0 = true →
        ∃ h2 calls, mymalloc (fuel + 3) pages h1 n2 =
          Run.ret ⟨some (s0.brk + BLOCK_SIZE + ALIGN8 n1 + BLOCK_SIZE), h2, calls⟩) ∧
      (4096 < (BLOCK_SIZE + ALIGN8 n1) + (BLOCK_SIZE + ALIGN8 n2) + BLOCK_SIZE →
        pages 0 = false → mymalloc (fuel + 3) pages h1 n2 = Run.ret ⟨none, h1, 1⟩) := by
  obtain ⟨-, i1, i2, i3⟩ := init_facts s0
  generalize (mymalloc_init s0 true).2 = s1 at i1 i2 i3
  generalize s0.brk = b at *
  simp only [mymalloc]
  have p1 := ALIGN8_nonneg n1
  have p2 := ALIGN8_nonneg n2
  have q1 := ALIGN8_mod n1
  have hB : BLOCK_SIZE = 16 := rfl
  rw [hB] at hfit
  -- the first allocation takes the only block, at the arena base
  obtain ⟨h1, e1, b1, f1, -, m1, -⟩ := malloc_lock_head (fuel + 1) pages s1 n1 b i1
    (by rw [i2, hB]; dsimp only; unfold u32; omega) (by rw [i2])
  have v1 : i32 (u32 (u32 (u32 (s1.mem b).size - ALIGN8 n1) - BLOCK_SIZE)) = 4064 - ALIGN8 n1 := by
    rw [i2, hB]; dsimp only; unfold u32 i32; omega
  rw [v1, i2] at m1
  dsimp only at m1
  have k1 : b + BLOCK_SIZE + ALIGN8 n1 + BLOCK_SIZE = b + ALIGN8 n1 + BLOCK_SIZE + BLOCK_SIZE := by
    ring
  rw [k1]
  have a1 : ALIGN8i (4064 - ALIGN8 n1) = 4064 - ALIGN8 n1 :=
    ALIGN8i_aligned _ (by omega) (by omega) (by omega)
  have a2 : ALIGN8i (4096 - BLOCK_SIZE) = 4080 := by decide
  -- the second allocation when the remainder is large enough
  have room : (16 + ALIGN8 n1) + (16 + ALIGN8 n2) + 16 ≤ 4096 →
      ∃ h2, malloc_lock (fuel + 3) pages h1 n2 =
        Run.ret ⟨some (b + ALIGN8 n1 + BLOCK_SIZE + BLOCK_SIZE), h2, 0⟩ := by
    intro hr
    obtain ⟨h2, e2, -⟩ := malloc_lock_head (fuel + 1) pages h1 n2 _ f1
      (by rw [m1, hB]; dsimp only; unfold u32; omega) (by rw [m1])
    exact ⟨h2, e2⟩
  -- the second allocation when it is not: one page request
  have grow : 4096 < (16 + ALIGN8 n1) + (16 + ALIGN8 n2) + 16 → pages 0 = true →
      ∃ h2, malloc_lock (fuel + 3) pages h1 n2 =
        Run.ret ⟨some (b + ALIGN8 n1 + BLOCK_SIZE + BLOCK_SIZE), h2, 1⟩ := by
    intro hr hp
    exact malloc_lock_single_grow fuel pages h1 n2 _ f1 (by rw [m1]) (by rw [m1])
      (by rw [m1, hB]; dsimp only; unfold u32; omega)
      (by rw [b1, i3, hB]; omega)
      (by rw [m1, b1, i3]; dsimp only; rw [a1, hB]; omega)
      (by rw [m1]; dsimp only; rw [a1, a2, hB]; unfold u32 i32; omega) hp
  refine ⟨h1, e1, ?_, ?_, ?_⟩
  · intro hr
    exact room (by rw [hB] at hr; exact hr)
  · intro hp
    by_cases hr : (16 + ALIGN8 n1) + (16 + ALIGN8 n2) + 16 ≤ 4096
    · obtain ⟨h2, e2⟩ := room hr
      exact ⟨h2, 0, e2⟩
    · obtain ⟨h2, e2⟩ := grow (by omega) hp
      exact ⟨h2, 1, e2⟩
  · intro hr hp
    rw [hB] at hr
    exact malloc_lock_single_fail fuel pages h1 n2 _ f1 (by rw [m1])
      (by rw [m1, hB]; dsimp only; unfold u32; omega) hp

/-- C4 (witness): the amended layout on the machine `boot` with `n1 = 100` and
`n2 = 200`: `P1 = pageStart + 16` and `P2 = P1 + 120`. -/
theorem C4_consecutive_allocations_witness :
    (BLOCK_SIZE + ALIGN8 100) + (BLOCK_SIZE + ALIGN8 200) ≤ 4096 ∧
    (BLOCK_SIZE + ALIGN8 100) + (BLOCK_SIZE + ALIGN8 200) + BLOCK_SIZE ≤ 4096 ∧
    ∃ h1 h2 : Heap,
      mymalloc 3 (fun _ => false) (mymalloc_init boot true).2 100 =
        Run.ret ⟨some (boot.brk + BLOCK_SIZE), h1, 0⟩ ∧
      mymalloc 3 (fun _ => false) h1 200 =
        Run.ret ⟨some (boot.brk + BLOCK_SIZE + ALIGN8 100 + BLOCK_SIZE), h2, 0⟩ := by
  obtain ⟨h1, e1, e2, -, -⟩ :=
    C4_consecutive_allocations boot 0 (fun _ => false) 100 200 (by decide)
  obtain ⟨h2, e3⟩ := e2 (by decide)
  exact ⟨by decide, by decide, h1, h2, e1, e3⟩

/-! ## Initialisation and growth -/

/-- When the first page request succeeds `mymalloc_init` returns 0 and leaves an
arena of one page of 4096 bytes above the old program break, tiled by a single
block whose header sits at the arena base with size `4096 - BLOCK_SIZE`, state
free and `NULL` link, and which alone makes up the free list; no other header
is touched. -/
theorem init_single_free_block (s0 : Heap) :
    (mymalloc_init s0 true).1 = 0 ∧
    (mymalloc_init s0 true).2.brk = s0.brk + 4096 ∧
    (mymalloc_init s0 true).2.freehead = some s0.brk ∧
    (mymalloc_init s0 true).2.mem s0.brk = ⟨4096 - BLOCK_SIZE, 0, none⟩ ∧
    Tiles (mymalloc_init s0 true).2 s0.brk [s0.brk] ∧
    ListFrom (mymalloc_init s0 true).2.mem (mymalloc_init s0 true).2.freehead [s0.brk] ∧
    (∀ a, a ≠ s0.brk → (mymalloc_init s0 true).2.mem a = s0.mem a) := by
  have a1 : ALIGN8i 4080 = 4080 := by decide
  refine ⟨rfl, ?_, ?_, ?_, ?_, ?_, ?_⟩
  · simp [mymalloc_init]
  · simp [mymalloc_init]
  · simp [mymalloc_init]
  · simp [Tiles, footprint, mymalloc_init, BLOCK_SIZE, a1]
  · simp [ListFrom, mymalloc_init]
  · intro a ha
    simp [mymalloc_init, ha]

/-- C11: from any fresh init, with the first page request of the call succeeding,
`mymalloc(4096)` does not fit the initial free block (size 4080 is below
`ALIGN8(4096) + BLOCK_SIZE = 4112`), so the loop of `malloc_lock` falls through;
`increase_heap` merges the new page into the first block, which becomes one free
block of size `8176 >= 4112` at the arena base; the retry then splits that block
and the call returns `pageStart + BLOCK_SIZE` after exactly one call of
`increase_heap`. -/
theorem C11_page_request_needs_growth (s0 : Heap) (fuel : Nat) (pages : Nat → Bool)
    (hp : pages 0 = true) :
    ¬ (u32 ((mymalloc_init s0 true).2.mem s0.brk).size ≥ u32 (ALIGN8 4096 + BLOCK_SIZE)) ∧
    malloc_loop (mymalloc_init s0 true).2 4096 (fuel + 2) none
      (mymalloc_init s0 true).2.freehead = Run.ret none ∧
    (∃ g : Heap, increase_heap (fuel + 2) (mymalloc_init s0 true).2 true = Run.ret (0, g) ∧
      g.brk = s0.brk + 8192 ∧ g.freehead = some s0.brk ∧
      g.mem s0.brk = ⟨8176, 0, none⟩ ∧ ALIGN8 4096 + BLOCK_SIZE ≤ 8176 ∧
      ∃ h : Heap, mymalloc (fuel + 3) pages (mymalloc_init s0 true).2 4096 =
          Run.ret ⟨some (s0.brk + BLOCK_SIZE), h, 1⟩ ∧
        mymalloc (fuel + 2) (fun i => pages (i + 1)) g 4096 =
          Run.ret ⟨some (s0.brk + BLOCK_SIZE), h, 0⟩ ∧
        h.brk = s0.brk + 8192 ∧ h.mem s0.brk = ⟨4096, 1, none⟩ ∧
        h.freehead = some (s0.brk + 4112) ∧ h.mem (s0.brk + 4112) = ⟨4064, 0, none⟩) := by
  obtain ⟨-, i1, i2, i3⟩ := init_facts s0
  generalize (mymalloc_init s0 true).2 = s1 at i1 i2 i3
  generalize s0.brk = b at *
  have hB : BLOCK_SIZE = 16 := rfl
  have a0 : ALIGN8 4096 = 4096 := by decide
  have a1 : ALIGN8i 4080 = 4080 := by decide
  have hno : ¬ (u32 (s1.mem b).size ≥ u32 (ALIGN8 4096 + BLOCK_SIZE)) := by
    rw [i2]; decide
  have hloop : malloc_loop s1 4096 (fuel + 2) none s1.freehead = Run.ret none := by
    have hno' := hno
    rw [i2] at hno'
    simp only [i1, malloc_loop, i2, hno', false_and, if_false]
  have hne : b ≠ s1.brk := by omega
  have hinc : increase_heap (fuel + 2) s1 true = Run.ret (0,
      (({ s1 with brk := s1.brk + 4096 } : Heap).setSize s1.brk (4096 - BLOCK_SIZE)).setSize b
        (i32 (ALIGN8i (s1.mem b).size + ALIGN8i (4096 - BLOCK_SIZE) + BLOCK_SIZE))) := by
    have hl : find_leftAdj (fuel + 2)
        (({ s1 with brk := s1.brk + 4096 } : Heap).setSize s1.brk (4096 - BLOCK_SIZE)) s1.brk =
        Run.ret (some b) := by
      unfold find_leftAdj
      rw [setSize_freehead]
      show find_leftAdj_loop _ _ _ s1.freehead = _
      rw [i1]
      unfold find_leftAdj_loop
      rw [if_pos]
      rw [setSize_mem, if_neg hne, i2, i3]
      exact ⟨rfl, by dsimp only; rw [a1, hB]; ring⟩
    simp only [increase_heap, if_true, coalesce, hl]
    simp [coalesce_left, hne]
  generalize hg : (({ s1 with brk := s1.brk + 4096 } : Heap).setSize s1.brk
      (4096 - BLOCK_SIZE)).setSize b
        (i32 (ALIGN8i (s1.mem b).size + ALIGN8i (4096 - BLOCK_SIZE) + BLOCK_SIZE)) = g at hinc
  have g1 : g.brk = b + 8192 := by rw [← hg]; simp [i3]; ring
  have g2 : g.freehead = some b := by rw [← hg]; simp [i1]
  have g3 : g.mem b = ⟨8176, 0, none⟩ := by
    rw [← hg]; simp [hne, i2, a1, hB]; decide
  obtain ⟨h, e, hb, hf, m1, m2, -⟩ := malloc_lock_head fuel (fun i => pages (i + 1)) g 4096 b g2
    (by rw [g3]; decide) (by rw [g3])
  rw [g3] at m1 m2
  simp only [a0, hB] at m1 m2 hf
  have k1 : b + 4096 + 16 = b + 4112 := by ring
  have v1 : i32 (u32 (u32 (u32 8176 - 4096) - 16)) = 4064 := by decide
  have v2 : i32 4096 = 4096 := by decide
  simp only [k1, v1, v2] at m1 m2 hf
  refine ⟨hno, hloop, g, hinc, g1, g2, g3, by decide, h, ?_, e, by rw [hb, g1], m1, hf, m2⟩
  unfold mymalloc malloc_lock
  rw [hloop]
  simp only [hp, hinc]
  simp [e]

/-- C11 (witness): the scenario on the machine `boot`, every page request
succeeding. -/
theorem C11_page_request_needs_growth_witness :
    (fun _ : Nat => true) 0 = true ∧
    ∃ h : Heap, mymalloc 3 (fun _ => true) (mymalloc_init boot true).2 4096 =
      Run.ret ⟨some (boot.brk + BLOCK_SIZE), h, 1⟩ := by
  obtain ⟨-, -, g, -, -, -, -, -, h, e, -⟩ :=
    C11_page_request_needs_growth boot 0 (fun _ => true) rfl
  exact ⟨rfl, h, e⟩

/-! ## Out of memory -/

theorem malloc_loop_no_fit (s : Heap) (n : Int) :
    ∀ (l : List Int) (p prev : Option Int) (fuel : Nat), ListFrom s.mem p l →
      (∀ x ∈ l, ¬ (u32 (s.mem x).size ≥ u32 (ALIGN8 n + BLOCK_SIZE) ∧ (s.mem x).free = 0)) →
      l.length ≤ fuel → malloc_loop s n fuel prev p = Run.ret none := by
  intro l
  induction l with
  | nil =>
    intro p prev fuel hp _ _
    cases p with
    | none => cases fuel <;> rfl
    | some a => simp [ListFrom] at hp
  | cons x xs ih =>
    intro p prev fuel hp hno hf
    cases p with
    | none => simp [ListFrom] at hp
    | some a =>
      simp only [ListFrom] at hp
      obtain ⟨rfl, hxs⟩ := hp
      cases fuel with
      | zero => simp at hf
      | succ f =>
        simp only [List.length_cons, Nat.add_le_add_iff_right] at hf
        unfold malloc_loop
        rw [if_neg (hno a (List.mem_cons_self _ _))]
        exact ih _ _ f hxs (fun y hy => hno y (List.mem_cons_of_mem _ hy)) hf

theorem malloc_lock_null (fuel : Nat) :
    ∀ (pages : Nat → Bool) (s : Heap) (n : Int) (r : MallocResult),
      malloc_lock fuel pages s n = Run.ret r → r.ptr = none →
      0 < r.heapCalls ∧ pages (r.heapCalls - 1) = false := by
  induction fuel with
  | zero => intro pages s n r h; simp [malloc_lock] at h
  | succ f ih =>
    intro pages s n r h hnull
    unfold malloc_lock at h
    split at h
    · cases h
    · cases h
    · injection h with h
      subst h
      simp at hnull
    · unfold increase_heap at h
      cases hp : pages 0 with
      | false =>
        simp only [hp, Bool.false_eq_true, if_false, if_true] at h
        injection h with h
        subst h
        exact ⟨Nat.one_pos, hp⟩
      | true =>
        simp only [hp, if_true] at h
        split at h
        · cases h
        · cases h
        · rename_i rc s1 hc
          split at hc
          · cases hc
          · cases hc
          · injection hc with hc
            injection hc with hrc hs
            subst hrc
            simp only [show ¬ ((0 : Int) = -1) by decide, if_false] at h
            split at h
            · cases h
            · cases h
            · rename_i r' hr'
              injection h with h
              subst h
              obtain ⟨h1, h2⟩ := ih _ _ _ _ hr' hnull
              refine ⟨Nat.succ_pos _, ?_⟩
              simp only [Nat.add_sub_cancel]
              have e : r'.heapCalls - 1 + 1 = r'.heapCalls := by omega
              rw [← e]
              exact h2

/-! ## More runs with a request whose size wraps around -/

/-- C19 (fails on the code): `mymalloc(4294967295)` returns the non-null pointer
`65552`, yet the next header starts at that very address: the block's footprint
is 16 bytes, `ALIGN8(4294967295)` is 0, and the range `[p, p + n)` runs far
beyond the program break `69632`. -/
theorem C19_payload_smaller_than_request :
    replies (steps 8 false fresh [Call.allocate 4294967295]) =
      Run.ret [Reply.pointer (some 65552) 0] ∧
    (heapAfter fresh (steps 8 false fresh [Call.allocate 4294967295])).freehead = some 65552 ∧
    footprint (heapAfter fresh (steps 8 false fresh [Call.allocate 4294967295])) 65536 = 16 ∧
    ALIGN8 4294967295 = 0 ∧
    (heapAfter fresh (steps 8 false fresh [Call.allocate 4294967295])).brk = 69632 ∧
    (69632 : Int) < 65552 + 4294967295 := by
  decide

/-- C20 (fails on the code): in the state `orphaned` the block of the live pointer
`b = 65568` is in use, its right neighbour `65576` reads free, but is not on the
free list `[65536, 65600]`: `myfree(b)` looks up the predecessor of `65576`,
finds none and dereferences `NULL`. -/
theorem C20_right_neighbour_not_listed :
    replies (steps 8 false fresh [Call.allocate 4294967295, Call.allocate 8, Call.allocate 8,
        Call.deallocate 65552, Call.allocate 24, Call.deallocate 65552]) =
      Run.ret [Reply.pointer (some 65552) 0, Reply.pointer (some 65568) 0,
        Reply.pointer (some 65592) 0, Reply.status 0, Reply.pointer (some 65552) 0,
        Reply.status 0] ∧
    (orphaned.mem (65568 - BLOCK_SIZE)).free = 1 ∧
    find_rightAdj (orphaned.setFree (65568 - BLOCK_SIZE) 0) (65568 - BLOCK_SIZE) = some 65576 ∧
    ListFrom orphaned.mem orphaned.freehead [65536, 65600] ∧
    (65576 : Int) ∉ [65536, 65600] ∧
    replies (myfree 8 orphaned 65568) = Run.crash := by
  decide

/-! ## First fit with split -/

/-- A list walk only reads the `next` fields of the nodes on it. -/
theorem ListFrom_frame (m1 m2 : Int → node_t) :
    ∀ (l : List Int) (p : Option Int), (∀ x ∈ l, (m2 x).next = (m1 x).next) →
      ListFrom m1 p l → ListFrom m2 p l := by
  intro l
  induction l with
  | nil =>
    intro p _ hp
    cases p with
    | none => trivial
    | some a => simp [ListFrom] at hp
  | cons x xs ih =>
    intro p h hp
    cases p with
    | none => simp [ListFrom] at hp
    | some a =>
      simp only [ListFrom] at hp ⊢
      refine ⟨hp.1, ?_⟩
      rw [h x (List.mem_cons_self _ _)]
      exact ih _ (fun y hy => h y (List.mem_cons_of_mem _ hy)) hp.2

/-- What follows a node on the list. -/
theorem ListFrom_tail (mem : Int → node_t) :
    ∀ (l1 : List Int) (p : Option Int) (M : Int) (l2 : List Int),
      ListFrom mem p (l1 ++ M :: l2) → ListFrom mem (mem M).next l2 := by
  intro l1
  induction l1 with
  | nil =>
    intro p M l2 h
    cases p with
    | none => simp [ListFrom] at h
    | some a => simp only [List.nil_append, ListFrom] at h; exact h.2
  | cons x xs ih =>
    intro p M l2 h
    cases p with
    | none => simp [ListFrom] at h
    | some a => simp only [List.cons_append, ListFrom] at h; exact ih _ M l2 h.2

/-- Unlinking the node `M` that follows `l1 ++ [c]`: once `c->next` is set to
`M->next`, the list is the old one without `M`. -/
theorem ListFrom_unlink (m1 m2 : Int → node_t) (c M : Int) (l2 : List Int) :
    ∀ (l1 : List Int) (p : Option Int),
      ListFrom m1 p (l1 ++ c :: M :: l2) → (l1 ++ c :: M :: l2).Nodup →
      (m2 c).next = (m1 M).next →
      (∀ x ∈ l1 ++ l2, (m2 x).next = (m1 x).next) →
      ListFrom m2 p (l1 ++ c :: l2) := by
  intro l1
  induction l1 with
  | nil =>
    intro p h hnd hc hfr
    cases p with
    | none => simp [ListFrom] at h
    | some a =>
      have ht := ListFrom_tail m1 [c] (some a) M l2 h
      simp only [List.nil_append, ListFrom] at h ⊢
      refine ⟨h.1, ?_⟩
      rw [hc]
      exact ListFrom_frame m1 m2 l2 _ (fun x hx => hfr x (by simpa using hx)) ht
  | cons x xs ih =>
    intro p h hnd hc hfr
    cases p with
    | none => simp [ListFrom] at h
    | some a =>
      simp only [List.cons_append, ListFrom] at h ⊢
      refine ⟨h.1, ?_⟩
      rw [hfr x (by simp)]
      simp only [List.cons_append, List.nodup_cons] at hnd
      exact ih _ h.2 hnd.2 hc (fun y hy => hfr y (by
        simp only [List.cons_append, List.mem_cons]
        exact Or.inr hy))

/-- The loop of `malloc_lock` on a list whose first fitting node `M` is not the
node it starts at: it reaches `M` with `prevPtr` the node `c` before it. -/
theorem malloc_loop_first_fit (s : Heap) (n c M : Int) (l2 : List Int)
    (hfit : u32 (s.mem M).size ≥ u32 (ALIGN8 n + BLOCK_SIZE) ∧ (s.mem M).free = 0) :
    ∀ (l0 : List Int) (p prev : Option Int) (fuel : Nat),
      ListFrom s.mem p (l0 ++ c :: M :: l2) →
      (∀ x ∈ l0 ++ [c],
        ¬ (u32 (s.mem x).size ≥ u32 (ALIGN8 n + BLOCK_SIZE) ∧ (s.mem x).free = 0)) →
      l0.length + 2 ≤ fuel →
      malloc_loop s n fuel prev p =
        match malloc_split s n (some c) M with
        | Run.loops => Run.loops
        | Run.crash => Run.crash
        | Run.ret r => Run.ret (some r) := by
  intro l0
  induction l0 with
  | nil =>
    intro p prev fuel hp hno hf
    cases p with
    | none => simp [ListFrom] at hp
    | some a =>
      simp only [List.nil_append, ListFrom] at hp
      obtain ⟨rfl, hM⟩ := hp
      cases hn : (s.mem a).next with
      | none => rw [hn] at hM; simp [ListFrom] at hM
      | some b =>
        rw [hn] at hM
        simp only [ListFrom] at hM
        obtain ⟨rfl, -⟩ := hM
        match fuel, hf with
        | f + 2, _ =>
          unfold malloc_loop
          rw [if_neg (hno a (by simp)), hn]
          unfold malloc_loop
          rw [if_pos hfit]
  | cons x xs ih =>
    intro p prev fuel hp hno hf
    cases p with
    | none => simp [ListFrom] at hp
    | some a =>
      simp only [List.cons_append, ListFrom] at hp
      obtain ⟨rfl, hxs⟩ := hp
      cases fuel with
      | zero => simp at hf
      | succ f =>
        unfold malloc_loop
        rw [if_neg (hno a (by simp))]
        exact ih _ (some a) f hxs (fun y hy => hno y (by
          simp only [List.cons_append, List.mem_cons]
          exact Or.inr hy)) (by simp only [List.length_cons] at hf; omega)

theorem ListFrom_head (mem : Int → node_t) (p : Option Int) (x : Int) (l : List Int)
    (h : ListFrom mem p (x :: l)) : p = some x := by
  cases p with
  | none => simp [ListFrom] at h
  | some a => simp only [ListFrom] at h; rw [h.1]

/-- The split of a block found after the node `c` (lines 127-145), field by
field. -/
theorem malloc_split_mid (s : Heap) (n c M : Int) :
    ∃ s' : Heap, malloc_split s n (some c) M = Run.ret (M + BLOCK_SIZE, s') ∧
      s'.brk = s.brk ∧ s'.freehead = some (M + ALIGN8 n + BLOCK_SIZE) ∧
      (s'.mem M).size = i32 n ∧ (s'.mem M).free = 1 ∧
      (s'.mem (M + ALIGN8 n + BLOCK_SIZE)).size =
        i32 (u32 (u32 (u32 (s.mem M).size - ALIGN8 n) - BLOCK_SIZE)) ∧
      (s'.mem (M + ALIGN8 n + BLOCK_SIZE)).free = 0 ∧
      (M + ALIGN8 n + BLOCK_SIZE ≠ c →
        (s'.mem (M + ALIGN8 n + BLOCK_SIZE)).next = s.freehead) ∧
      (s'.mem c).next = (s.mem M).next ∧
      ∀ x, x ≠ M → x ≠ M + ALIGN8 n + BLOCK_SIZE →
        (s'.mem x).size = (s.mem x).size ∧ (s'.mem x).free = (s.mem x).free ∧
        (x ≠ c → (s'.mem x).next = (s.mem x).next) := by
  have hne : M + ALIGN8 n + BLOCK_SIZE ≠ M := by
    have := ALIGN8_nonneg n; unfold BLOCK_SIZE; omega
  have hne' : M ≠ M + ALIGN8 n + BLOCK_SIZE := fun e => hne e.symm
  refine ⟨((((((s.setSize (M + ALIGN8 n + BLOCK_SIZE)
      (i32 (u32 (u32 (u32 (s.mem M).size - ALIGN8 n) - BLOCK_SIZE)))).setFree
      (M + ALIGN8 n + BLOCK_SIZE) 0).setNext (M + ALIGN8 n + BLOCK_SIZE) s.freehead).setHead
      (some (M + ALIGN8 n + BLOCK_SIZE))).setNext c (s.mem M).next).setSize M (i32 n)).setFree
      M 1, ?_, ?_, ?_, ?_, ?_, ?_, ?_, ?_, ?_, ?_⟩
  · simp [malloc_split, hne']
  · simp
  · simp
  · simp
  · simp
  · simp [hne]
    split <;> rfl
  · simp [hne]
    split <;> rfl
  · intro h
    simp [hne, h]
  · by_cases h : c = M
    · simp [h]
    · simp [h]
  · intro x h1 h2
    simp only [setFree_mem, setSize_mem, setNext_mem, setHead_mem, h1, h2, if_false]
    refine ⟨?_, ?_, ?_⟩
    · split <;> rfl
    · split <;> rfl
    · intro h3
      rw [if_neg h3]

/-- First fit with split on a sound list.  On a free list `l1 ++ M :: l2` whose nodes up to
`M` are free with a size that is a non-negative `int`, where no node of `l1` has
`size >= ALIGN8(n) + 16` and `M` has, `mymalloc(n)` calls `increase_heap` zero times,
returns `M + 16`, sets `M->size = n` and `M->free = 1`, and writes a free header of
size `M->size - ALIGN8(n) - 16` at `M + ALIGN8(n) + 16`, which becomes the head of
the list; the list that follows it is `l1 ++ l2`, with sizes and states unchanged. -/
theorem first_fit_split (fuel : Nat) (pages : Nat → Bool) (s : Heap) (n M : Int)
    (l1 l2 : List Int) (hn : 0 ≤ n) (hn1 : n ≤ 4294967288)
    (hl : ListFrom s.mem s.freehead (l1 ++ M :: l2))
    (hnodes : ∀ x ∈ l1 ++ [M],
      (s.mem x).free = 0 ∧ 0 ≤ (s.mem x).size ∧ (s.mem x).size < 2147483648)
    (hno : ∀ x ∈ l1, (s.mem x).size < ALIGN8 n + BLOCK_SIZE)
    (hfit : ALIGN8 n + BLOCK_SIZE ≤ (s.mem M).size)
    (hfuel : l1.length + 1 ≤ fuel) :
    ∃ s' : Heap, mymalloc (fuel + 1) pages s n = Run.ret ⟨some (M + BLOCK_SIZE), s', 0⟩ ∧
      s'.brk = s.brk ∧
      (s'.mem M).size = n ∧ (s'.mem M).free = 1 ∧
      s'.freehead = some (M + ALIGN8 n + BLOCK_SIZE) ∧
      (s'.mem (M + ALIGN8 n + BLOCK_SIZE)).size = (s.mem M).size - ALIGN8 n - BLOCK_SIZE ∧
      (s'.mem (M + ALIGN8 n + BLOCK_SIZE)).free = 0 ∧
      ((l1 ++ M :: l2).Nodup → M + ALIGN8 n + BLOCK_SIZE ∉ l1 ++ M :: l2 →
        ListFrom s'.mem s'.freehead ((M + ALIGN8 n + BLOCK_SIZE) :: (l1 ++ l2)) ∧
        ∀ x ∈ l1 ++ l2,
          (s'.mem x).size = (s.mem x).size ∧ (s'.mem x).free = (s.mem x).free) := by
  have hB : BLOCK_SIZE = 16 := rfl
  have hAv := ALIGN8_small n hn hn1
  generalize hA : ALIGN8 n = A at *
  obtain ⟨hMf, hM0, hM1⟩ := hnodes M (by simp)
  rw [hB] at hfit
  simp only [hB] at hno
  have hA0 : 0 ≤ A := by omega
  have hAn : n ≤ A := by omega
  have hfitM : u32 (s.mem M).size ≥ u32 (ALIGN8 n + BLOCK_SIZE) ∧ (s.mem M).free = 0 := by
    refine ⟨?_, hMf⟩
    rw [hA, hB]
    unfold u32; omega
  have hnofit : ∀ x ∈ l1,
      ¬ (u32 (s.mem x).size ≥ u32 (ALIGN8 n + BLOCK_SIZE) ∧ (s.mem x).free = 0) := by
    intro x hx hc
    obtain ⟨-, h0, h1⟩ := hnodes x (by simp [hx])
    have h2 := hno x hx
    have h3 := hc.1
    rw [hA, hB] at h3
    unfold u32 at h3; omega
  have vsize : i32 (u32 (u32 (u32 (s.mem M).size - ALIGN8 n) - BLOCK_SIZE)) =
      (s.mem M).size - A - BLOCK_SIZE := by
    rw [hA, hB]; unfold u32 i32; omega
  have vn : i32 n = n := by
    unfold i32; omega
  have hne : M + A + BLOCK_SIZE ≠ M := by rw [hB]; omega
  rcases List.eq_nil_or_concat l1 with rfl | ⟨l0, c, rfl⟩
  · -- the first fit is the head of the list
    have hh : s.freehead = some M := ListFrom_head _ _ _ _ hl
    match fuel, hfuel with
    | f + 1, _ =>
      obtain ⟨s', e, hb, hf, m1, m2, m3⟩ := malloc_lock_head f pages s n M hh hfitM.1 hfitM.2
      rw [vsize] at m2
      rw [hA] at hf m2 m3
      refine ⟨s', e, hb, by rw [m1, vn], by rw [m1], hf, by rw [m2], by rw [m2], ?_⟩
      intro hnd hnew
      simp only [List.nil_append, List.nodup_cons, List.mem_cons, not_or] at hnd hnew ⊢
      have hfr : ∀ x ∈ l2, s'.mem x = s.mem x := by
        intro x hx
        exact m3 x (fun e => hnd.1 (e ▸ hx)) (fun e => hnew.2 (e ▸ hx))
      refine ⟨?_, fun x hx => by rw [hfr x hx]; exact ⟨rfl, rfl⟩⟩
      rw [hf]
      simp only [ListFrom, true_and]
      rw [m2]
      exact ListFrom_frame s.mem s'.mem l2 _ (fun x hx => by rw [hfr x hx])
        (ListFrom_tail s.mem [] _ M l2 hl)
  · -- the first fit comes after the node `c`
    simp only [List.concat_eq_append, List.append_assoc, List.singleton_append]
      at hl hnodes hfuel hno hnofit ⊢
    have hloop := malloc_loop_first_fit s n c M l2 hfitM l0 s.freehead none fuel hl hnofit
      (by simp only [List.length_append, List.length_singleton] at hfuel; omega)
    obtain ⟨s', e, hb, hf, m1, m2, m3, m4, m5, m6, m7⟩ := malloc_split_mid s n c M
    rw [vsize] at m3
    rw [hA] at hf m3 m4 m5 m7
    refine ⟨s', ?_, hb, by rw [m1, vn], m2, hf, m3, m4, ?_⟩
    · unfold mymalloc malloc_lock
      rw [hloop, e]
    · intro hnd hnew
      have hcM : c ≠ M := by
        intro e
        rw [e] at hnd
        have := List.nodup_append.1 hnd
        simp at this
      have hcnew : M + A + BLOCK_SIZE ≠ c := by
        intro e
        exact hnew (by rw [e]; simp)
      have hmem : ∀ x ∈ l0 ++ l2, x ≠ M ∧ x ≠ c ∧ x ≠ M + A + BLOCK_SIZE := by
        intro x hx
        refine ⟨?_, ?_, ?_⟩
        · intro e
          have h1 := List.nodup_append.1 hnd
          rcases List.mem_append.1 hx with h | h
          · exact h1.2.2 (e ▸ h) (by simp)
          · have h2 := h1.2.1
            simp only [List.nodup_cons, List.mem_cons, not_or] at h2
            exact h2.2.1 (e ▸ h)
        · intro e
          have h1 := List.nodup_append.1 hnd
          rcases List.mem_append.1 hx with h | h
          · exact h1.2.2 (e ▸ h) (by simp)
          · have h2 := h1.2.1
            simp only [List.nodup_cons, List.mem_cons, not_or] at h2
            exact h2.1.2 (e ▸ h)
        · intro e
          apply hnew
          rw [← e]
          rcases List.mem_append.1 hx with h | h
          · exact List.mem_append_left _ h
          · exact List.mem_append_right _ (by simp [h])
      refine ⟨?_, ?_⟩
      · rw [hf]
        simp only [ListFrom, true_and]
        rw [m5 hcnew]
        refine ListFrom_unlink s.mem _ c M l2 l0 s.freehead hl hnd m6 ?_
        intro x hx
        obtain ⟨h1, h2, h3⟩ := hmem x hx
        exact (m7 x h1 h3).2.2 h2
      · intro x hx
        have hx' : x ≠ M ∧ x ≠ M + A + BLOCK_SIZE := by
          rcases List.mem_append.1 hx with h | h
          · exact ⟨(hmem x (List.mem_append_left _ h)).1, (hmem x (List.mem_append_left _ h)).2.2⟩
          · rcases List.mem_cons.1 h with h | h
            · rw [h]; exact ⟨hcM, hcnew.symm⟩
            · exact ⟨(hmem x (List.mem_append_right _ h)).1,
                (hmem x (List.mem_append_right _ h)).2.2⟩
        exact ⟨(m7 x hx'.1 hx'.2).1, (m7 x hx'.1 hx'.2).2.1⟩

theorem first_fit_split_example :
    ListFrom oneFreed.mem oneFreed.freehead ([65536] ++ 65872 :: []) ∧
    (oneFreed.mem 65536).size < ALIGN8 100 + BLOCK_SIZE ∧
    ALIGN8 100 + BLOCK_SIZE ≤ (oneFreed.mem 65872).size ∧
    ∃ s' : Heap, mymalloc 9 (fun _ => false) oneFreed 100 =
        Run.ret ⟨some (65872 + BLOCK_SIZE), s', 0⟩ ∧
      s'.freehead = some (65872 + ALIGN8 100 + BLOCK_SIZE) ∧
      (s'.mem (65872 + ALIGN8 100 + BLOCK_SIZE)).size =
        (oneFreed.mem 65872).size - ALIGN8 100 - BLOCK_SIZE ∧
      ListFrom s'.mem s'.freehead ((65872 + ALIGN8 100 + BLOCK_SIZE) :: ([65536] ++ [])) := by
  obtain ⟨s', e, -, -, -, hf, hs, -, h⟩ := first_fit_split 8 (fun _ => false) oneFreed 100
    65872 [65536] [] (by decide) (by decide) (by decide) (by decide) (by decide) (by decide)
    (by decide)
  exact ⟨by decide, by decide, by decide, s', e, hf, hs, (h (by decide) (by decide)).1⟩

/-! ## Coalescing with both neighbours free -/

/-- `find_leftAdj` on a list with exactly one node whose block ends at `C`. -/
theorem find_leftAdj_loop_unique (s : Heap) (C L : Int)
    (hLfree : (s.mem L).free = 0) (hLadj : C = L + BLOCK_SIZE + ALIGN8i (s.mem L).size) :
    ∀ (l : List Int) (p : Option Int) (fuel : Nat), ListFrom s.mem p l → L ∈ l →
      (∀ x ∈ l, (s.mem x).free = 0 → C = x + BLOCK_SIZE + ALIGN8i (s.mem x).size → x = L) →
      l.length ≤ fuel → find_leftAdj_loop s C fuel p = Run.ret (some L) := by
  intro l
  induction l with
  | nil => intro p fuel _ hL; simp at hL
  | cons x xs ih =>
    intro p fuel hp hL hu hf
    cases p with
    | none => simp [ListFrom] at hp
    | some a =>
      simp only [ListFrom] at hp
      obtain ⟨rfl, hxs⟩ := hp
      cases fuel with
      | zero => simp at hf
      | succ f =>
        simp only [List.length_cons, Nat.add_le_add_iff_right] at hf
        unfold find_leftAdj_loop
        by_cases hc : (s.mem a).free = 0 ∧ C = a + BLOCK_SIZE + ALIGN8i (s.mem a).size
        · rw [if_pos hc, hu a (List.mem_cons_self _ _) hc.1 hc.2]
        · rw [if_neg hc]
          have hLx : L ∈ xs := by
            rcases List.mem_cons.1 hL with h | h
            · exact absurd ⟨h ▸ hLfree, h ▸ hLadj⟩ hc
            · exact h
          exact ih _ f hxs hLx (fun y hy => hu y (List.mem_cons_of_mem _ hy)) hf

/-- `find_prevAdj` on a list without repetitions returns the node before `R`. -/
theorem find_prevAdj_loop_pred (s : Heap) (c R : Int) (l2 : List Int) :
    ∀ (l1 : List Int) (p : Option Int) (fuel : Nat),
      ListFrom s.mem p (l1 ++ c :: R :: l2) → (l1 ++ c :: R :: l2).Nodup →
      l1.length + 1 ≤ fuel → find_prevAdj_loop s R fuel p = Run.ret (some c) := by
  intro l1
  induction l1 with
  | nil =>
    intro p fuel hp _ hf
    cases p with
    | none => simp [ListFrom] at hp
    | some a =>
      have hn := ListFrom_head _ _ _ _ (ListFrom_tail s.mem [] (some a) c (R :: l2) hp)
      simp only [List.nil_append, ListFrom] at hp
      obtain ⟨rfl, -⟩ := hp
      cases fuel with
      | zero => simp at hf
      | succ f =>
        unfold find_prevAdj_loop
        rw [if_pos hn]
  | cons x xs ih =>
    intro p fuel hp hnd hf
    cases p with
    | none => simp [ListFrom] at hp
    | some a =>
      simp only [List.cons_append, ListFrom] at hp
      obtain ⟨rfl, hxs⟩ := hp
      cases fuel with
      | zero => simp at hf
      | succ f =>
        simp only [List.length_cons, Nat.add_le_add_iff_right] at hf
        simp only [List.cons_append, List.nodup_cons] at hnd
        unfold find_prevAdj_loop
        have hne : (s.mem a).next ≠ some R := by
          intro e
          rw [e] at hxs
          cases xs with
          | nil =>
            simp only [List.nil_append, ListFrom] at hxs
            have := hnd.2
            simp only [List.nil_append, List.nodup_cons, List.mem_cons, not_or] at this
            exact this.1.1 hxs.1.symm
          | cons y ys =>
            simp only [List.cons_append, ListFrom] at hxs
            have := hnd.2
            simp only [List.cons_append, List.nodup_cons, List.mem_append, List.mem_cons,
              not_or] at this
            exact this.1.2.2.1 hxs.1.symm
        rw [if_neg hne]
        exact ih _ f hxs hnd.2 hf


theorem mem_of_mem_middle {α : Type} (x R : α) (l1 l2 : List α) (h : x ∈ l1 ++ l2) :
    x ∈ l1 ++ R :: l2 := by
  rcases List.mem_append.1 h with h | h
  · exact List.mem_append_left _ h
  · exact List.mem_append_right _ (List.mem_cons_of_mem _ h)

theorem size_setSize (s : Heap) (p v a : Int) :
    ((s.setSize p v).mem a).size = if a = p then v else (s.mem a).size := by
  simp only [setSize_mem]; split <;> rfl

theorem free_setSize (s : Heap) (p v a : Int) :
    ((s.setSize p v).mem a).free = (s.mem a).free := by
  simp only [setSize_mem]; split <;> rfl

theorem next_setSize (s : Heap) (p v a : Int) :
    ((s.setSize p v).mem a).next = (s.mem a).next := by
  simp only [setSize_mem]; split <;> rfl

theorem size_setFree (s : Heap) (p v a : Int) :
    ((s.setFree p v).mem a).size = (s.mem a).size := by
  simp only [setFree_mem]; split <;> rfl

theorem free_setFree (s : Heap) (p v a : Int) :
    ((s.setFree p v).mem a).free = if a = p then v else (s.mem a).free := by
  simp only [setFree_mem]; split <;> rfl

theorem next_setFree (s : Heap) (p v a : Int) :
    ((s.setFree p v).mem a).next = (s.mem a).next := by
  simp only [setFree_mem]; split <;> rfl

theorem size_setNext (s : Heap) (p : Int) (v : Option Int) (a : Int) :
    ((s.setNext p v).mem a).size = (s.mem a).size := by
  simp only [setNext_mem]; split <;> rfl

theorem free_setNext (s : Heap) (p : Int) (v : Option Int) (a : Int) :
    ((s.setNext p v).mem a).free = (s.mem a).free := by
  simp only [setNext_mem]; split <;> rfl

theorem next_setNext (s : Heap) (p : Int) (v : Option Int) (a : Int) :
    ((s.setNext p v).mem a).next = if a = p then v else (s.mem a).next := by
  simp only [setNext_mem]; split <;> rfl

/-- Coalescing with both neighbours free on a sound list.  Let `C = p - 16` be in use and off
the free list `l1 ++ R :: l2`, a list without repetitions; let `L` be the only
free node of the list whose block ends at `C`, and let the free node `R` start
where the block of `C` ends.  Then `myfree(p)` returns 0, sets
`L->size = ALIGN8(L->size) + ALIGN8(C->size) + ALIGN8(R->size) + 32` (as an `int`), marks `C`
free without listing it, and leaves the free list `l1 ++ l2`: `R` is removed,
whether it was the head (`l1` empty) or not, and every other node keeps its
place; no other size and no other state changes. -/
theorem coalesce_both_neighbours (fuel : Nat) (s : Heap) (p L R : Int) (l1 l2 : List Int)
    (hC : (s.mem (p - BLOCK_SIZE)).free = 1)
    (hl : ListFrom s.mem s.freehead (l1 ++ R :: l2))
    (hnd : (l1 ++ R :: l2).Nodup)
    (hCl : p - BLOCK_SIZE ∉ l1 ++ R :: l2)
    (hL : L ∈ l1 ++ l2) (hLfree : (s.mem L).free = 0)
    (hLadj : L + footprint s L = p - BLOCK_SIZE)
    (hLuniq : ∀ x ∈ l1 ++ R :: l2, (s.mem x).free = 0 →
      x + footprint s x = p - BLOCK_SIZE → x = L)
    (hR : p - BLOCK_SIZE + footprint s (p - BLOCK_SIZE) = R) (hRfree : (s.mem R).free = 0)
    (hfuel : (l1 ++ R :: l2).length ≤ fuel) :
    ∃ s' : Heap, myfree fuel s p = Run.ret (0, s') ∧
      (s'.mem L).size = i32 (ALIGN8i (s.mem L).size + ALIGN8i (s.mem (p - BLOCK_SIZE)).size
        + ALIGN8i (s.mem R).size + 2 * BLOCK_SIZE) ∧
      ListFrom s'.mem s'.freehead (l1 ++ l2) ∧
      s'.brk = s.brk ∧
      (∀ x, x ≠ L → (s'.mem x).size = (s.mem x).size) ∧
      (∀ x, x ≠ p - BLOCK_SIZE → (s'.mem x).free = (s.mem x).free) ∧
      (s'.mem (p - BLOCK_SIZE)).free = 0 := by
  generalize hCdef : p - BLOCK_SIZE = C at *
  have hLl : L ∈ l1 ++ R :: l2 := mem_of_mem_middle L R l1 l2 hL
  have hLC : L ≠ C := fun e => hCl (e ▸ hLl)
  have hRC : R ≠ C := fun e => hCl (by rw [← e]; simp)
  have hs1 : ∀ x, x ≠ C → (s.setFree C 0).mem x = s.mem x := by
    intro x hx; simp [hx]
  have hl1 : ListFrom (s.setFree C 0).mem (s.setFree C 0).freehead (l1 ++ R :: l2) :=
    ListFrom_frame s.mem _ _ _ (fun x _ => next_setFree s C 0 x) hl
  -- the left neighbour
  have hleft : find_leftAdj fuel (s.setFree C 0) C = Run.ret (some L) := by
    refine find_leftAdj_loop_unique (s.setFree C 0) C L (by rw [hs1 L hLC]; exact hLfree)
      (by rw [hs1 L hLC, ← hLadj]; unfold footprint; ring) (l1 ++ R :: l2) _ fuel hl1 hLl ?_ hfuel
    intro x hx h1 h2
    have hxC : x ≠ C := fun e => hCl (e ▸ hx)
    rw [hs1 x hxC] at h1 h2
    exact hLuniq x hx h1 (by rw [h2]; unfold footprint; ring)
  -- the right neighbour
  have hright : find_rightAdj (s.setFree C 0) C = some R := by
    have e1 : C + BLOCK_SIZE + ALIGN8i ((s.setFree C 0).mem C).size = R := by
      rw [← hR, size_setFree]; unfold footprint; ring
    simp only [find_rightAdj, e1, hs1 R hRC, hRfree, if_true]
  have hco : coalesce fuel (s.setFree C 0) C 0 = coalesce_both fuel (s.setFree C 0) C L R := by
    unfold coalesce
    rw [hleft, hright]
    simp
  have hfree : ∀ S : Heap, coalesce_both fuel (s.setFree C 0) C L R = Run.ret S →
      myfree fuel s p = Run.ret (0, S) := by
    intro S hS
    unfold myfree free_lock
    simp only [hCdef, hC, if_true, hco, hS]
  rcases List.eq_nil_or_concat l1 with rfl | ⟨l0, c, rfl⟩
  · -- `R` is the head of the free list
    have hh : s.freehead = some R := ListFrom_head _ _ _ _ hl
    refine ⟨((s.setFree C 0).setHead (s.mem R).next).setSize L
      (i32 (ALIGN8i (s.mem L).size + ALIGN8i (s.mem C).size + ALIGN8i (s.mem R).size
        + 2 * BLOCK_SIZE)), hfree _ ?_, ?_, ?_, ?_, ?_, ?_, ?_⟩
    · simp only [coalesce_both, setFree_freehead, hh, if_true, setHead_mem, size_setFree,
        next_setFree]
    · simp only [size_setSize, if_true]
    · simp only [List.nil_append, setSize_freehead, setHead_freehead]
      refine ListFrom_frame s.mem _ l2 _ ?_ (ListFrom_tail s.mem [] _ R l2 hl)
      intro x _
      simp only [next_setSize, setHead_mem, next_setFree]
    · rfl
    · intro x hx
      simp only [size_setSize, hx, if_false, setHead_mem, size_setFree]
    · intro x hx
      simp only [free_setSize, setHead_mem, free_setFree, hx, if_false]
    · simp only [free_setSize, setHead_mem, free_setFree, if_true]
  · -- `R` follows the node `c`
    simp only [List.concat_eq_append, List.append_assoc, List.singleton_append]
      at hl hnd hCl hL hLuniq hfuel hl1 hLl ⊢
    have hhead : ¬ (some R = (s.setFree C 0).freehead) := by
      intro e
      rw [setFree_freehead] at e
      cases l0 with
      | nil =>
        have h := ListFrom_head _ _ _ _ hl
        rw [h] at e
        injection e with e
        simp only [List.nil_append, List.nodup_cons, List.mem_cons, not_or] at hnd
        exact hnd.1.1 e.symm
      | cons y ys =>
        have h := ListFrom_head _ _ _ _ hl
        rw [h] at e
        injection e with e
        simp only [List.cons_append, List.nodup_cons, List.mem_append, List.mem_cons,
          not_or] at hnd
        exact hnd.1.2.2.1 e.symm
    have hprev : find_prevAdj fuel (s.setFree C 0) R = Run.ret (some c) :=
      find_prevAdj_loop_pred (s.setFree C 0) c R l2 l0 _ fuel hl1 hnd
        (by simp only [List.length_append, List.length_cons] at hfuel; omega)
    refine ⟨((s.setFree C 0).setNext c (s.mem R).next).setSize L
      (i32 (ALIGN8i (s.mem L).size + ALIGN8i (s.mem C).size + ALIGN8i (s.mem R).size
        + 2 * BLOCK_SIZE)), hfree _ ?_, ?_, ?_, ?_, ?_, ?_, ?_⟩
    · simp only [coalesce_both, hhead, if_false, hprev, size_setNext, size_setFree,
        next_setFree]
    · simp only [size_setSize, if_true]
    · simp only [setSize_freehead, setNext_freehead, setFree_freehead]
      refine ListFrom_unlink s.mem _ c R l2 l0 s.freehead hl hnd ?_ ?_
      · simp only [next_setSize, next_setNext, if_true]
      · intro x hx
        have hxc : x ≠ c := by
          intro e
          subst e
          have h1 := List.nodup_append.1 hnd
          rcases List.mem_append.1 hx with h | h
          · exact h1.2.2 h (by simp)
          · have h2 := h1.2.1
            simp only [List.nodup_cons, List.mem_cons, not_or] at h2
            exact h2.1.2 h
        simp only [next_setSize, next_setNext, hxc, if_false, next_setFree]
    · rfl
    · intro x hx
      simp only [size_setSize, hx, if_false, size_setNext, size_setFree]
    · intro x hx
      simp only [free_setSize, free_setNext, free_setFree, hx, if_false]
    · simp only [free_setSize, free_setNext, free_setFree, if_true]

theorem coalesce_both_neighbours_example :
    (bothFree.mem (65672 - BLOCK_SIZE)).free = 1 ∧
    ListFrom bothFree.mem bothFree.freehead ([65536] ++ 65872 :: []) ∧
    (bothFree.mem 65536).free = 0 ∧ 65536 + footprint bothFree 65536 = 65672 - BLOCK_SIZE ∧
    65672 - BLOCK_SIZE + footprint bothFree (65672 - BLOCK_SIZE) = 65872 ∧
    (bothFree.mem 65872).free = 0 ∧
    ∃ s' : Heap, myfree 8 bothFree 65672 = Run.ret (0, s') ∧
      (s'.mem 65536).size = i32 (ALIGN8i (bothFree.mem 65536).size
        + ALIGN8i (bothFree.mem (65672 - BLOCK_SIZE)).size
        + ALIGN8i (bothFree.mem 65872).size + 2 * BLOCK_SIZE) ∧
      ListFrom s'.mem s'.freehead ([65536] ++ []) := by
  obtain ⟨s', e, h1, h2, -⟩ := coalesce_both_neighbours 8 bothFree 65672 65536 65872
    [65536] [] (by decide) (by decide) (by decide) (by decide) (by decide) (by decide)
    (by decide) (by decide) (by decide) (by decide) (by decide)
  exact ⟨by decide, by decide, by decide, by decide, by decide, by decide, s', e, h1, h2⟩

/-! ## The two variants compared -/

theorem optStuck_mem_65600 : (optStuck.setFree 65600 0).mem 65600 = ⟨24, 0, some 65600⟩ := by
  decide

theorem optStuck_mem_65640 : (optStuck.setFree 65600 0).mem 65640 = ⟨-56, 0, some 65600⟩ := by
  decide

theorem optStuck_coalesce_loop (fuel : Nat) :
    ∀ leftAdj changeNextPtr : Option Int,
      Opt.coalesce_loop (optStuck.setFree 65600 0) 65600 (some 65640) fuel leftAdj changeNextPtr
        (some 65600) = Run.loops := by
  induction fuel with
  | zero => intro l c; rfl
  | succ f ih =>
    intro l c
    unfold Opt.coalesce_loop
    rw [optStuck_mem_65600]
    have h1 : ¬ ((0 : Int) = 0 ∧ (65600 : Int) = 65600 + BLOCK_SIZE + ALIGN8i 24) := by decide
    have h2 : ¬ (some (65600 : Int) = some 65640) := by decide
    simp only [h1, h2, if_false, false_and]
    exact ih _ _

theorem optStuck_coalesce (fuel : Nat) :
    Opt.coalesce fuel (optStuck.setFree 65600 0) 65600 0 = Run.loops := by
  have hh : (optStuck.setFree 65600 0).freehead = some 65640 := by decide
  have e1 : (65600 : Int) + BLOCK_SIZE + ALIGN8i 24 = 65640 := by decide
  have e2 : (65640 : Int) + BLOCK_SIZE + ALIGN8i (-56) = 65600 := by decide
  unfold Opt.coalesce
  simp only [optStuck_mem_65600, hh, e1, optStuck_mem_65640]
  cases fuel with
  | zero => simp [Opt.coalesce_loop]
  | succ f =>
    unfold Opt.coalesce_loop
    simp only [optStuck_mem_65640, e2]
    simp [optStuck_coalesce_loop]

/-- C15 (fails on the code): the two variants differ.  After
`a = mymalloc(4294967295)`, `b = mymalloc(32)`, `myfree(a)`, `c = mymalloc(48)`,
`d = mymalloc(24)`, `myfree(b)`, on which both variants give the same replies,
`myfree(d)` returns 0 in `mymemory.c` and does not return in `mymemory_opt.c`:
its single loop walks a cyclic free list looking for the node before the head. -/
theorem C15_optimized_free_never_returns :
    replies (steps 8 false fresh
      [Call.allocate 4294967295, Call.allocate 32, Call.deallocate 65552, Call.allocate 48,
        Call.allocate 24, Call.deallocate 65568]) =
      Run.ret [Reply.pointer (some 65552) 0, Reply.pointer (some 65568) 0, Reply.status 0,
        Reply.pointer (some 65552) 0, Reply.pointer (some 65616) 0, Reply.status 0] ∧
    replies (Opt.steps 8 false fresh
      [Call.allocate 4294967295, Call.allocate 32, Call.deallocate 65552, Call.allocate 48,
        Call.allocate 24, Call.deallocate 65568]) =
      Run.ret [Reply.pointer (some 65552) 0, Reply.pointer (some 65568) 0, Reply.status 0,
        Reply.pointer (some 65552) 0, Reply.pointer (some 65616) 0, Reply.status 0] ∧
    replies (myfree 8 (heapAfter fresh (steps 8 false fresh
      [Call.allocate 4294967295, Call.allocate 32, Call.deallocate 65552, Call.allocate 48,
        Call.allocate 24, Call.deallocate 65568])) 65616) = Run.ret 0 ∧
    ∀ fuel : Nat, Opt.myfree fuel optStuck 65616 = Run.loops := by
  refine ⟨by decide, by decide, by decide, ?_⟩
  intro fuel
  have hf : (optStuck.mem 65600).free = 1 := by decide
  have hB : (65616 : Int) - BLOCK_SIZE = 65600 := by decide
  unfold Opt.myfree Opt.free_lock
  simp only [hB, hf, if_true]
  rw [optStuck_coalesce fuel]

/-! ### Where the two variants agree -/

theorem find_leftAdj_loop_mem (s : Heap) (c : Int) :
    ∀ (l : List Int) (p : Option Int) (fuel : Nat) (y : Int), ListFrom s.mem p l →
      find_leftAdj_loop s c fuel p = Run.ret (some y) →
      y ∈ l ∧ (s.mem y).free = 0 ∧ c = y + BLOCK_SIZE + ALIGN8i (s.mem y).size := by
  intro l
  induction l with
  | nil =>
    intro p fuel y hp h
    cases p with
    | none => cases fuel <;> simp [find_leftAdj_loop] at h
    | some a => simp [ListFrom] at hp
  | cons x xs ih =>
    intro p fuel y hp h
    cases p with
    | none => simp [ListFrom] at hp
    | some a =>
      simp only [ListFrom] at hp
      obtain ⟨rfl, hp⟩ := hp
      cases fuel with
      | zero => simp [find_leftAdj_loop] at h
      | succ f =>
        unfold find_leftAdj_loop at h
        split at h
        · rename_i hc
          injection h with h; injection h with h
          subst h
          exact ⟨by simp, hc⟩
        · obtain ⟨h1, h2⟩ := ih _ f y hp h
          exact ⟨List.mem_cons_of_mem _ h1, h2⟩

theorem find_prevAdj_loop_mem (s : Heap) (r : Int) :
    ∀ (l : List Int) (p : Option Int) (fuel : Nat) (y : Int), ListFrom s.mem p l →
      find_prevAdj_loop s r fuel p = Run.ret (some y) →
      y ∈ l ∧ (s.mem y).next = some r := by
  intro l
  induction l with
  | nil =>
    intro p fuel y hp h
    cases p with
    | none => cases fuel <;> simp [find_prevAdj_loop] at h
    | some a => simp [ListFrom] at hp
  | cons x xs ih =>
    intro p fuel y hp h
    cases p with
    | none => simp [ListFrom] at hp
    | some a =>
      simp only [ListFrom] at hp
      obtain ⟨rfl, hp⟩ := hp
      cases fuel with
      | zero => simp [find_prevAdj_loop] at h
      | succ f =>
        unfold find_prevAdj_loop at h
        split at h
        · rename_i hc
          injection h with h; injection h with h
          subst h
          exact ⟨by simp, hc⟩
        · obtain ⟨h1, h2⟩ := ih _ f y hp h
          exact ⟨List.mem_cons_of_mem _ h1, h2⟩

/-- The successor of a node of the list is a later node of the list. -/
theorem next_mem_tail (mem : Int → node_t) (r : Int) :
    ∀ (l : List Int) (p : Option Int), ListFrom mem p l →
      ∀ y ∈ l, (mem y).next = some r → r ∈ l.tail := by
  intro l
  induction l with
  | nil => intro p _ y hy; simp at hy
  | cons a t ih =>
    intro p hp y hy hn
    cases p with
    | none => simp [ListFrom] at hp
    | some b =>
      simp only [ListFrom] at hp
      obtain ⟨rfl, hp⟩ := hp
      simp only [List.tail_cons]
      rcases List.mem_cons.1 hy with rfl | hy
      · rw [hn] at hp
        cases t with
        | nil => simp [ListFrom] at hp
        | cons z t1 =>
          simp only [ListFrom] at hp
          rw [← hp.1]; simp
      · exact List.mem_of_mem_tail (ih _ hp y hy hn)

/-- On a list without repetition at most one node has `r` for successor. -/
theorem pred_pairwise (mem : Int → node_t) (r : Int) :
    ∀ (l : List Int) (p : Option Int), ListFrom mem p l → l.Nodup →
      l.Pairwise (fun x y => ¬ ((mem x).next = some r ∧ (mem y).next = some r)) := by
  intro l
  induction l with
  | nil => intro p _ _; exact List.Pairwise.nil
  | cons a t ih =>
    intro p hp hnd
    cases p with
    | none => simp [ListFrom] at hp
    | some b =>
      simp only [ListFrom] at hp
      obtain ⟨rfl, hp⟩ := hp
      rw [List.nodup_cons] at hnd
      refine List.Pairwise.cons ?_ (ih _ hp hnd.2)
      rintro y hy ⟨h1, h2⟩
      have h3 := next_mem_tail mem r t _ hp y hy h2
      rw [h1] at hp
      cases t with
      | nil => simp at hy
      | cons z t1 =>
        simp only [ListFrom] at hp
        simp only [List.tail_cons] at h3
        have := hnd.2
        rw [List.nodup_cons] at this
        exact this.1 (hp.1 ▸ h3)

/-- One round of the loop of `coalesce` in `mymemory_opt.c` at a node that passes
the test of line 274. -/
theorem coalesce_loop_found (s : Heap) (c : Int) (rightAdj : Option Int) (f : Nat)
    (left change : Option Int) (a : Int)
    (h : (s.mem a).free = 0 ∧ c = a + BLOCK_SIZE + ALIGN8i (s.mem a).size) :
    Opt.coalesce_loop s c rightAdj (f + 1) left change (some a) =
      if rightAdj = none then Run.ret (some a, change)
      else if (s.mem a).next = rightAdj then Run.ret (some a, some a)
      else Opt.coalesce_loop s c rightAdj f (some a) change (s.mem a).next := by
  conv => lhs; unfold Opt.coalesce_loop
  dsimp only
  rw [if_pos h]
  by_cases hr : rightAdj = none
  · rw [if_pos ⟨h, hr⟩, if_pos hr]
  · rw [if_neg (fun e => hr e.2), if_neg hr]
    by_cases hn : (s.mem a).next = rightAdj
    · rw [if_pos hn, if_pos hn, if_pos (by simp)]
    · rw [if_neg hn, if_neg hn]

/-- One round of the loop of `coalesce` in `mymemory_opt.c` at a node that fails
the test of line 274. -/
theorem coalesce_loop_not_found (s : Heap) (c : Int) (rightAdj : Option Int) (f : Nat)
    (left change : Option Int) (a : Int)
    (h : ¬ ((s.mem a).free = 0 ∧ c = a + BLOCK_SIZE + ALIGN8i (s.mem a).size)) :
    Opt.coalesce_loop s c rightAdj (f + 1) left change (some a) =
      if (s.mem a).next = rightAdj then
        (if left ≠ none then Run.ret (left, some a)
         else Opt.coalesce_loop s c rightAdj f left (some a) (s.mem a).next)
      else Opt.coalesce_loop s c rightAdj f left change (s.mem a).next := by
  conv => lhs; unfold Opt.coalesce_loop
  dsimp only
  rw [if_neg h, if_neg (fun e => h e.1)]

/-- The first result of the single loop of `mymemory_opt.c` is what `find_leftAdj`
returns, when at most one node of the list passes its test. -/
theorem coalesce_loop_left (s : Heap) (c : Int) (rightAdj : Option Int) :
    ∀ (l : List Int) (p : Option Int) (fuel : Nat) (left change : Option Int),
      ListFrom s.mem p l → l.length ≤ fuel →
      l.Pairwise (fun x y =>
        ¬ (((s.mem x).free = 0 ∧ c = x + BLOCK_SIZE + ALIGN8i (s.mem x).size) ∧
          ((s.mem y).free = 0 ∧ c = y + BLOCK_SIZE + ALIGN8i (s.mem y).size))) →
      (left ≠ none →
        ∀ x ∈ l, ¬ ((s.mem x).free = 0 ∧ c = x + BLOCK_SIZE + ALIGN8i (s.mem x).size)) →
      ∃ (oa ch : Option Int), find_leftAdj_loop s c fuel p = Run.ret oa ∧
        Opt.coalesce_loop s c rightAdj fuel left change p =
          Run.ret (oa.orElse (fun _ => left), ch) := by
  intro l
  induction l with
  | nil =>
    intro p fuel left change hp _ _ _
    cases p with
    | none => exact ⟨none, change, by cases fuel <;> rfl, by cases fuel <;> rfl⟩
    | some a => simp [ListFrom] at hp
  | cons x xs ih =>
    intro p fuel left change hp hf hpw hleft
    cases p with
    | none => simp [ListFrom] at hp
    | some a =>
      simp only [ListFrom] at hp
      obtain ⟨rfl, hp⟩ := hp
      rw [List.pairwise_cons] at hpw
      cases fuel with
      | zero => simp at hf
      | succ f =>
        have hf1 : xs.length ≤ f := by simp only [List.length_cons] at hf; omega
        by_cases ht : (s.mem a).free = 0 ∧ c = a + BLOCK_SIZE + ALIGN8i (s.mem a).size
        · -- the test passes at `a`
          have hnone : ∀ y ∈ xs,
              ¬ ((s.mem y).free = 0 ∧ c = y + BLOCK_SIZE + ALIGN8i (s.mem y).size) :=
            fun y hy h => hpw.1 y hy ⟨ht, h⟩
          have hfl : find_leftAdj_loop s c (f + 1) (some a) = Run.ret (some a) := by
            unfold find_leftAdj_loop
            rw [if_pos ht]
          obtain ⟨oa, ch, e1, e2⟩ := ih _ f (some a) change hp hf1 hpw.2 (fun _ => hnone)
          obtain ⟨oa', ch', e1', e2'⟩ := ih _ f (some a) (some a) hp hf1 hpw.2 (fun _ => hnone)
          have hoa : oa = none := by
            cases oa with
            | none => rfl
            | some y =>
              obtain ⟨h1, h2⟩ := find_leftAdj_loop_mem s c xs _ f y hp e1
              exact absurd h2 (hnone y h1)
          have hoa' : oa' = none := by
            rw [e1] at e1'
            injection e1' with e1'
            rw [← e1', hoa]
          subst hoa
          subst hoa'
          rw [coalesce_loop_found s c rightAdj f left change a ht]
          by_cases hr : rightAdj = none
          · exact ⟨some a, change, hfl, by rw [if_pos hr]; rfl⟩
          · rw [if_neg hr]
            by_cases hn : (s.mem a).next = rightAdj
            · exact ⟨some a, some a, hfl, by rw [if_pos hn]; rfl⟩
            · refine ⟨some a, ch, hfl, ?_⟩
              rw [if_neg hn, e2]
              rfl
        · -- the test fails at `a`
          have hfl : find_leftAdj_loop s c (f + 1) (some a) =
              find_leftAdj_loop s c f (s.mem a).next := by
            conv => lhs; unfold find_leftAdj_loop
            rw [if_neg ht]
          have hleft1 : left ≠ none → ∀ y ∈ xs,
              ¬ ((s.mem y).free = 0 ∧ c = y + BLOCK_SIZE + ALIGN8i (s.mem y).size) :=
            fun h y hy => hleft h y (List.mem_cons_of_mem _ hy)
          obtain ⟨oa, ch, e1, e2⟩ := ih _ f left change hp hf1 hpw.2 hleft1
          obtain ⟨oa', ch', e1', e2'⟩ := ih _ f left (some a) hp hf1 hpw.2 hleft1
          have hoa' : oa' = oa := by
            rw [e1] at e1'
            injection e1' with e1'
            exact e1'.symm
          subst hoa'
          rw [coalesce_loop_not_found s c rightAdj f left change a ht]
          by_cases hn : (s.mem a).next = rightAdj
          · rw [if_pos hn]
            by_cases hl : left = none
            · refine ⟨oa', ch', by rw [hfl]; exact e1, ?_⟩
              rw [if_neg (fun h => h hl)]
              exact e2'
            · refine ⟨oa', some a, by rw [hfl]; exact e1, ?_⟩
              rw [if_pos hl]
              have : oa' = none := by
                cases oa' with
                | none => rfl
                | some y =>
                  obtain ⟨h1, h2⟩ := find_leftAdj_loop_mem s c xs _ f y hp e1
                  exact absurd h2 (hleft1 hl y h1)
              rw [this]
              rfl
          · refine ⟨oa', ch, by rw [hfl]; exact e1, ?_⟩
            rw [if_neg hn]
            exact e2

/-- The second result of the single loop of `mymemory_opt.c` is what
`find_prevAdj` returns for the right neighbour `r`, on a list in which at most one
node has `r` for successor. -/
theorem coalesce_loop_change (s : Heap) (c r : Int) :
    ∀ (l : List Int) (p : Option Int) (fuel : Nat) (left change : Option Int),
      ListFrom s.mem p l → l.length ≤ fuel →
      l.Pairwise (fun x y => ¬ ((s.mem x).next = some r ∧ (s.mem y).next = some r)) →
      (change ≠ none → ∀ x ∈ l, ¬ (s.mem x).next = some r) →
      ∃ (a ob : Option Int), find_prevAdj_loop s r fuel p = Run.ret ob ∧
        Opt.coalesce_loop s c (some r) fuel left change p =
          Run.ret (a, ob.orElse (fun _ => change)) := by
  intro l
  induction l with
  | nil =>
    intro p fuel left change hp _ _ _
    cases p with
    | none => exact ⟨left, none, by cases fuel <;> rfl, by cases fuel <;> rfl⟩
    | some a => simp [ListFrom] at hp
  | cons x xs ih =>
    intro p fuel left change hp hf hpw hch
    cases p with
    | none => simp [ListFrom] at hp
    | some a =>
      simp only [ListFrom] at hp
      obtain ⟨rfl, hp⟩ := hp
      rw [List.pairwise_cons] at hpw
      cases fuel with
      | zero => simp at hf
      | succ f =>
        have hf1 : xs.length ≤ f := by simp only [List.length_cons] at hf; omega
        have hch1 : change ≠ none → ∀ y ∈ xs, ¬ (s.mem y).next = some r :=
          fun h y hy => hch h y (List.mem_cons_of_mem _ hy)
        have hr : ¬ (some r = none) := by simp
        by_cases hn : (s.mem a).next = some r
        · -- `a` is the node before `r`
          have hfp : find_prevAdj_loop s r (f + 1) (some a) = Run.ret (some a) := by
            unfold find_prevAdj_loop
            rw [if_pos hn]
          have hnone : ∀ y ∈ xs, ¬ (s.mem y).next = some r :=
            fun y hy h => hpw.1 y hy ⟨hn, h⟩
          by_cases ht : (s.mem a).free = 0 ∧ c = a + BLOCK_SIZE + ALIGN8i (s.mem a).size
          · rw [coalesce_loop_found s c (some r) f left change a ht, if_neg hr, if_pos hn]
            exact ⟨some a, some a, hfp, rfl⟩
          · rw [coalesce_loop_not_found s c (some r) f left change a ht, if_pos hn]
            by_cases hl : left = none
            · rw [if_neg (fun h => h hl)]
              obtain ⟨a1, ob, e1, e2⟩ := ih _ f left (some a) hp hf1 hpw.2 (fun _ => hnone)
              have hob : ob = none := by
                cases ob with
                | none => rfl
                | some y =>
                  obtain ⟨h1, h2⟩ := find_prevAdj_loop_mem s r xs _ f y hp e1
                  exact absurd h2 (hnone y h1)
              subst hob
              exact ⟨a1, some a, hfp, e2⟩
            · rw [if_pos hl]
              exact ⟨left, some a, hfp, rfl⟩
        · -- `a` is not the node before `r`
          have hfp : find_prevAdj_loop s r (f + 1) (some a) =
              find_prevAdj_loop s r f (s.mem a).next := by
            conv => lhs; unfold find_prevAdj_loop
            rw [if_neg hn]
          by_cases ht : (s.mem a).free = 0 ∧ c = a + BLOCK_SIZE + ALIGN8i (s.mem a).size
          · rw [coalesce_loop_found s c (some r) f left change a ht, if_neg hr, if_neg hn]
            obtain ⟨a1, ob, e1, e2⟩ := ih _ f (some a) change hp hf1 hpw.2 hch1
            exact ⟨a1, ob, by rw [hfp]; exact e1, e2⟩
          · rw [coalesce_loop_not_found s c (some r) f left change a ht, if_neg hn]
            obtain ⟨a1, ob, e1, e2⟩ := ih _ f left change hp hf1 hpw.2 hch1
            exact ⟨a1, ob, by rw [hfp]; exact e1, e2⟩

/-- On a state whose free list ends at `NULL` without repetition and has at most
one free node ending at `current`, the `coalesce` of `mymemory_opt.c` computes
what the `coalesce` of `mymemory.c` computes. -/
theorem coalesce_opt_eq (fuel : Nat) (s : Heap) (current isheap : Int) (l : List Int)
    (hl : ListFrom s.mem s.freehead l) (hnd : l.Nodup) (hfuel : l.length ≤ fuel)
    (huniq : ∀ x ∈ l, ∀ y ∈ l,
      (s.mem x).free = 0 ∧ current = x + BLOCK_SIZE + ALIGN8i (s.mem x).size →
      (s.mem y).free = 0 ∧ current = y + BLOCK_SIZE + ALIGN8i (s.mem y).size → x = y) :
    Opt.coalesce fuel s current isheap = coalesce fuel s current isheap := by
  have hpw : l.Pairwise (fun x y =>
      ¬ (((s.mem x).free = 0 ∧ current = x + BLOCK_SIZE + ALIGN8i (s.mem x).size) ∧
        ((s.mem y).free = 0 ∧ current = y + BLOCK_SIZE + ALIGN8i (s.mem y).size))) := by
    refine List.Pairwise.imp_of_mem ?_ hnd
    intro a b ha hb hne h
    exact hne (huniq a ha b hb h.1 h.2)
  unfold Opt.coalesce coalesce find_leftAdj find_rightAdj
  dsimp only
  generalize hR : (if isheap ≠ 1 then
      (if (s.mem (current + BLOCK_SIZE + ALIGN8i (s.mem current).size)).free = 0 then
        some (current + BLOCK_SIZE + ALIGN8i (s.mem current).size) else none)
      else none) = rightAdj
  obtain ⟨oa, ch, e1, e2⟩ := coalesce_loop_left s current rightAdj l s.freehead fuel none none
    hl hfuel hpw (fun h => absurd rfl h)
  rw [e1, e2]
  have hor : oa.orElse (fun _ => (none : Option Int)) = oa := by cases oa <;> rfl
  rw [hor]
  cases rightAdj with
  | none => cases oa <;> rfl
  | some r =>
    obtain ⟨a1, ob, f1, f2⟩ := coalesce_loop_change s current r l s.freehead fuel none none
      hl hfuel (pred_pairwise s.mem r l _ hl hnd) (fun h => absurd rfl h)
    rw [e2] at f2
    simp only [Run.ret.injEq, Prod.mk.injEq] at f2
    have hch : ch = ob := by
      rw [f2.2]; cases ob <;> rfl
    subst hch
    cases oa with
    | some l0 =>
      dsimp only
      unfold Opt.coalesce_both coalesce_both find_prevAdj
      rw [f1]
      by_cases hh : some r = s.freehead
      · simp only [hh, if_true]
      · simp only [hh, if_false]
        cases ch <;> rfl
    | none =>
      dsimp only
      unfold Opt.coalesce_right coalesce_right find_prevAdj
      rw [f1]
      by_cases hh : some r = s.freehead
      · simp only [hh, if_true]
      · simp only [hh, if_false]
        cases ch <;> rfl

/-- The search of `increase_heap` in `mymemory_opt.c` finds what `find_leftAdj`
finds after the size of the new page header is written, when that header is not a
node of the list. -/
theorem increase_heap_loop_eq (s : Heap) (newPtr v : Int) :
    ∀ (l : List Int) (p : Option Int) (fuel : Nat), ListFrom s.mem p l → newPtr ∉ l →
      l.length ≤ fuel →
      ∃ o : Option Int, find_leftAdj_loop (s.setSize newPtr v) newPtr fuel p = Run.ret o ∧
        Opt.increase_heap_loop s newPtr fuel p = Run.ret o ∧ ∀ L, o = some L → L ∈ l := by
  intro l
  induction l with
  | nil =>
    intro p fuel hp _ _
    cases p with
    | none => exact ⟨none, by cases fuel <;> rfl, by cases fuel <;> rfl, fun L h => by simp at h⟩
    | some a => simp [ListFrom] at hp
  | cons x xs ih =>
    intro p fuel hp hnew hf
    cases p with
    | none => simp [ListFrom] at hp
    | some a =>
      simp only [ListFrom] at hp
      obtain ⟨rfl, hp⟩ := hp
      simp only [List.mem_cons, not_or] at hnew
      cases fuel with
      | zero => simp at hf
      | succ f =>
        have hf1 : xs.length ≤ f := by simp only [List.length_cons] at hf; omega
        have ha : a ≠ newPtr := fun e => hnew.1 e.symm
        have hm : (s.setSize newPtr v).mem a = s.mem a := by
          rw [setSize_mem, if_neg ha]
        unfold find_leftAdj_loop Opt.increase_heap_loop
        rw [hm]
        by_cases ht : (s.mem a).free = 0 ∧ newPtr = a + BLOCK_SIZE + ALIGN8i (s.mem a).size
        · rw [if_pos ht, if_pos ht]
          exact ⟨some a, rfl, rfl, fun L h => by injection h with h; rw [← h]; simp⟩
        · rw [if_neg ht, if_neg ht]
          obtain ⟨o, e1, e2, e3⟩ := ih _ f hp hnew.2 hf1
          exact ⟨o, e1, e2, fun L h => List.mem_cons_of_mem _ (e3 L h)⟩

/-- On a state whose free list ends at `NULL` and does not contain the program
break, the `increase_heap` of `mymemory_opt.c` returns what the `increase_heap` of
`mymemory.c` returns, and the two resulting states agree on the head of the list,
on the break and on every field of every header, except that `mymemory.c` has
also stored 4080 in the `size` field at the old break. -/
theorem increase_heap_opt_eq (fuel : Nat) (s : Heap) (ok : Bool) (l : List Int)
    (hl : ListFrom s.mem s.freehead l) (hnew : s.brk ∉ l) (hfuel : l.length ≤ fuel) :
    ∃ (rc : Int) (s1 s2 : Heap), increase_heap fuel s ok = Run.ret (rc, s1) ∧
      Opt.increase_heap fuel s ok = Run.ret (rc, s2) ∧
      s1.freehead = s2.freehead ∧ s1.brk = s2.brk ∧
      (∀ a, (s1.mem a).free = (s2.mem a).free ∧ (s1.mem a).next = (s2.mem a).next) ∧
      (∀ a, a ≠ s.brk → (s1.mem a).size = (s2.mem a).size) ∧
      (ok = true → (s1.mem s.brk).size = 4096 - BLOCK_SIZE) := by
  cases ok with
  | false =>
    exact ⟨-1, s, s, rfl, rfl, rfl, rfl, fun a => ⟨rfl, rfl⟩, fun a _ => rfl,
      fun h => by simp at h⟩
  | true =>
    obtain ⟨o, e1, e2, e3⟩ := increase_heap_loop_eq ({ s with brk := s.brk + 4096 } : Heap)
      s.brk (4096 - BLOCK_SIZE) l s.freehead fuel hl hnew hfuel
    unfold increase_heap Opt.increase_heap coalesce find_leftAdj
    simp only [if_true, setSize_freehead, ne_eq, not_true_eq_false, if_false]
    rw [e1, e2]
    cases o with
    | none =>
      refine ⟨0, _, _, rfl, rfl, rfl, rfl, fun a => ⟨rfl, rfl⟩, fun a _ => rfl, fun _ => ?_⟩
      simp only [coalesce_none, setHead_mem, size_setNext, size_setSize, if_true]
    | some L =>
      have hL : L ≠ s.brk := fun e => hnew (e ▸ e3 L rfl)
      refine ⟨0, _, _, rfl, rfl, rfl, rfl, fun a => ⟨?_, ?_⟩, fun a ha => ?_, fun _ => ?_⟩
      · simp only [coalesce_left, free_setSize]
      · simp only [coalesce_left, next_setSize]
      · simp only [coalesce_left, size_setSize, ha, if_false, hL, if_true]
        have h4 : ALIGN8i (4096 - BLOCK_SIZE) = 4096 - BLOCK_SIZE := by decide
        rw [h4]
        have e : ∀ A : Int, A + (4096 - BLOCK_SIZE) + BLOCK_SIZE = A + 4096 := by
          intro A; ring
        rw [e]
      · simp only [coalesce_left, size_setSize, if_true]
        rw [if_neg hL.symm]

/-! ## Alignment in the reachable states, on the record memory -/

theorem closed_onList (W : Int → Prop) (s : Heap) (h : Closed W s) : ∀ a, OnList s a → W a := by
  intro a ha
  induction ha with
  | head h0 e => exact h.1 _ e
  | next a x _ e ih => exact h.2 a x ih e

theorem onList_closed (s : Heap) : Closed (OnList s) s :=
  ⟨fun h e => OnList.head h e, fun a x ha e => OnList.next a x ha e⟩

theorem inv_of_closed (base : Int) (W : Int → Prop) (s : Heap) (hb : (s.brk - base) % 8 = 0)
    (hA : ∀ a, W a → (a - base) % 8 = 0) (hc : Closed W s) : Inv base s :=
  ⟨hb, fun a ha => hA a (closed_onList W s hc a ha)⟩

theorem ALIGN8i_mod (x : Int) : ALIGN8i x % 8 = 0 := by
  rw [ALIGN8i_eq]
  have h := ALIGN8_mod x
  unfold i32; omega

theorem find_leftAdj_loop_onList (s : Heap) (c : Int) :
    ∀ (fuel : Nat) (p : Option Int) (l : Int), (∀ x, p = some x → OnList s x) →
      find_leftAdj_loop s c fuel p = Run.ret (some l) → OnList s l := by
  intro fuel
  induction fuel with
  | zero =>
    intro p l _ h
    cases p <;> simp [find_leftAdj_loop] at h
  | succ f ih =>
    intro p l hp h
    cases p with
    | none => simp [find_leftAdj_loop] at h
    | some a =>
      unfold find_leftAdj_loop at h
      split at h
      · injection h with h; injection h with h
        rw [← h]; exact hp a rfl
      · exact ih _ l (fun x e => OnList.next a x (hp a rfl) e) h

theorem find_prevAdj_loop_onList (s : Heap) (r : Int) :
    ∀ (fuel : Nat) (p : Option Int) (c : Int), (∀ x, p = some x → OnList s x) →
      find_prevAdj_loop s r fuel p = Run.ret (some c) →
      OnList s c ∧ (s.mem c).next = some r := by
  intro fuel
  induction fuel with
  | zero =>
    intro p l _ h
    cases p <;> simp [find_prevAdj_loop] at h
  | succ f ih =>
    intro p l hp h
    cases p with
    | none => simp [find_prevAdj_loop] at h
    | some a =>
      unfold find_prevAdj_loop at h
      split at h
      · rename_i hc
        injection h with h; injection h with h
        rw [← h]; exact ⟨hp a rfl, hc⟩
      · exact ih _ l (fun x e => OnList.next a x (hp a rfl) e) h

theorem malloc_loop_onList (s : Heap) (n : Int) :
    ∀ (fuel : Nat) (prev p : Option Int) (res : Int × Heap),
      (∀ x, p = some x → OnList s x) → (∀ x, prev = some x → OnList s x) →
      malloc_loop s n fuel prev p = Run.ret (some res) →
      ∃ (prev1 : Option Int) (curr : Int), (∀ x, prev1 = some x → OnList s x) ∧ OnList s curr ∧
        malloc_split s n prev1 curr = Run.ret res := by
  intro fuel
  induction fuel with
  | zero =>
    intro prev p res _ _ h
    cases p <;> simp [malloc_loop] at h
  | succ f ih =>
    intro prev p res hp hprev h
    cases p with
    | none => simp [malloc_loop] at h
    | some a =>
      unfold malloc_loop at h
      split at h
      · refine ⟨prev, a, hprev, hp a rfl, ?_⟩
        cases hs : malloc_split s n prev a with
        | loops => rw [hs] at h; simp at h
        | crash => rw [hs] at h; simp at h
        | ret r =>
          rw [hs] at h
          simp only [Run.ret.injEq, Option.some.injEq] at h
          rw [h]
      · exact ih (some a) _ res (fun x e => OnList.next a x (hp a rfl) e)
          (fun x e => by injection e with e; rw [← e]; exact hp a rfl) h

/-- The split keeps the invariant: the new header lies `ALIGN8(size) + 16` above a
node of the list. -/
theorem malloc_split_inv (base : Int) (s : Heap) (n : Int) (prev : Option Int) (curr p : Int)
    (s' : Heap) (hI : Inv base s) (hprev : ∀ x, prev = some x → OnList s x)
    (hcurr : OnList s curr) (h : malloc_split s n prev curr = Run.ret (p, s')) :
    Inv base s' ∧ p = curr + BLOCK_SIZE ∧ (s'.mem curr).free = 1 := by
  have hW := onList_closed s
  have hnew : (curr + ALIGN8 n + BLOCK_SIZE - base) % 8 = 0 := by
    have h1 := hI.2 curr hcurr
    have h2 := ALIGN8_mod n
    have hB : BLOCK_SIZE = 16 := rfl
    omega
  have hA : ∀ a, (OnList s a ∨ a = curr + ALIGN8 n + BLOCK_SIZE) → (a - base) % 8 = 0 := by
    rintro a (ha | rfl)
    · exact hI.2 a ha
    · exact hnew
  unfold malloc_split at h
  cases prev with
  | none =>
    simp only [setFree_freehead, setSize_freehead] at h
    cases hh : s.freehead with
    | none => rw [hh] at h; simp at h
    | some hd =>
      rw [hh] at h
      simp only [Run.ret.injEq, Prod.mk.injEq] at h
      obtain ⟨hp, hs⟩ := h
      subst hs
      refine ⟨inv_of_closed base _ _ hI.1 hA ⟨?_, ?_⟩, hp.symm, ?_⟩
      · intro x hx
        simp only [setFree_freehead, setSize_freehead, setHead_freehead, Option.some.injEq] at hx
        right; exact hx.symm
      · intro a x ha hx
        simp only [next_setFree, next_setSize, setHead_mem, next_setNext] at hx
        split at hx
        · left; exact hW.2 hd x (hW.1 hd hh) hx
        · rcases ha with ha | ha
          · left; exact hW.2 a x ha hx
          · contradiction
      · simp only [free_setFree, if_true]
  | some c =>
    simp only [Run.ret.injEq, Prod.mk.injEq] at h
    obtain ⟨hp, hs⟩ := h
    subst hs
    refine ⟨inv_of_closed base _ _ hI.1 hA ⟨?_, ?_⟩, hp.symm, ?_⟩
    · intro x hx
      simp only [setFree_freehead, setSize_freehead, setNext_freehead, setHead_freehead,
        Option.some.injEq] at hx
      right; exact hx.symm
    · intro a x ha hx
      simp only [next_setFree, next_setSize, setHead_mem, next_setNext, setFree_freehead,
        setSize_freehead] at hx
      split at hx
      · split at hx
        · left; exact hW.1 x hx
        · left; exact hW.2 curr x hcurr hx
      · split at hx
        · left; exact hW.1 x hx
        · rcases ha with ha | ha
          · left; exact hW.2 a x ha hx
          · contradiction
    · simp only [free_setFree, if_true]

theorem closed_setSize (W : Int → Prop) (s : Heap) (p v : Int) (h : Closed W s) :
    Closed W (s.setSize p v) :=
  ⟨h.1, fun a x ha hx => h.2 a x ha (by rw [next_setSize] at hx; exact hx)⟩

theorem closed_setFree (W : Int → Prop) (s : Heap) (p v : Int) (h : Closed W s) :
    Closed W (s.setFree p v) :=
  ⟨h.1, fun a x ha hx => h.2 a x ha (by rw [next_setFree] at hx; exact hx)⟩

theorem closed_setHead (W : Int → Prop) (s : Heap) (v : Option Int) (h : Closed W s)
    (hv : ∀ x, v = some x → W x) : Closed W (s.setHead v) :=
  ⟨fun x hx => hv x hx, h.2⟩

theorem closed_setNext (W : Int → Prop) (s : Heap) (p : Int) (v : Option Int) (h : Closed W s)
    (hv : ∀ x, v = some x → W x) : Closed W (s.setNext p v) := by
  refine ⟨h.1, fun a x ha hx => ?_⟩
  rw [next_setNext] at hx
  split at hx
  · exact hv x hx
  · exact h.2 a x ha hx

/-- The node that `coalesce` takes for the right neighbour is on the list when
the relinking goes through: it is the head, or the successor of the node that
`find_prevAdj` returns. -/
theorem coalesce_both_closed (W : Int → Prop) (fuel : Nat) (s : Heap) (current l r : Int)
    (s' : Heap) (hc : Closed W s) (hW : ∀ a, OnList s a → W a)
    (h : coalesce_both fuel s current l r = Run.ret s') :
    Closed W s' ∧ s'.brk = s.brk := by
  unfold coalesce_both at h
  by_cases hh : some r = s.freehead
  · simp only [hh, if_true, Run.ret.injEq] at h
    subst h
    exact ⟨closed_setSize W _ _ _ (closed_setHead W s _ hc
      (fun x hx => hc.2 r x (hc.1 r hh.symm) hx)), rfl⟩
  · simp only [hh, if_false] at h
    cases hp : find_prevAdj fuel s r with
    | loops => rw [hp] at h; simp at h
    | crash => rw [hp] at h; simp at h
    | ret o =>
      rw [hp] at h
      cases o with
      | none => simp at h
      | some c =>
        simp only [Run.ret.injEq] at h
        subst h
        obtain ⟨h1, h2⟩ := find_prevAdj_loop_onList s r fuel s.freehead c
          (fun x e => OnList.head x e) hp
        have hr : W r := hc.2 c r (hW c h1) h2
        exact ⟨closed_setSize W _ _ _ (closed_setNext W s _ _ hc
          (fun x hx => hc.2 r x hr hx)), rfl⟩

theorem coalesce_right_closed (fuel : Nat) (s : Heap) (current r : Int) (s' : Heap)
    (h : coalesce_right fuel s current r = Run.ret s') :
    Closed (fun a => OnList s a ∨ a = current) s' ∧ s'.brk = s.brk := by
  have hW := onList_closed s
  unfold coalesce_right at h
  by_cases hh : some r = s.freehead
  · simp only [hh, if_true, Run.ret.injEq] at h
    subst h
    refine ⟨⟨?_, ?_⟩, rfl⟩
    · intro x hx
      simp only [setSize_freehead, setNext_freehead, setHead_freehead, Option.some.injEq] at hx
      right; exact hx.symm
    · intro a x ha hx
      simp only [next_setSize, next_setNext, setHead_mem] at hx
      split at hx
      · left; exact hW.2 r x (hW.1 r hh.symm) hx
      · rcases ha with ha | ha
        · left; exact hW.2 a x ha hx
        · contradiction
  · simp only [hh, if_false] at h
    cases hp : find_prevAdj fuel s r with
    | loops => rw [hp] at h; simp at h
    | crash => rw [hp] at h; simp at h
    | ret o =>
      rw [hp] at h
      cases o with
      | none => simp at h
      | some c =>
        simp only [Run.ret.injEq] at h
        subst h
        obtain ⟨h1, h2⟩ := find_prevAdj_loop_onList s r fuel s.freehead c
          (fun x e => OnList.head x e) hp
        have hr : OnList s r := OnList.next c r h1 h2
        refine ⟨⟨?_, ?_⟩, rfl⟩
        · intro x hx
          simp only [setSize_freehead, setNext_freehead] at hx
          left; exact hW.1 x hx
        · intro a x ha hx
          simp only [next_setSize, next_setNext] at hx
          split at hx
          · split at hx
            · right; injection hx with hx; exact hx.symm
            · left; exact hW.2 r x hr hx
          · split at hx
            · right; injection hx with hx; exact hx.symm
            · rcases ha with ha | ha
              · left; exact hW.2 a x ha hx
              · contradiction

/-- The function `coalesce` keeps the invariant when `current` is aligned. -/
theorem coalesce_inv (base : Int) (fuel : Nat) (s : Heap) (current isheap : Int) (s' : Heap)
    (hI : Inv base s) (hcur : (current - base) % 8 = 0)
    (h : coalesce fuel s current isheap = Run.ret s') : Inv base s' := by
  have hW := onList_closed s
  have hA : ∀ a, (OnList s a ∨ a = current) → (a - base) % 8 = 0 := by
    rintro a (ha | rfl)
    · exact hI.2 a ha
    · exact hcur
  unfold coalesce at h
  cases hl : find_leftAdj fuel s current with
  | loops => rw [hl] at h; simp at h
  | crash => rw [hl] at h; simp at h
  | ret leftAdj =>
    rw [hl] at h
    simp only at h
    generalize (if isheap ≠ 1 then find_rightAdj s current else none) = rightAdj at h
    cases leftAdj with
    | some l =>
      cases rightAdj with
      | some r =>
        simp only at h
        obtain ⟨h1, h2⟩ := coalesce_both_closed (OnList s) fuel s current l r s' hW
          (fun a ha => ha) h
        exact inv_of_closed base _ s' (by rw [h2]; exact hI.1) hI.2 h1
      | none =>
        simp only [Run.ret.injEq] at h
        subst h
        exact inv_of_closed base _ _ hI.1 hI.2 (closed_setSize _ _ _ _ hW)
    | none =>
      cases rightAdj with
      | some r =>
        simp only at h
        obtain ⟨h1, h2⟩ := coalesce_right_closed fuel s current r s' h
        exact inv_of_closed base _ s' (by rw [h2]; exact hI.1) hA h1
      | none =>
        simp only [Run.ret.injEq] at h
        subst h
        refine inv_of_closed base _ _ hI.1 hA ⟨?_, ?_⟩
        · intro x hx
          simp only [coalesce_none, setHead_freehead, Option.some.injEq] at hx
          right; exact hx.symm
        · intro a x ha hx
          simp only [coalesce_none, setHead_mem, next_setNext] at hx
          split at hx
          · left; exact hW.1 x hx
          · rcases ha with ha | ha
            · left; exact hW.2 a x ha hx
            · contradiction

theorem increase_heap_inv (base : Int) (fuel : Nat) (s : Heap) (ok : Bool) (rc : Int)
    (s' : Heap) (hI : Inv base s) (h : increase_heap fuel s ok = Run.ret (rc, s')) :
    Inv base s' := by
  unfold increase_heap at h
  cases ok with
  | false =>
    simp only [Bool.false_eq_true, if_false, Run.ret.injEq, Prod.mk.injEq] at h
    rw [← h.2]; exact hI
  | true =>
    simp only [if_true] at h
    have hI2 : Inv base (({ s with brk := s.brk + 4096 } : Heap).setSize s.brk
        (4096 - BLOCK_SIZE)) := by
      have hcl : Closed (OnList s) ({ s with brk := s.brk + 4096 } : Heap) := onList_closed s
      refine inv_of_closed base (OnList s) _ ?_ hI.2 (closed_setSize _ _ _ _ hcl)
      have := hI.1
      simp only [setSize_brk]
      omega
    cases hc : coalesce fuel (({ s with brk := s.brk + 4096 } : Heap).setSize s.brk
        (4096 - BLOCK_SIZE)) s.brk 1 with
    | loops => rw [hc] at h; simp at h
    | crash => rw [hc] at h; simp at h
    | ret s3 =>
      rw [hc] at h
      simp only [Run.ret.injEq, Prod.mk.injEq] at h
      rw [← h.2]
      exact coalesce_inv base fuel _ s.brk 1 s3 hI2 hI.1 hc

/-- The function `malloc_lock` keeps the invariant, and a pointer it returns is
aligned and lies 16 bytes above a header that is now in use. -/
theorem malloc_lock_inv (base : Int) (n : Int) :
    ∀ (fuel : Nat) (pages : Nat → Bool) (s : Heap) (r : MallocResult), Inv base s →
      malloc_lock fuel pages s n = Run.ret r →
      Inv base r.heap ∧
        ∀ p, r.ptr = some p →
          (p - base) % 8 = 0 ∧ (r.heap.mem (p - BLOCK_SIZE)).free = 1 := by
  intro fuel
  induction fuel with
  | zero => intro pages s r _ h; simp [malloc_lock] at h
  | succ f ih =>
    intro pages s r hI h
    unfold malloc_lock at h
    cases hl : malloc_loop s n f none s.freehead with
    | loops => rw [hl] at h; simp at h
    | crash => rw [hl] at h; simp at h
    | ret o =>
      rw [hl] at h
      cases o with
      | some res =>
        obtain ⟨p, s1⟩ := res
        simp only [Run.ret.injEq] at h
        subst h
        obtain ⟨prev1, curr, h1, h2, h3⟩ := malloc_loop_onList s n f none s.freehead (p, s1)
          (fun x e => OnList.head x e) (fun x e => by simp at e) hl
        obtain ⟨g1, g2, g3⟩ := malloc_split_inv base s n prev1 curr p s1 hI h1 h2 h3
        refine ⟨g1, ?_⟩
        intro q hq
        simp only [Option.some.injEq] at hq
        subst hq
        have hB : BLOCK_SIZE = 16 := rfl
        have e : p - BLOCK_SIZE = curr := by rw [g2]; ring
        rw [e]
        refine ⟨?_, g3⟩
        have := hI.2 curr h2
        rw [g2, hB]; omega
      | none =>
        simp only at h
        cases hi : increase_heap f s (pages 0) with
        | loops => rw [hi] at h; simp at h
        | crash => rw [hi] at h; simp at h
        | ret res =>
          obtain ⟨rc, s1⟩ := res
          rw [hi] at h
          simp only at h
          have hI1 := increase_heap_inv base f s (pages 0) rc s1 hI hi
          by_cases hrc : rc = -1
          · simp only [hrc, if_true, Run.ret.injEq] at h
            subst h
            exact ⟨hI1, fun p hp => by simp at hp⟩
          · simp only [hrc, if_false] at h
            cases hm : malloc_lock f (fun i => pages (i + 1)) s1 n with
            | loops => rw [hm] at h; simp at h
            | crash => rw [hm] at h; simp at h
            | ret r1 =>
              rw [hm] at h
              simp only [Run.ret.injEq] at h
              subst h
              exact ih _ s1 r1 hI1 hm

theorem free_lock_inv (base : Int) (fuel : Nat) (s : Heap) (p rc : Int) (s' : Heap)
    (hI : Inv base s) (hp : (p - base) % 8 = 0) (h : free_lock fuel s p = Run.ret (rc, s')) :
    Inv base s' := by
  unfold free_lock at h
  by_cases hf : (s.mem (p - BLOCK_SIZE)).free = 1
  · simp only [hf, if_true] at h
    cases hc : coalesce fuel (s.setFree (p - BLOCK_SIZE) 0) (p - BLOCK_SIZE) 0 with
    | loops => rw [hc] at h; simp at h
    | crash => rw [hc] at h; simp at h
    | ret s2 =>
      rw [hc] at h
      simp only [Run.ret.injEq, Prod.mk.injEq] at h
      rw [← h.2]
      have hI1 : Inv base (s.setFree (p - BLOCK_SIZE) 0) :=
        inv_of_closed base (OnList s) _ hI.1 hI.2 (closed_setFree _ _ _ _ (onList_closed s))
      have hB : BLOCK_SIZE = 16 := rfl
      exact coalesce_inv base fuel _ _ 0 s2 hI1 (by rw [hB]; omega) hc
  · simp only [hf, if_false, Run.ret.injEq, Prod.mk.injEq] at h
    rw [← h.2]; exact hI

theorem init_inv (s0 : Heap) (ok : Bool) : Inv s0.brk (mymalloc_init s0 ok).2 := by
  have hA : ∀ a, a = s0.brk → (a - s0.brk) % 8 = 0 := by
    intro a ha; rw [ha]; simp
  cases ok with
  | true =>
    refine inv_of_closed s0.brk (fun a => a = s0.brk) _ ?_ hA ⟨?_, ?_⟩
    · show (s0.brk + 4096 - s0.brk) % 8 = 0
      omega
    · intro h hh
      have e : (mymalloc_init s0 true).2.freehead = some s0.brk := rfl
      rw [e] at hh
      injection hh with hh
      exact hh.symm
    · intro a x ha hx
      subst ha
      simp [mymalloc_init] at hx
  | false =>
    refine inv_of_closed s0.brk (fun a => a = s0.brk) _ ?_ hA ⟨?_, ?_⟩
    · show (s0.brk - s0.brk) % 8 = 0
      simp
    · intro h hh
      have e : (mymalloc_init s0 false).2.freehead = some s0.brk := rfl
      rw [e] at hh
      injection hh with hh
      exact hh.symm
    · intro a x ha hx
      subst ha
      simp [mymalloc_init] at hx

/-- On the record memory: in every reachable state the break, the nodes of the free
list and the pointers handed out lie at multiples of 8 from the arena base. -/
theorem reach_inv (s0 s : Heap) (ps : List Int) (h : Reach s0 s ps) :
    Inv s0.brk s ∧ ∀ q ∈ ps, (q - s0.brk) % 8 = 0 := by
  induction h with
  | init ok => exact ⟨init_inv s0 ok, fun q hq => by simp at hq⟩
  | allocate s ps fuel pages n r _ _ _ hm ih =>
    obtain ⟨h1, h2⟩ := malloc_lock_inv s0.brk n fuel pages s r ih.1 hm
    refine ⟨h1, ?_⟩
    intro q hq
    rcases List.mem_append.1 hq with hq | hq
    · exact (h2 q (by simpa using hq)).1
    · exact ih.2 q hq
  | deallocate s s' ps fuel p rc _ hp hf ih =>
    exact ⟨free_lock_inv s0.brk fuel s p rc s' ih.1 (ih.2 p hp) hf, ih.2⟩

/-- On the record memory, where headers at different addresses share no field: in
every state reachable from `mymalloc_init`, a non-null pointer `p` returned by
`mymalloc` lies exactly `BLOCK_SIZE = 16` above a header whose `free` field is now
1, and `p` is a multiple of 8 away from the arena base (the break before
`mymalloc_init`); so are the header, every node of the free list after the call,
and every pointer handed out before.  (On bytes this fails once two headers
overlap, as the run on byte-addressed memory at the end of the file shows.) -/
theorem record_pointer_aligned (s0 s : Heap) (ps : List Int) (fuel : Nat)
    (pages : Nat → Bool) (n : Int) (r : MallocResult) (p : Int)
    (hR : Reach s0 s ps) (hm : mymalloc fuel pages s n = Run.ret r) (hp : r.ptr = some p) :
    (r.heap.mem (p - BLOCK_SIZE)).free = 1 ∧ (p - s0.brk) % 8 = 0 ∧
      (p - BLOCK_SIZE - s0.brk) % 8 = 0 ∧
      (∀ a, OnList r.heap a → (a - s0.brk) % 8 = 0) ∧
      ∀ q ∈ ps, (q - s0.brk) % 8 = 0 ∧ (q - BLOCK_SIZE - s0.brk) % 8 = 0 := by
  obtain ⟨h1, h2⟩ := reach_inv s0 s ps hR
  obtain ⟨h3, h4⟩ := malloc_lock_inv s0.brk n fuel pages s r h1 hm
  obtain ⟨h5, h6⟩ := h4 p hp
  have hB : BLOCK_SIZE = 16 := rfl
  refine ⟨h6, h5, by rw [hB]; omega, h3.2, fun q hq => ⟨h2 q hq, ?_⟩⟩
  have := h2 q hq
  rw [hB]; omega

theorem record_pointer_aligned_example :
    Reach boot fresh [] ∧
    ∃ s' : Heap, mymalloc 3 (fun _ => false) fresh 100 = Run.ret ⟨some 65552, s', 0⟩ ∧
      (s'.mem (65552 - BLOCK_SIZE)).free = 1 ∧ (65552 - boot.brk) % 8 = 0 ∧
      ∀ a, OnList s' a → (a - boot.brk) % 8 = 0 := by
  obtain ⟨s', e, -⟩ := malloc_lock_head 1 (fun _ => false) fresh 100 65536 (by decide)
    (by decide) (by decide)
  have h := record_pointer_aligned boot fresh [] 3 (fun _ => false) 100
    ⟨some 65552, s', 0⟩ 65552 (Reach.init true) e rfl
  exact ⟨Reach.init true, s', e, h.1, h.2.1, h.2.2.2.1⟩

/-! ## Growth of the arena in the reachable states -/

/-- The growth step on a state whose list head is free and ends at the program
break: the page is merged into the head (lines 242-248 of `coalesce`). -/
theorem increase_heap_head_merge (fuel : Nat) (s : Heap) (h : Int)
    (hh : s.freehead = some h) (hfree : (s.mem h).free = 0) (hne : h ≠ s.brk)
    (hend : s.brk = h + BLOCK_SIZE + ALIGN8i (s.mem h).size) :
    increase_heap (fuel + 1) s true =
      Run.ret (0, (({ s with brk := s.brk + 4096 } : Heap).setSize s.brk
        (4096 - BLOCK_SIZE)).setSize h
          (i32 (ALIGN8i (s.mem h).size + ALIGN8i (4096 - BLOCK_SIZE) + BLOCK_SIZE))) := by
  have hl : find_leftAdj (fuel + 1)
      (({ s with brk := s.brk + 4096 } : Heap).setSize s.brk (4096 - BLOCK_SIZE)) s.brk =
      Run.ret (some h) := by
    unfold find_leftAdj
    rw [setSize_freehead]
    show find_leftAdj_loop _ _ _ s.freehead = _
    rw [hh]
    unfold find_leftAdj_loop
    rw [if_pos]
    rw [setSize_mem, if_neg hne]
    exact ⟨hfree, hend⟩
  have hco : coalesce (fuel + 1)
      (({ s with brk := s.brk + 4096 } : Heap).setSize s.brk (4096 - BLOCK_SIZE)) s.brk 1 =
      Run.ret ((({ s with brk := s.brk + 4096 } : Heap).setSize s.brk
        (4096 - BLOCK_SIZE)).setSize h
        (i32 (ALIGN8i (s.mem h).size + ALIGN8i (4096 - BLOCK_SIZE) + BLOCK_SIZE))) := by
    unfold coalesce
    rw [hl]
    simp [coalesce_left, hne]
  simp only [increase_heap, if_true, hco]

/-- The growth step on a state whose list is the single node `h`, which does not
end at the program break: the new page becomes the head of the list (lines
274-280 of `coalesce`), its `free` field is not written. -/
theorem increase_heap_single_none (fuel : Nat) (s : Heap) (h : Int)
    (hh : s.freehead = some h) (hnext : (s.mem h).next = none) (hne : h ≠ s.brk)
    (hend : s.brk ≠ h + BLOCK_SIZE + ALIGN8i (s.mem h).size) :
    increase_heap (fuel + 1) s true =
      Run.ret (0, (((({ s with brk := s.brk + 4096 } : Heap).setSize s.brk
        (4096 - BLOCK_SIZE)).setNext s.brk (some h)).setHead (some s.brk))) := by
  have hl : find_leftAdj (fuel + 1)
      (({ s with brk := s.brk + 4096 } : Heap).setSize s.brk (4096 - BLOCK_SIZE)) s.brk =
      Run.ret none := by
    unfold find_leftAdj
    rw [setSize_freehead]
    show find_leftAdj_loop _ _ _ s.freehead = _
    rw [hh]
    unfold find_leftAdj_loop
    rw [setSize_mem, if_neg hne, if_neg (fun e => hend e.2), hnext]
    cases fuel <;> rfl
  have hco : coalesce (fuel + 1)
      (({ s with brk := s.brk + 4096 } : Heap).setSize s.brk (4096 - BLOCK_SIZE)) s.brk 1 =
      Run.ret (((({ s with brk := s.brk + 4096 } : Heap).setSize s.brk
        (4096 - BLOCK_SIZE)).setNext s.brk (some h)).setHead (some s.brk)) := by
    unfold coalesce
    rw [hl]
    simp only [ne_eq, not_true_eq_false, if_false, coalesce_none, setSize_freehead]
    show Run.ret (((({ s with brk := s.brk + 4096 } : Heap).setSize s.brk
        (4096 - BLOCK_SIZE)).setNext s.brk s.freehead).setHead (some s.brk)) = _
    rw [hh]
  simp only [increase_heap, if_true, hco]

/-- A request that no block below 2 GiB can hold, on an arena that is one free
block: every successful page request adds 4096 to the size of the block, until
the page requests fail; `k` pages have been added before the call and `m` are
added by it. -/
theorem malloc_lock_grows (n : Int)
    (hn : 2147487728 < u32 (ALIGN8 n + BLOCK_SIZE)) :
    ∀ (m : Nat) (k : Int) (pages : Nat → Bool) (s : Heap) (fuel : Nat),
      0 ≤ k → k + m ≤ 524288 →
      s.freehead = some 65536 → s.mem 65536 = ⟨i32 (4080 + 4096 * k), 0, none⟩ →
      s.brk = 65536 + 4096 * (k + 1) →
      (∀ i, i < m → pages i = true) → pages m = false →
      ∃ s' : Heap, malloc_lock (m + fuel + 3) pages s n = Run.ret ⟨none, s', m + 1⟩ ∧
        s'.freehead = some 65536 ∧ s'.mem 65536 = ⟨i32 (4080 + 4096 * (k + m)), 0, none⟩ ∧
        s'.brk = 65536 + 4096 * (k + m + 1) := by
  intro m
  induction m with
  | zero =>
    intro k pages s fuel hk0 hk hh hm hb _ hp
    have hno : ¬ (u32 (ALIGN8 n + BLOCK_SIZE) ≤ u32 (s.mem 65536).size ∧
        (s.mem 65536).free = 0) := by
      rw [hm]
      intro h
      have h1 := h.1
      simp only at h1
      unfold u32 i32 at h1
      unfold u32 at hn
      omega
    refine ⟨s, ?_, hh, by simpa using hm, by simpa using hb⟩
    have := malloc_lock_single_fail fuel pages s n 65536 hh (by rw [hm]) hno hp
    simpa using this
  | succ m ih =>
    intro k pages s fuel hk0 hk hh hm hb hp hpl
    have hk' : k + m + 1 ≤ 524288 := by push_cast at hk; omega
    have hB : BLOCK_SIZE = 16 := rfl
    have hno : ¬ (u32 (s.mem 65536).size ≥ u32 (ALIGN8 n + BLOCK_SIZE) ∧
        (s.mem 65536).free = 0) := by
      rw [hm]
      intro h
      have h1 := h.1
      simp only at h1
      unfold u32 i32 at h1
      unfold u32 at hn
      omega
    have hloop : malloc_loop s n (m + fuel + 3) none s.freehead = Run.ret none := by
      rw [hh]
      unfold malloc_loop
      rw [if_neg hno, hm]
      rfl
    have hsize : i32 (4080 + 4096 * k) = 4080 + 4096 * k := by unfold i32; omega
    have hal : ALIGN8i (4080 + 4096 * k) = 4080 + 4096 * k :=
      ALIGN8i_aligned _ (by omega) (by omega) (by omega)
    have a1 : ALIGN8i (4096 - BLOCK_SIZE) = 4080 := by decide
    have hinc := increase_heap_head_merge (m + fuel + 2) s 65536 hh (by rw [hm])
      (by rw [hb]; omega) (by rw [hm, hb]; simp only; rw [hsize, hal, hB]; ring)
    rw [hm] at hinc
    simp only at hinc
    rw [hsize, hal, a1, hB] at hinc
    obtain ⟨s', e, g1, g2, g3⟩ := ih (k + 1) (fun i => pages (i + 1))
      ((({ s with brk := s.brk + 4096 } : Heap).setSize s.brk (4096 - 16)).setSize 65536
        (i32 (4080 + 4096 * k + 4080 + 16))) fuel (by omega) (by omega)
      (by simp [hh])
      (by
        have : (65536 : Int) ≠ s.brk := by rw [hb]; omega
        simp [this, hm]
        congr 1
        ring)
      (by simp [hb]; ring)
      (fun i hi => hp (i + 1) (by omega)) hpl
    refine ⟨s', ?_, g1, ?_, ?_⟩
    · have e0 : m + 1 + fuel + 3 = (m + fuel + 3) + 1 := by omega
      rw [e0]
      unfold malloc_lock
      rw [hloop]
      simp only
      rw [hp 0 (by omega)]
      have hinc1 : increase_heap (m + fuel + 3) s true = _ := hinc
      rw [hinc1]
      simp only [e]
      simp
    · rw [g2]; congr 2; push_cast; ring
    · rw [g3]; push_cast; ring

/-- The growth step on a state whose free list ends at `NULL`, does not contain the
program break, and has exactly one free node `L` ending at the break: the page
is merged into `L`, whose size becomes `ALIGN8(L->size) + 4096`; the list, its
order and every other field of its nodes stay as they are. -/
theorem increase_heap_merges (fuel : Nat) (s : Heap) (L : Int) (l : List Int)
    (hl : ListFrom s.mem s.freehead l) (hL : L ∈ l) (hLfree : (s.mem L).free = 0)
    (hLend : s.brk = L + BLOCK_SIZE + ALIGN8i (s.mem L).size)
    (huniq : ∀ x ∈ l, (s.mem x).free = 0 →
      s.brk = x + BLOCK_SIZE + ALIGN8i (s.mem x).size → x = L)
    (hnew : s.brk ∉ l) (hfuel : l.length ≤ fuel) :
    ∃ s' : Heap, increase_heap fuel s true = Run.ret (0, s') ∧
      s'.brk = s.brk + 4096 ∧ s'.freehead = s.freehead ∧
      ListFrom s'.mem s'.freehead l ∧
      (s'.mem L).size = i32 (ALIGN8i (s.mem L).size + 4096) ∧
      ∀ x ∈ l, (s'.mem x).free = (s.mem x).free ∧ (s'.mem x).next = (s.mem x).next ∧
        (x ≠ L → (s'.mem x).size = (s.mem x).size) := by
  have hLne : L ≠ s.brk := fun e => hnew (e ▸ hL)
  have hm : ∀ x ∈ l, (({ s with brk := s.brk + 4096 } : Heap).setSize s.brk
      (4096 - BLOCK_SIZE)).mem x = s.mem x := by
    intro x hx
    have : x ≠ s.brk := fun e => hnew (e ▸ hx)
    rw [setSize_mem, if_neg this]
  have hl2 : ListFrom (({ s with brk := s.brk + 4096 } : Heap).setSize s.brk
      (4096 - BLOCK_SIZE)).mem s.freehead l :=
    ListFrom_frame s.mem _ l _ (fun x hx => by rw [hm x hx]) hl
  have hleft : find_leftAdj fuel (({ s with brk := s.brk + 4096 } : Heap).setSize s.brk
      (4096 - BLOCK_SIZE)) s.brk = Run.ret (some L) := by
    refine find_leftAdj_loop_unique _ s.brk L (by rw [hm L hL]; exact hLfree)
      (by rw [hm L hL]; exact hLend) l _ fuel hl2 hL ?_ hfuel
    intro x hx h1 h2
    rw [hm x hx] at h1 h2
    exact huniq x hx h1 h2
  have a1 : ALIGN8i (4096 - BLOCK_SIZE) = 4080 := by decide
  have hB : BLOCK_SIZE = 16 := rfl
  refine ⟨(({ s with brk := s.brk + 4096 } : Heap).setSize s.brk (4096 - BLOCK_SIZE)).setSize L
    (i32 (ALIGN8i (s.mem L).size + 4096)), ?_, rfl, rfl, ?_, ?_, ?_⟩
  · unfold increase_heap
    simp only [if_true]
    unfold coalesce
    rw [hleft]
    simp only [ne_eq, not_true_eq_false, if_false, coalesce_left, size_setSize, if_neg hLne,
      if_true, a1, hB]
    have a2 : ALIGN8i (4096 - 16) = 4080 := by decide
    have e : ALIGN8i (s.mem L).size + 4080 + 16 = ALIGN8i (s.mem L).size + 4096 := by ring
    rw [a2, e]
  · exact ListFrom_frame s.mem _ l _ (fun x _ => by simp only [next_setSize]) hl
  · simp only [size_setSize, if_true]
  · intro x hx
    have hxb : x ≠ s.brk := fun e => hnew (e ▸ hx)
    refine ⟨by simp only [free_setSize], by simp only [next_setSize], fun hxL => ?_⟩
    simp only [size_setSize, if_neg hxL, if_neg hxb]

/-- C21 (fails on the code): a successful growth step that finds no left
neighbour.  On the machine `boot`, `mymalloc(3000000000)` is served 524288 pages
and then refused one: it returns `NULL`, and the size of the single free block,
`4080 + 524288 * 4096 = 2147487728`, has wrapped around in the `int` field to
`-2147479568`, so the block no longer ends at the program break.  The next
successful growth step in this state takes the last branch of `coalesce`: it
leaves the size of the block as it is and makes the new page header, whose `free`
field it does not write, the head of the free list. -/
theorem C21_growth_inserts_header :
    ∃ s : Heap,
      mymalloc 524291 (fun i => decide (i < 524288)) fresh 3000000000 =
        Run.ret ⟨none, s, 524289⟩ ∧
      Reach boot s [] ∧
      s.freehead = some 65536 ∧ s.mem 65536 = ⟨-2147479568, 0, none⟩ ∧ s.brk = 2147553280 ∧
      65536 + BLOCK_SIZE + ALIGN8i (s.mem 65536).size ≠ s.brk ∧
      ∃ s' : Heap, increase_heap 8 s true = Run.ret (0, s') ∧
        s'.freehead = some 2147553280 ∧ (s'.mem 2147553280).next = some 65536 ∧
        (s'.mem 2147553280).size = 4080 ∧
        (s'.mem 2147553280).free = (s.mem 2147553280).free ∧
        s'.mem 65536 = ⟨-2147479568, 0, none⟩ ∧ s'.brk = 2147557376 := by
  obtain ⟨s, e, h1, h2, h3⟩ := malloc_lock_grows 3000000000 (by decide) 524288 0
    (fun i => decide (i < 524288)) fresh 0 (by decide) (by decide) (by decide) (by decide)
    (by decide) (fun i hi => decide_eq_true hi) (by decide)
  have v1 : i32 (4080 + 4096 * (0 + ((524288 : Nat) : Int))) = -2147479568 := by decide
  have v2 : (65536 : Int) + 4096 * (0 + ((524288 : Nat) : Int) + 1) = 2147553280 := by decide
  rw [v1] at h2
  rw [v2] at h3
  have e' : mymalloc 524291 (fun i => decide (i < 524288)) fresh 3000000000 =
      Run.ret ⟨none, s, 524289⟩ := e
  have a1 : ALIGN8i (-2147479568) = -2147479568 := by decide
  have hB : BLOCK_SIZE = 16 := rfl
  have hend : s.brk ≠ 65536 + BLOCK_SIZE + ALIGN8i (s.mem 65536).size := by
    rw [h2, h3]; simp only; rw [a1, hB]; decide
  have hne : (65536 : Int) ≠ s.brk := by rw [h3]; decide
  have hinc := increase_heap_single_none 7 s 65536 h1 (by rw [h2]) hne hend
  refine ⟨s, e', ?_, h1, h2, h3, fun h => hend h.symm, _, hinc, ?_, ?_, ?_, ?_, ?_, ?_⟩
  · exact Reach.allocate fresh [] 524291 (fun i => decide (i < 524288)) 3000000000
      ⟨none, s, 524289⟩ (Reach.init true) (by decide) (by decide) e'
  · rw [setHead_freehead, h3]
  · simp only [setHead_mem, next_setNext, h3, if_true]
  · simp only [setHead_mem, size_setNext, size_setSize, h3, if_true, hB]; decide
  · simp only [setHead_mem, free_setNext, free_setSize, h3]
  · rw [setHead_mem, setNext_mem, setSize_mem, h3, if_neg (by decide), if_neg (by decide)]
    exact h2
  · simp only [setHead_brk, setNext_brk, setSize_brk, h3]; decide

/-! ## The frame of a call -/

/-- C22 (fails on the code): a call writes over a live block.  After
`a = mymalloc(4294967295)`, `b = mymalloc(8)`, `myfree(a)`, the call `mymalloc(0)`
splits the block of `a` (size field `-1`) and writes the remainder header at
`65552`, the header of the live block `b`: its size goes from 8 to `-17` and its
state from in use to free.  With `b = mymalloc(16)` and a last call `mymalloc(16)`
instead, the remainder header is written at `65568`, the first byte of the
payload `[65568, 65584)` of the live block `b`, whose own header is left as it
was. -/
theorem C22_live_block_overwritten :
    replies (steps 8 false fresh [Call.allocate 4294967295, Call.allocate 8,
        Call.deallocate 65552, Call.allocate 0]) =
      Run.ret [Reply.pointer (some 65552) 0, Reply.pointer (some 65568) 0, Reply.status 0,
        Reply.pointer (some 65552) 0] ∧
    (heapAfter fresh (steps 8 false fresh [Call.allocate 4294967295, Call.allocate 8,
        Call.deallocate 65552])).mem (65568 - BLOCK_SIZE) = ⟨8, 1, none⟩ ∧
    (heapAfter fresh (steps 8 false fresh [Call.allocate 4294967295, Call.allocate 8,
        Call.deallocate 65552, Call.allocate 0])).mem (65568 - BLOCK_SIZE) =
      ⟨-17, 0, some 65576⟩ ∧
    replies (steps 8 false fresh [Call.allocate 4294967295, Call.allocate 16,
        Call.deallocate 65552, Call.allocate 16]) =
      Run.ret [Reply.pointer (some 65552) 0, Reply.pointer (some 65568) 0, Reply.status 0,
        Reply.pointer (some 65552) 0] ∧
    (heapAfter fresh (steps 8 false fresh [Call.allocate 4294967295, Call.allocate 16,
        Call.deallocate 65552])).mem 65568 = ⟨0, 0, none⟩ ∧
    (heapAfter fresh (steps 8 false fresh [Call.allocate 4294967295, Call.allocate 16,
        Call.deallocate 65552, Call.allocate 16])).mem 65568 = ⟨-33, 0, some 65584⟩ ∧
    (heapAfter fresh (steps 8 false fresh [Call.allocate 4294967295, Call.allocate 16,
        Call.deallocate 65552, Call.allocate 16])).mem (65568 - BLOCK_SIZE) = ⟨16, 1, none⟩ ∧
    (heapAfter fresh (steps 8 false fresh [Call.allocate 4294967295, Call.allocate 16,
        Call.deallocate 65552, Call.allocate 16])).freehead = some 65568 ∧
    (65568 : Int) < 65568 + ALIGN8i 16 := by
  decide

/-! ## The rounding macro -/

/-- C23 (fails on the code as stated): for the unsigned value `4294967295` the
macro `ALIGN8` yields `0`, which is below its operand: `x + 7` wraps around in
`unsigned int`.  The same holds from `4294967289` on. -/
theorem C23_align8_wraps :
    ALIGN8 4294967295 = 0 ∧ ¬ (4294967295 ≤ ALIGN8 4294967295) ∧ ALIGN8 4294967289 = 0 ∧
    ALIGN8 4294967288 = 4294967288 := by
  decide

/-- C23 (amended): for every `unsigned int` value `x`, `ALIGN8(x)` is an
`unsigned int` multiple of 8 and `ALIGN8(ALIGN8(x)) = ALIGN8(x)`; for
`x <= 4294967288` it is the least multiple of 8 that is at least `x`
(so `x <= ALIGN8(x) < x + 8`); for the seven values above, it is `0`. -/
theorem C23_align8_rounds_up (x : Int) (h0 : 0 ≤ x) (h1 : x < 4294967296) :
    ALIGN8 x % 8 = 0 ∧ 0 ≤ ALIGN8 x ∧ ALIGN8 x < 4294967296 ∧
    ALIGN8 (ALIGN8 x) = ALIGN8 x ∧
    (x ≤ 4294967288 →
      x ≤ ALIGN8 x ∧ ALIGN8 x < x + 8 ∧ ∀ m : Int, m % 8 = 0 → x ≤ m → ALIGN8 x ≤ m) ∧
    (4294967288 < x → ALIGN8 x = 0) := by
  have e := ALIGN8_eq x
  have e2 := ALIGN8_eq (ALIGN8 x)
  unfold u32 at e e2
  refine ⟨by omega, by omega, by omega, by omega, ?_, by omega⟩
  intro h
  refine ⟨by omega, by omega, ?_⟩
  intro m hm hx
  omega

theorem C23_align8_rounds_up_witness :
    (0 : Int) ≤ 100 ∧ (100 : Int) < 4294967296 ∧ ALIGN8 100 % 8 = 0 ∧
    ALIGN8 (ALIGN8 100) = ALIGN8 100 ∧ 100 ≤ ALIGN8 100 ∧ ALIGN8 100 < 100 + 8 := by
  have h := C23_align8_rounds_up 100 (by decide) (by decide)
  exact ⟨by decide, by decide, h.1, h.2.2.2.1, (h.2.2.2.2.1 (by decide)).1,
    (h.2.2.2.2.1 (by decide)).2.1⟩

/-! ## Calls that do not return in the states a wrapped size leads to -/

theorem wrapped_find_leftAdj_loop (fuel : Nat) :
    find_leftAdj_loop (wrapped.setFree 65536 0) 65536 fuel (some 65576) = Run.loops := by
  have hm : (wrapped.setFree 65536 0).mem 65576 = ⟨-41, 0, some 65576⟩ := by decide
  induction fuel with
  | zero => rfl
  | succ f ih =>
    unfold find_leftAdj_loop
    rw [hm]
    have hc : ¬ ((0 : Int) = 0 ∧ (65536 : Int) = 65576 + BLOCK_SIZE + ALIGN8i (-41)) := by
      decide
    simp only [hc, if_false]
    exact ih

/-- C6 (fails on the code): an in-use header on which `myfree` does not return 0.
In the state `wrapped`, reached by `a = mymalloc(4294967295)`, `b = mymalloc(8)`,
`myfree(a)`, `c = mymalloc(24)`, the header `65536` of the live pointer
`c = 65552` is in use, and `myfree(c)` never returns: `find_leftAdj` walks the free
list, whose only node `65576` is its own successor and does not end at `65536`.
In the state `orphaned` the header `65552` of the live pointer `b = 65568` is in
use, and `myfree(b)` dereferences `NULL`. -/
theorem C6_deallocate_does_not_return :
    replies (steps 8 false fresh [Call.allocate 4294967295, Call.allocate 8,
        Call.deallocate 65552, Call.allocate 24]) =
      Run.ret [Reply.pointer (some 65552) 0, Reply.pointer (some 65568) 0, Reply.status 0,
        Reply.pointer (some 65552) 0] ∧
    (wrapped.mem (65552 - BLOCK_SIZE)).free = 1 ∧
    (∀ fuel : Nat, myfree fuel wrapped 65552 = Run.loops) ∧
    replies (steps 8 false fresh [Call.allocate 4294967295, Call.allocate 8, Call.allocate 8,
        Call.deallocate 65552, Call.allocate 24, Call.deallocate 65552]) =
      Run.ret [Reply.pointer (some 65552) 0, Reply.pointer (some 65568) 0,
        Reply.pointer (some 65592) 0, Reply.status 0, Reply.pointer (some 65552) 0,
        Reply.status 0] ∧
    (orphaned.mem (65568 - BLOCK_SIZE)).free = 1 ∧
    replies (myfree 8 orphaned 65568) = Run.crash := by
  refine ⟨by decide, by decide, ?_, by decide, by decide, by decide⟩
  intro fuel
  have hf : (wrapped.mem 65536).free = 1 := by decide
  have hB : (65552 : Int) - BLOCK_SIZE = 65536 := by decide
  have hh : (wrapped.setFree 65536 0).freehead = some 65576 := by decide
  unfold myfree free_lock
  simp only [hB, hf, if_true]
  unfold coalesce find_leftAdj
  rw [hh, wrapped_find_leftAdj_loop]

/-- C17 (fails on the code): first fit on a size field that has wrapped.  After
`a = mymalloc(4294967295)`, `b = mymalloc(8)`, `myfree(a)` the free list is
`65536` (size `-1`), `65576` (size 4040), both free.  For `mymalloc(24)` the only
node with `size >= ALIGN8(24) + 16 = 40` as an `int` is `65576`; the test of
line 104 compares as `unsigned int` and takes `65536`: the call returns `65552`,
and writes the remainder header at `65536 + 24 + 16 = 65576`, on the other node of
the list, whose size 4040 becomes `-41` and whose link now points to itself. -/
theorem C17_first_fit_on_wrapped_size :
    replies (steps 8 false fresh [Call.allocate 4294967295, Call.allocate 8,
        Call.deallocate 65552, Call.allocate 24]) =
      Run.ret [Reply.pointer (some 65552) 0, Reply.pointer (some 65568) 0, Reply.status 0,
        Reply.pointer (some 65552) 0] ∧
    ListFrom (heapAfter fresh (steps 8 false fresh [Call.allocate 4294967295, Call.allocate 8,
        Call.deallocate 65552])).mem
      (heapAfter fresh (steps 8 false fresh [Call.allocate 4294967295, Call.allocate 8,
        Call.deallocate 65552])).freehead [65536, 65576] ∧
    (heapAfter fresh (steps 8 false fresh [Call.allocate 4294967295, Call.allocate 8,
        Call.deallocate 65552])).mem 65536 = ⟨-1, 0, some 65576⟩ ∧
    (heapAfter fresh (steps 8 false fresh [Call.allocate 4294967295, Call.allocate 8,
        Call.deallocate 65552])).mem 65576 = ⟨4040, 0, none⟩ ∧
    ¬ (ALIGN8 24 + BLOCK_SIZE ≤ (-1 : Int)) ∧ ALIGN8 24 + BLOCK_SIZE ≤ (4040 : Int) ∧
    u32 (-1) ≥ u32 (ALIGN8 24 + BLOCK_SIZE) ∧
    (65552 : Int) = 65536 + BLOCK_SIZE ∧ (65552 : Int) ≠ 65576 + BLOCK_SIZE ∧
    (65536 : Int) + ALIGN8 24 + BLOCK_SIZE = 65576 ∧
    wrapped.freehead = some 65576 ∧ wrapped.mem 65576 = ⟨-41, 0, some 65576⟩ ∧
    wrapped.mem 65536 = ⟨24, 1, some 65576⟩ := by
  decide

/-- C18 (fails on the code): coalescing with both neighbours free.  After
`a = mymalloc(4294967295)`, `b = mymalloc(32)`, `myfree(a)`, `c = mymalloc(48)`,
`d = mymalloc(24)`, `myfree(b)` the header `65600` of `d` is in use and the head
`65640` of the free list (size `-56`, free) is both what `find_leftAdj` and what
`find_rightAdj` return for it.  `myfree(d)` returns 0, takes `65640` off the list
as the right neighbour and makes its successor the head: that is `65600`, the
block being freed, whose link points to itself; the surviving left neighbour is
no longer on the list.  In the state `orphaned` the block of `b = 65568` has the
free left neighbour `65536` on the list and a right neighbour `65576` that reads
free, and `myfree(b)` dereferences `NULL`. -/
theorem C18_coalesce_both_on_wrapped_size :
    replies (steps 8 false fresh [Call.allocate 4294967295, Call.allocate 32,
        Call.deallocate 65552, Call.allocate 48, Call.allocate 24, Call.deallocate 65568,
        Call.deallocate 65616]) =
      Run.ret [Reply.pointer (some 65552) 0, Reply.pointer (some 65568) 0, Reply.status 0,
        Reply.pointer (some 65552) 0, Reply.pointer (some 65616) 0, Reply.status 0,
        Reply.status 0] ∧
    (heapAfter fresh (steps 8 false fresh [Call.allocate 4294967295, Call.allocate 32,
        Call.deallocate 65552, Call.allocate 48, Call.allocate 24,
        Call.deallocate 65568])).freehead = some 65640 ∧
    (heapAfter fresh (steps 8 false fresh [Call.allocate 4294967295, Call.allocate 32,
        Call.deallocate 65552, Call.allocate 48, Call.allocate 24,
        Call.deallocate 65568])).mem 65640 = ⟨-56, 0, some 65600⟩ ∧
    (heapAfter fresh (steps 8 false fresh [Call.allocate 4294967295, Call.allocate 32,
        Call.deallocate 65552, Call.allocate 48, Call.allocate 24,
        Call.deallocate 65568])).mem (65616 - BLOCK_SIZE) = ⟨24, 1, some 65600⟩ ∧
    find_leftAdj 8 ((heapAfter fresh (steps 8 false fresh [Call.allocate 4294967295,
        Call.allocate 32, Call.deallocate 65552, Call.allocate 48, Call.allocate 24,
        Call.deallocate 65568])).setFree 65600 0) 65600 = Run.ret (some 65640) ∧
    find_rightAdj ((heapAfter fresh (steps 8 false fresh [Call.allocate 4294967295,
        Call.allocate 32, Call.deallocate 65552, Call.allocate 48, Call.allocate 24,
        Call.deallocate 65568])).setFree 65600 0) 65600 = some 65640 ∧
    (heapAfter fresh (steps 8 false fresh [Call.allocate 4294967295, Call.allocate 32,
        Call.deallocate 65552, Call.allocate 48, Call.allocate 24, Call.deallocate 65568,
        Call.deallocate 65616])).freehead = some 65600 ∧
    (heapAfter fresh (steps 8 false fresh [Call.allocate 4294967295, Call.allocate 32,
        Call.deallocate 65552, Call.allocate 48, Call.allocate 24, Call.deallocate 65568,
        Call.deallocate 65616])).mem 65600 = ⟨24, 0, some 65600⟩ ∧
    (heapAfter fresh (steps 8 false fresh [Call.allocate 4294967295, Call.allocate 32,
        Call.deallocate 65552, Call.allocate 48, Call.allocate 24, Call.deallocate 65568,
        Call.deallocate 65616])).mem 65640 = ⟨-56, 0, some 65600⟩ ∧
    (orphaned.mem (65568 - BLOCK_SIZE)).free = 1 ∧
    find_leftAdj 8 (orphaned.setFree (65568 - BLOCK_SIZE) 0) (65568 - BLOCK_SIZE) =
      Run.ret (some 65536) ∧
    find_rightAdj (orphaned.setFree (65568 - BLOCK_SIZE) 0) (65568 - BLOCK_SIZE) =
      some 65576 ∧
    replies (myfree 8 orphaned 65568) = Run.crash := by
  decide

/-! ## Out of memory after pages were granted -/

/-- The function `coalesce` leaves the program break alone. -/
theorem coalesce_brk (fuel : Nat) (s : Heap) (current isheap : Int) (s' : Heap)
    (h : coalesce fuel s current isheap = Run.ret s') : s'.brk = s.brk := by
  unfold coalesce at h
  cases hl : find_leftAdj fuel s current with
  | loops => rw [hl] at h; simp at h
  | crash => rw [hl] at h; simp at h
  | ret leftAdj =>
    rw [hl] at h
    simp only at h
    generalize (if isheap ≠ 1 then find_rightAdj s current else none) = rightAdj at h
    cases leftAdj with
    | some l =>
      cases rightAdj with
      | some r =>
        simp only at h
        exact (coalesce_both_closed (OnList s) fuel s current l r s' (onList_closed s)
          (fun a ha => ha) h).2
      | none =>
        simp only [Run.ret.injEq] at h
        subst h
        rfl
    | none =>
      cases rightAdj with
      | some r =>
        simp only at h
        exact (coalesce_right_closed fuel s current r s' h).2
      | none =>
        simp only [Run.ret.injEq] at h
        subst h
        rfl

/-- A granted page: `increase_heap` returns 0 and the break has moved up by 4096. -/
theorem increase_heap_granted (fuel : Nat) (s : Heap) (rc : Int) (s' : Heap)
    (h : increase_heap fuel s true = Run.ret (rc, s')) : rc = 0 ∧ s'.brk = s.brk + 4096 := by
  unfold increase_heap at h
  simp only [if_true] at h
  cases hc : coalesce fuel (({ s with brk := s.brk + 4096 } : Heap).setSize s.brk
      (4096 - BLOCK_SIZE)) s.brk 1 with
  | loops => rw [hc] at h; simp at h
  | crash => rw [hc] at h; simp at h
  | ret s3 =>
    rw [hc] at h
    simp only [Run.ret.injEq, Prod.mk.injEq] at h
    refine ⟨h.1.symm, ?_⟩
    rw [← h.2, coalesce_brk _ _ _ _ _ hc]
    rfl

/-- When `malloc_lock` returns `NULL`: the last page request of the call failed,
the ones before it were granted, each granted page moved the break up by 4096,
and if the first request failed the state is the one before the call. -/
theorem malloc_lock_null_state (fuel : Nat) :
    ∀ (pages : Nat → Bool) (s : Heap) (n : Int) (r : MallocResult),
      malloc_lock fuel pages s n = Run.ret r → r.ptr = none →
      0 < r.heapCalls ∧ pages (r.heapCalls - 1) = false ∧
      (∀ i, i + 1 < r.heapCalls → pages i = true) ∧
      r.heap.brk = s.brk + 4096 * ((r.heapCalls : Int) - 1) ∧
      (r.heapCalls = 1 → r.heap = s) := by
  induction fuel with
  | zero => intro pages s n r h; simp [malloc_lock] at h
  | succ f ih =>
    intro pages s n r h hnull
    unfold malloc_lock at h
    cases hl : malloc_loop s n f none s.freehead with
    | loops => rw [hl] at h; simp at h
    | crash => rw [hl] at h; simp at h
    | ret o =>
      rw [hl] at h
      cases o with
      | some res =>
        obtain ⟨p, s1⟩ := res
        simp only [Run.ret.injEq] at h
        subst h
        simp at hnull
      | none =>
        simp only at h
        cases hp : pages 0 with
        | false =>
          rw [hp] at h
          simp only [increase_heap, Bool.false_eq_true, if_false, if_true, Run.ret.injEq] at h
          subst h
          refine ⟨Nat.one_pos, hp, fun i hi => ?_, by simp, fun _ => rfl⟩
          simp at hi
        | true =>
          rw [hp] at h
          cases hi : increase_heap f s true with
          | loops => rw [hi] at h; simp at h
          | crash => rw [hi] at h; simp at h
          | ret res =>
            obtain ⟨rc, s1⟩ := res
            rw [hi] at h
            obtain ⟨hrc, hb⟩ := increase_heap_granted f s rc s1 hi
            subst hrc
            simp only [show ¬ ((0 : Int) = -1) by decide, if_false] at h
            cases hm : malloc_lock f (fun i => pages (i + 1)) s1 n with
            | loops => rw [hm] at h; simp at h
            | crash => rw [hm] at h; simp at h
            | ret r1 =>
              rw [hm] at h
              simp only [Run.ret.injEq] at h
              subst h
              obtain ⟨h1, h2, h3, h4, -⟩ := ih _ s1 n r1 hm hnull
              refine ⟨Nat.succ_pos _, ?_, ?_, ?_, ?_⟩
              · simp only [Nat.add_sub_cancel]
                have e : r1.heapCalls - 1 + 1 = r1.heapCalls := by omega
                rw [← e]
                exact h2
              · intro i hi1
                cases i with
                | zero => exact hp
                | succ j => exact h3 j (by simp only at hi1; omega)
              · simp only
                rw [h4, hb]
                push_cast
                ring
              · intro e1
                simp only at e1
                omega

/-- On the record memory, pages granted before the refusal are kept.  On the
machine `boot` after init, `mymalloc(10000)` with the first page request granted
and the second refused finds no fit (4080, then 8176, against the 10016 needed)
and returns `NULL`; the program break has moved from `69632` to `73728` and the
size of the free block from 4080 to 8176. -/
theorem granted_pages_are_kept_record :
    ∃ h : Heap, mymalloc 4 (fun i => decide (i < 1)) fresh 10000 = Run.ret ⟨none, h, 2⟩ ∧
      ¬ (u32 (fresh.mem 65536).size ≥ u32 (ALIGN8 10000 + BLOCK_SIZE)) ∧
      ¬ (u32 (h.mem 65536).size ≥ u32 (ALIGN8 10000 + BLOCK_SIZE)) ∧
      fresh.brk = 69632 ∧ h.brk = 73728 ∧
      (fresh.mem 65536).size = 4080 ∧ (h.mem 65536).size = 8176 := by
  have hno : ∀ x ∈ [(65536 : Int)],
      ¬ (u32 (fresh.mem x).size ≥ u32 (ALIGN8 10000 + BLOCK_SIZE) ∧ (fresh.mem x).free = 0) := by
    decide
  have hloop : malloc_loop fresh 10000 3 none fresh.freehead = Run.ret none :=
    malloc_loop_no_fit fresh 10000 [65536] _ _ 3 (by decide) hno (by decide)
  have hinc := increase_heap_head_merge 2 fresh 65536 (by decide) (by decide) (by decide)
    (by decide)
  have hfail := malloc_lock_single_fail 0 (fun i => decide (i + 1 < 1))
    ((({ fresh with brk := fresh.brk + 4096 } : Heap).setSize fresh.brk
      (4096 - BLOCK_SIZE)).setSize 65536
        (i32 (ALIGN8i (fresh.mem 65536).size + ALIGN8i (4096 - BLOCK_SIZE) + BLOCK_SIZE)))
    10000 65536 (by decide) (by decide) (by decide) (by decide)
  refine ⟨((({ fresh with brk := fresh.brk + 4096 } : Heap).setSize fresh.brk
      (4096 - BLOCK_SIZE)).setSize 65536
        (i32 (ALIGN8i (fresh.mem 65536).size + ALIGN8i (4096 - BLOCK_SIZE) + BLOCK_SIZE))),
    ?_, by decide, by decide, by decide, by decide, by decide, by decide⟩
  · unfold mymalloc malloc_lock
    rw [hloop]
    simp only
    have hinc1 : increase_heap 3 fresh true = _ := hinc
    have hp0 : decide (0 < 1) = true := by decide
    rw [hp0, hinc1]
    simp only [show ¬ ((0 : Int) = -1) by decide, if_false]
    have hfail1 : malloc_lock 3 (fun i => decide (i + 1 < 1)) _ 10000 = _ := hfail
    rw [hfail1]

/-- On the record memory: a failing page request makes `increase_heap` return -1
with the state untouched.  When the loop of `malloc_lock` ends without a fit,
which it does on a free list that ends at `NULL` and has no node passing the test
of line 104, and the first page request of the call fails, `mymalloc` returns
`NULL` after one call of `increase_heap` and the whole state is the one before
the call.  Whenever `mymalloc` returns `NULL`, it called `increase_heap`, the
last page request of the call failed and all the earlier ones were granted; every
granted page has moved the break up by 4096, and the state is the one before the
call when no page was granted. -/
theorem out_of_memory_record (fuel : Nat) (pages : Nat → Bool) (s : Heap) (n : Int) :
    increase_heap fuel s false = Run.ret (-1, s) ∧
    (malloc_loop s n fuel none s.freehead = Run.ret none → pages 0 = false →
      mymalloc (fuel + 1) pages s n = Run.ret ⟨none, s, 1⟩) ∧
    (∀ l : List Int, ListFrom s.mem s.freehead l →
      (∀ x ∈ l, ¬ (u32 (s.mem x).size ≥ u32 (ALIGN8 n + BLOCK_SIZE) ∧ (s.mem x).free = 0)) →
      l.length ≤ fuel → pages 0 = false →
      mymalloc (fuel + 1) pages s n = Run.ret ⟨none, s, 1⟩) ∧
    (∀ r : MallocResult, mymalloc fuel pages s n = Run.ret r → r.ptr = none →
      0 < r.heapCalls ∧ pages (r.heapCalls - 1) = false ∧
      (∀ i, i + 1 < r.heapCalls → pages i = true) ∧
      r.heap.brk = s.brk + 4096 * ((r.heapCalls : Int) - 1) ∧
      (r.heapCalls = 1 → r.heap = s)) := by
  have hop : malloc_loop s n fuel none s.freehead = Run.ret none → pages 0 = false →
      mymalloc (fuel + 1) pages s n = Run.ret ⟨none, s, 1⟩ := by
    intro hl hp
    unfold mymalloc malloc_lock
    rw [hl]
    simp [increase_heap, hp]
  refine ⟨by simp [increase_heap], hop, ?_, ?_⟩
  · intro l hl hno hlen hp
    exact hop (malloc_loop_no_fit s n l _ _ fuel hl hno hlen) hp
  · intro r h hnull
    exact malloc_lock_null_state fuel pages s n r h hnull

theorem out_of_memory_record_example :
    malloc_loop fresh 5000 8 none fresh.freehead = Run.ret none ∧
    ListFrom fresh.mem fresh.freehead [65536] ∧
    (∀ x ∈ [(65536 : Int)],
      ¬ (u32 (fresh.mem x).size ≥ u32 (ALIGN8 5000 + BLOCK_SIZE) ∧ (fresh.mem x).free = 0)) ∧
    [(65536 : Int)].length ≤ 8 ∧ (fun _ : Nat => false) 0 = false ∧
    mymalloc 9 (fun _ => false) fresh 5000 = Run.ret ⟨none, fresh, 1⟩ ∧
    (0 < (1 : Nat) ∧ (fun _ : Nat => false) (1 - 1) = false ∧
      fresh.brk = fresh.brk + 4096 * (((1 : Nat) : Int) - 1)) := by
  have h := out_of_memory_record 8 (fun _ => false) fresh 5000
  have h2 := h.2.2.1 [65536] (by decide) (by decide) (by decide) rfl
  have hl : malloc_loop fresh 5000 8 none fresh.freehead = Run.ret none :=
    malloc_loop_no_fit fresh 5000 [65536] _ _ 8 (by decide) (by decide) (by decide)
  have h3 := h.2.1 hl rfl
  have h4 := (out_of_memory_record 9 (fun _ => false) fresh 5000).2.2.2 _ h3 rfl
  exact ⟨hl, by decide, by decide, by decide, rfl, h2, h4.1, h4.2.1, h4.2.2.2.1⟩

/-! ## Runs on byte-addressed memory -/

/-- C14 (fails on the code): when the page request fails, `mymalloc_init` does not
return.  It stores through `freehead` (lines 47-49) before it tests the result of
`sbrk` (line 51); with the request refused `freehead` is the program break, and
the first of these stores faults, whatever the state.  When the request succeeds,
on the machine `boot`, it returns 0 and leaves one page with the header
`(4080, free, NULL)` at the arena base, which is the head of the free list. -/
theorem C14_init_failure_faults :
    (∀ s : Raw.Machine, Raw.mymalloc_init s false = Run.crash) ∧
    replies (Raw.mymalloc_init Raw.boot true) = Run.ret 0 ∧
    Raw.fresh.freehead = 65536 ∧ Raw.fresh.brk = 65536 + 4096 ∧
    Raw.getSize Raw.fresh 65536 = Run.ret (4096 - BLOCK_SIZE) ∧
    Raw.getFree Raw.fresh 65536 = Run.ret 0 ∧ Raw.getNext Raw.fresh 65536 = Run.ret 0 := by
  refine ⟨?_, by decide, by decide, by decide, by decide, by decide, by decide⟩
  intro s
  have h : ¬ (0 < s.brk ∧ s.low ≤ s.brk ∧ s.brk + ((4 : Nat) : Int) ≤ s.brk) := by
    intro h
    have := h.2.2
    omega
  simp only [Raw.mymalloc_init, Raw.setSize, Raw.store, Bool.false_eq_true, if_false, h,
    Run.bind]

/-! ## Out of memory, on byte-addressed memory -/

end MemSim
